import Mathlib

/-! RISC-V physical memory protection (target/riscv/pmp.c)

A shallow embedding of the PMP unit of the emulator: the rule table with its
derived address ranges, the `pmpcfg` / `pmpaddr` / `mseccfg` register writes,
and the matcher `pmp_hart_has_privs`.

Conventions of the embedding.

* `target_ulong` values are natural numbers below `2 ^ XLEN`; every operation
  of the source that can leave that interval is reduced modulo `2 ^ XLEN`.
* `int` is the 32-bit two's complement integer of the C compilers the emulator
  is built with; a conversion to `int` is `to_int`.
* The arrays `pmp_state.pmp` and `pmp_state.addr` are functions on indices;
  the source only ever touches indices below `MAX_RISCV_PMPS`.
* A `for` loop is a recursive function on the number of iterations left.
* `g_assert_not_reached ()` aborts the emulator: a function that can reach it
  returns an `Option`, and `none` is the abort.
* An output pointer (`allowed_privs`, `sa`, `ea`) becomes part of the result;
  the value the pointee has before the call is an argument.
-/

namespace PMP

/-! ## Build-time parameters and constants -/

/-- Build-time parameters of the emulator which the headers (not part of the
sources at hand) fix: whether `target_ulong` has 64 bits (else 32), the number
of PMP entries and the page size exponent. -/
structure Target where
  is64 : Bool
  MAX_RISCV_PMPS : Nat
  TARGET_PAGE_BITS : Nat

/-- Width of `target_ulong` in bits. -/
def Target.XLEN (t : Target) : Nat := if t.is64 then 64 else 32

/-- Reduction of a natural number to a `target_ulong`. -/
def Target.wrap (t : Target) (x : Nat) : Nat := x % 2 ^ t.XLEN

/-- The constant `TARGET_PAGE_SIZE`. -/
def Target.TARGET_PAGE_SIZE (t : Target) : Nat := 2 ^ t.TARGET_PAGE_BITS

/-- The constant `TARGET_PAGE_MASK`, that is `(target_long)-1 << TARGET_PAGE_BITS`,
read as a `target_ulong`. -/
def Target.TARGET_PAGE_MASK (t : Target) : Nat :=
  t.wrap ((2 ^ t.XLEN - 1) <<< t.TARGET_PAGE_BITS)

/-- Modelled from the spec: the cfg bit R (bit 0); the enumeration `pmp_priv_t`
is declared in `pmp.h`. -/
abbrev PMP_READ : Nat := 1
/-- Modelled from the spec: the cfg bit W (bit 1). -/
abbrev PMP_WRITE : Nat := 2
/-- Modelled from the spec: the cfg bit X (bit 2). -/
abbrev PMP_EXEC : Nat := 4
/-- Modelled from the spec: the cfg bit L (bit 7). -/
abbrev PMP_LOCK : Nat := 0x80

/-- Modelled from the spec: address matching mode OFF (0); the enumeration
`pmp_am_t` is declared in `pmp.h`. -/
abbrev PMP_AMATCH_OFF : Nat := 0
/-- Modelled from the spec: address matching mode TOR (1). -/
abbrev PMP_AMATCH_TOR : Nat := 1
/-- Modelled from the spec: address matching mode NA4 (2). -/
abbrev PMP_AMATCH_NA4 : Nat := 2
/-- Modelled from the spec: address matching mode NAPOT (3). -/
abbrev PMP_AMATCH_NAPOT : Nat := 3

/-- Modelled from the spec: the bit MML of `mseccfg`. The spec names the three
bits of the word; `pmp.h`, which places them, is not among the sources, and the
layout of the RISC-V ePMP extension is taken (MML bit 0). -/
abbrev MSECCFG_MML : Nat := 1
/-- Modelled from the spec: the bit MMWP of `mseccfg` (bit 1 in the ePMP layout). -/
abbrev MSECCFG_MMWP : Nat := 2
/-- Modelled from the spec: the bit RLB of `mseccfg` (bit 2 in the ePMP layout). -/
abbrev MSECCFG_RLB : Nat := 4

/-- Modelled from the spec: the privilege mode M; `cpu_bits.h` is not among the
sources and the RISC-V encoding (3) is taken. -/
abbrev PRV_M : Nat := 3
/-- Modelled from the spec: the privilege mode S (RISC-V encoding 1). -/
abbrev PRV_S : Nat := 1
/-- Modelled from the spec: the privilege mode U (RISC-V encoding 0). -/
abbrev PRV_U : Nat := 0

/-! ## The state -/

/-- One PMP entry: the address register and the cfg byte (`pmp_entry_t`). -/
structure pmp_entry_t where
  addr_reg : Nat
  cfg_reg : Nat

/-- The derived inclusive range of an entry (`pmp_addr_t`). -/
structure pmp_addr_t where
  sa : Nat
  ea : Nat

/-- The rule table (`pmp_table_t`). -/
structure pmp_table_t where
  pmp : Nat → pmp_entry_t
  addr : Nat → pmp_addr_t
  num_rules : Nat

/-- The fields of `riscv_cpu_cfg (env)` the PMP unit reads. -/
structure RISCVCPUConfig where
  pmp : Bool
  epmp : Bool
  mmu : Bool

/-- The part of `CPURISCVState` the PMP unit reads and writes; `misa_mxl` is
what `riscv_cpu_mxl (env)` returns. -/
structure CPURISCVState where
  cfg : RISCVCPUConfig
  misa_mxl : Nat
  mseccfg : Nat
  pmp_state : pmp_table_t

/-- Assignment `a[i] = v` on an array given as a function. -/
def set_at {α : Type} (a : Nat → α) (i : Nat) (v : α) : Nat → α :=
  fun j => if j = i then v else a j

/-- Conversion of an unsigned value to `int`. -/
def to_int (n : Nat) : Int :=
  if n % 2 ^ 32 < 2 ^ 31 then ((n % 2 ^ 32 : Nat) : Int)
  else ((n % 2 ^ 32 : Nat) : Int) - 2 ^ 32

/-- Modelled from the spec: the macro `MSECCFG_MML_ISSET (env)` of `pmp.h`, used
as a condition: the bit MML of `mseccfg` is set. -/
def MSECCFG_MML_ISSET (env : CPURISCVState) : Bool :=
  decide (env.mseccfg &&& MSECCFG_MML ≠ 0)

/-- Modelled from the spec: the macro `MSECCFG_MMWP_ISSET (env)` of `pmp.h`. -/
def MSECCFG_MMWP_ISSET (env : CPURISCVState) : Bool :=
  decide (env.mseccfg &&& MSECCFG_MMWP ≠ 0)

/-- Modelled from the spec: the macro `MSECCFG_RLB_ISSET (env)` of `pmp.h`. -/
def MSECCFG_RLB_ISSET (env : CPURISCVState) : Bool :=
  decide (env.mseccfg &&& MSECCFG_RLB ≠ 0)

/-! ## Accessors -/

/-- The ePMP operation code of a cfg byte (`pmp_get_epmp_operation`). -/
def pmp_get_epmp_operation (cfg : Nat) : Nat :=
  ((cfg &&& PMP_LOCK) >>> 4) ||| ((cfg &&& PMP_READ) <<< 2) |||
    (cfg &&& PMP_WRITE) ||| ((cfg &&& PMP_EXEC) >>> 2)

/-- The address matching field of a cfg byte (`pmp_get_a_field`). -/
def pmp_get_a_field (cfg : Nat) : Nat :=
  (cfg >>> 3) &&& 0x3

/-- Whether an entry is locked (`pmp_is_locked`). -/
def pmp_is_locked (env : CPURISCVState) (pmp_index : Nat) : Bool :=
  decide ((env.pmp_state.pmp pmp_index).cfg_reg &&& PMP_LOCK ≠ 0)

/-- Whether an entry may be written (`pmp_is_writable`). -/
def pmp_is_writable (env : CPURISCVState) (pmp_index : Nat) : Bool :=
  if env.cfg.epmp && MSECCFG_RLB_ISSET env then true
  else !pmp_is_locked env pmp_index

/-- Whether `val` is a valid ePMP cfg value (`pmp_is_valid_epmp_cfg`). -/
def pmp_is_valid_epmp_cfg (env : CPURISCVState) (val : Nat) : Option Bool :=
  if !MSECCFG_MML_ISSET env || MSECCFG_RLB_ISSET env then some true
  else
    match pmp_get_epmp_operation val with
    | 0 | 1 | 2 | 3 | 4 | 5 | 6 | 7 | 8 | 12 | 14 | 15 => some true
    | 9 | 10 | 11 | 13 => some false
    | _ => none

/-- The number of active rules as cached (`pmp_get_num_rules`). -/
def pmp_get_num_rules (env : CPURISCVState) : Nat :=
  env.pmp_state.num_rules

/-- Read accessor of a cfg byte (`pmp_read_cfg`). -/
def pmp_read_cfg (t : Target) (env : CPURISCVState) (pmp_index : Nat) : Nat :=
  if pmp_index < t.MAX_RISCV_PMPS then (env.pmp_state.pmp pmp_index).cfg_reg
  else 0

/-! ## Derived ranges -/

/-- Decoding of a NAPOT address word into `(sa, ea)` (`pmp_decode_napot`). -/
def pmp_decode_napot (t : Target) (a : Nat) : Nat × Nat :=
  let a1 := t.wrap (a <<< 2) ||| 0x3
  (a1 &&& t.wrap (a1 + 1), a1 ||| t.wrap (a1 + 1))

/-- The range `(sa, ea)` which `pmp_update_rule_addr` computes from the cfg
byte, the address register and the address register of the previous entry. -/
def pmp_range_of (t : Target) (this_cfg this_addr prev_addr : Nat) : Nat × Nat :=
  match pmp_get_a_field this_cfg with
  | 0 => (0, t.wrap (2 ^ t.XLEN - 1))
  | 1 =>
    let sa := t.wrap (prev_addr <<< 2)
    let ea := t.wrap (t.wrap (this_addr <<< 2) + 2 ^ t.XLEN - 1)
    if sa > ea then (0, 0) else (sa, ea)
  | 2 =>
    let sa := t.wrap (this_addr <<< 2)
    (sa, t.wrap (t.wrap (sa + 4) + 2 ^ t.XLEN - 1))
  | 3 => pmp_decode_napot t this_addr
  | _ => (0, 0)

/-- Recomputation of the range of one entry (`pmp_update_rule_addr`). -/
def pmp_update_rule_addr (t : Target) (env : CPURISCVState) (pmp_index : Nat) :
    CPURISCVState :=
  let this_cfg := (env.pmp_state.pmp pmp_index).cfg_reg
  let this_addr := (env.pmp_state.pmp pmp_index).addr_reg
  let prev_addr :=
    if pmp_index ≥ 1 then (env.pmp_state.pmp (pmp_index - 1)).addr_reg else 0
  let r := pmp_range_of t this_cfg this_addr prev_addr
  { env with pmp_state :=
      { env.pmp_state with
        addr := set_at env.pmp_state.addr pmp_index { sa := r.1, ea := r.2 } } }

/-- The loop of `pmp_update_rule_nums`: `n` is the running `num_rules`. -/
def pmp_update_rule_nums_loop (env : CPURISCVState) : Nat → Nat → Nat → Nat
  | 0, _, n => n
  | fuel + 1, i, n =>
    let a_field := pmp_get_a_field (env.pmp_state.pmp i).cfg_reg
    pmp_update_rule_nums_loop env fuel (i + 1)
      (if PMP_AMATCH_OFF ≠ a_field then n + 1 else n)

/-- Recount of the active rules (`pmp_update_rule_nums`). -/
def pmp_update_rule_nums (t : Target) (env : CPURISCVState) : CPURISCVState :=
  { env with pmp_state :=
      { env.pmp_state with
        num_rules := pmp_update_rule_nums_loop env t.MAX_RISCV_PMPS 0 0 } }

/-- Refresh of the derived state after a register change (`pmp_update_rule`). -/
def pmp_update_rule (t : Target) (env : CPURISCVState) (pmp_index : Nat) :
    CPURISCVState :=
  pmp_update_rule_nums t (pmp_update_rule_addr t env pmp_index)

/-- Write accessor of a cfg byte (`pmp_write_cfg`). -/
def pmp_write_cfg (t : Target) (env : CPURISCVState) (pmp_index val : Nat) :
    Option CPURISCVState :=
  if pmp_index < t.MAX_RISCV_PMPS then
    if !pmp_is_writable env pmp_index then some env
    else if env.cfg.epmp then
      match pmp_is_valid_epmp_cfg env val with
      | none => none
      | some false => some env
      | some true =>
        some (pmp_update_rule t
          { env with pmp_state :=
              { env.pmp_state with
                pmp := set_at env.pmp_state.pmp pmp_index
                  { env.pmp_state.pmp pmp_index with cfg_reg := val } } }
          pmp_index)
    else
      some (pmp_update_rule t
        { env with pmp_state :=
            { env.pmp_state with
              pmp := set_at env.pmp_state.pmp pmp_index
                { env.pmp_state.pmp pmp_index with cfg_reg := val } } }
        pmp_index)
  else some env

/-! ## The matcher -/

/-- Whether `addr` lies in the derived range of an entry (`pmp_is_in_range`);
the result is the `int` 1 or 0 of the source. -/
def pmp_is_in_range (env : CPURISCVState) (pmp_index : Nat) (addr : Nat) : Nat :=
  if addr ≥ (env.pmp_state.addr pmp_index).sa ∧
      addr ≤ (env.pmp_state.addr pmp_index).ea then 1
  else 0

/-- Verdict when no entry decides the access (`pmp_hart_has_privs_default`):
the returned flag and the value left in `*allowed_privs`. -/
def pmp_hart_has_privs_default (env : CPURISCVState) (_addr _size privs : Nat)
    (_allowed_privs : Nat) (mode : Nat) : Bool × Nat :=
  if env.cfg.epmp && MSECCFG_MMWP_ISSET env then (false, 0)
  else if env.cfg.epmp && MSECCFG_MML_ISSET env then
    if mode = PRV_M ∧ privs &&& PMP_EXEC = 0 then (true, PMP_READ ||| PMP_WRITE)
    else (false, 0)
  else if !env.cfg.pmp || decide (mode = PRV_M) then
    (true, PMP_READ ||| PMP_WRITE ||| PMP_EXEC)
  else (false, 0)

/-- The value of the local `pmp_size` of `pmp_hart_has_privs` after the size
normalisation; it is an `int`. -/
def pmp_size_of (t : Target) (env : CPURISCVState) (addr size : Nat) : Int :=
  if size = 0 then
    if env.cfg.mmu then
      to_int (t.wrap (2 ^ t.XLEN - (addr ||| t.TARGET_PAGE_MASK)))
    else ((t.XLEN / 8 : Nat) : Int)
  else to_int size

/-- The address `addr + pmp_size - 1` which the loop of `pmp_hart_has_privs`
tests, computed in `target_ulong`. -/
def pmp_end_of (t : Target) (env : CPURISCVState) (addr size : Nat) : Nat :=
  (((addr : Int) + pmp_size_of t env addr size - 1) % (2 ^ t.XLEN : Int)).toNat

/-- The switch of `pmp_hart_has_privs` on the operation code for M-mode. -/
def epmp_privs_M (epmp_operation : Nat) : Option Nat :=
  match epmp_operation with
  | 0 | 1 | 4 | 5 | 6 | 7 | 8 => some 0
  | 2 | 3 | 14 => some (PMP_READ ||| PMP_WRITE)
  | 9 | 10 => some PMP_EXEC
  | 11 | 13 => some (PMP_READ ||| PMP_EXEC)
  | 12 | 15 => some PMP_READ
  | _ => none

/-- The switch of `pmp_hart_has_privs` on the operation code for the other
modes. -/
def epmp_privs_SU (epmp_operation : Nat) : Option Nat :=
  match epmp_operation with
  | 0 | 8 | 9 | 12 | 13 | 14 => some 0
  | 1 | 10 | 11 => some PMP_EXEC
  | 2 | 4 | 15 => some PMP_READ
  | 3 | 6 => some (PMP_READ ||| PMP_WRITE)
  | 5 => some (PMP_READ ||| PMP_EXEC)
  | 7 => some (PMP_READ ||| PMP_WRITE ||| PMP_EXEC)
  | _ => none

/-- The privileges `pmp_hart_has_privs` stores in `*allowed_privs` when entry
`i` matches (the body of the `fully inside` branch). -/
def pmp_match_privs (env : CPURISCVState) (i mode : Nat) : Option Nat :=
  if !MSECCFG_MML_ISSET env then
    if mode ≠ PRV_M ∨ pmp_is_locked env i = true then
      some ((PMP_READ ||| PMP_WRITE ||| PMP_EXEC) &&& (env.pmp_state.pmp i).cfg_reg)
    else some (PMP_READ ||| PMP_WRITE ||| PMP_EXEC)
  else
    let epmp_operation := pmp_get_epmp_operation (env.pmp_state.pmp i).cfg_reg
    if mode = PRV_M then epmp_privs_M epmp_operation
    else epmp_privs_SU epmp_operation

/-- The loop of `pmp_hart_has_privs` from index `i` on, with `fuel` iterations
left; `last` is `addr + pmp_size - 1`, and `ret`, `allowed_privs` are the
current values of the two variables. The result is their value after the loop. -/
def pmp_hart_has_privs_loop (env : CPURISCVState) (addr last mode : Nat) :
    Nat → Nat → Int → Nat → Option (Int × Nat)
  | 0, _, ret, allowed_privs => some (ret, allowed_privs)
  | fuel + 1, i, ret, allowed_privs =>
    let s := pmp_is_in_range env i addr
    let e := pmp_is_in_range env i last
    if s + e = 1 then some (-1, allowed_privs)
    else
      let a_field := pmp_get_a_field (env.pmp_state.pmp i).cfg_reg
      if s + e = 2 ∧ PMP_AMATCH_OFF ≠ a_field then
        match pmp_match_privs env i mode with
        | none => none
        | some p => some ((i : Int), p)
      else pmp_hart_has_privs_loop env addr last mode fuel (i + 1) ret allowed_privs

/-- The check of an access (`pmp_hart_has_privs`): the returned `int` and the
value left in `*allowed_privs`; `none` when an assertion aborts. -/
def pmp_hart_has_privs (t : Target) (env : CPURISCVState) (addr size privs : Nat)
    (allowed_privs : Nat) (mode : Nat) : Option (Int × Nat) :=
  let st0 : Int × Nat :=
    if pmp_get_num_rules env = 0 then
      let d := pmp_hart_has_privs_default env addr size privs allowed_privs mode
      (if d.1 then (t.MAX_RISCV_PMPS : Int) else -1, d.2)
    else (-1, allowed_privs)
  match pmp_hart_has_privs_loop env addr (pmp_end_of t env addr size) mode
      t.MAX_RISCV_PMPS 0 st0.1 st0.2 with
  | none => none
  | some st1 =>
    if st1.1 = -1 then
      let d := pmp_hart_has_privs_default env addr size privs st1.2 mode
      some (if d.1 then (t.MAX_RISCV_PMPS : Int) else -1, d.2)
    else some st1

/-! ## Register writes and reads -/

/-- The loop of `pmpcfg_csr_write` from byte `i` on. -/
def pmpcfg_csr_write_loop (t : Target) (reg_index val : Nat) :
    Nat → Nat → CPURISCVState → Option CPURISCVState
  | 0, _, env => some env
  | fuel + 1, i, env =>
    let cfg_val := (val >>> (8 * i)) &&& 0xff
    match pmp_write_cfg t env ((reg_index * 4 + i) % 2 ^ 32) cfg_val with
    | none => none
    | some env1 => pmpcfg_csr_write_loop t reg_index val fuel (i + 1) env1

/-- Write of a `pmpcfg` register (`pmpcfg_csr_write`); `reg_index` is a
`uint32_t`, so the entry index is computed modulo `2 ^ 32`. -/
def pmpcfg_csr_write (t : Target) (env : CPURISCVState) (reg_index val : Nat) :
    Option CPURISCVState :=
  let pmpcfg_nums := 2 <<< env.misa_mxl
  pmpcfg_csr_write_loop t reg_index val pmpcfg_nums 0 env

/-- The loop of `pmpcfg_csr_read` from byte `i` on. -/
def pmpcfg_csr_read_loop (t : Target) (env : CPURISCVState) (reg_index : Nat) :
    Nat → Nat → Nat → Nat
  | 0, _, cfg_val => cfg_val
  | fuel + 1, i, cfg_val =>
    let val := pmp_read_cfg t env ((reg_index * 4 + i) % 2 ^ 32)
    pmpcfg_csr_read_loop t env reg_index fuel (i + 1)
      (cfg_val ||| t.wrap (val <<< (i * 8)))

/-- Read of a `pmpcfg` register (`pmpcfg_csr_read`). -/
def pmpcfg_csr_read (t : Target) (env : CPURISCVState) (reg_index : Nat) : Nat :=
  let pmpcfg_nums := 2 <<< env.misa_mxl
  pmpcfg_csr_read_loop t env reg_index pmpcfg_nums 0 0

/-- Write of a `pmpaddr` register (`pmpaddr_csr_write`). -/
def pmpaddr_csr_write (t : Target) (env : CPURISCVState) (addr_index val : Nat) :
    CPURISCVState :=
  if addr_index < t.MAX_RISCV_PMPS then
    if addr_index + 1 < t.MAX_RISCV_PMPS ∧
        pmp_is_writable env (addr_index + 1) = false ∧
        PMP_AMATCH_TOR =
          pmp_get_a_field (env.pmp_state.pmp (addr_index + 1)).cfg_reg then
      env
    else if pmp_is_writable env addr_index then
      pmp_update_rule t
        { env with pmp_state :=
            { env.pmp_state with
              pmp := set_at env.pmp_state.pmp addr_index
                { env.pmp_state.pmp addr_index with addr_reg := val } } }
        addr_index
    else env
  else env

/-- Read of a `pmpaddr` register (`pmpaddr_csr_read`). -/
def pmpaddr_csr_read (t : Target) (env : CPURISCVState) (addr_index : Nat) : Nat :=
  if addr_index < t.MAX_RISCV_PMPS then (env.pmp_state.pmp addr_index).addr_reg
  else 0

/-- The loop of `mseccfg_csr_write` which clears RLB in `val` at the first
locked entry. -/
def mseccfg_csr_write_loop (t : Target) (env : CPURISCVState) (val : Nat) :
    Nat → Nat → Nat
  | 0, _ => val
  | fuel + 1, i =>
    if pmp_is_locked env i then val &&& (2 ^ t.XLEN - 1 - MSECCFG_RLB)
    else mseccfg_csr_write_loop t env val fuel (i + 1)

/-- Write of `mseccfg` (`mseccfg_csr_write`). -/
def mseccfg_csr_write (t : Target) (env : CPURISCVState) (val : Nat) :
    CPURISCVState :=
  let val1 :=
    if !MSECCFG_RLB_ISSET env then mseccfg_csr_write_loop t env val t.MAX_RISCV_PMPS 0
    else val
  let val2 := val1 ||| (env.mseccfg &&& (MSECCFG_MMWP ||| MSECCFG_MML))
  { env with mseccfg := val2 }

/-- Read of `mseccfg` (`mseccfg_csr_read`). -/
def mseccfg_csr_read (env : CPURISCVState) : Nat := env.mseccfg

/-- The loop of `pmp_get_tlb_size` from index `i` on; `tlb_sa` and `tlb_ea` are
the bounds of the page. -/
def pmp_get_tlb_size_loop (t : Target) (env : CPURISCVState) (tlb_sa tlb_ea : Nat) :
    Nat → Nat → Nat
  | 0, _ => t.TARGET_PAGE_SIZE
  | fuel + 1, i =>
    if pmp_get_a_field (env.pmp_state.pmp i).cfg_reg = PMP_AMATCH_OFF then
      pmp_get_tlb_size_loop t env tlb_sa tlb_ea fuel (i + 1)
    else
      let pmp_sa := (env.pmp_state.addr i).sa
      let pmp_ea := (env.pmp_state.addr i).ea
      if pmp_sa ≤ tlb_sa ∧ pmp_ea ≥ tlb_ea then t.TARGET_PAGE_SIZE
      else if (pmp_sa ≥ tlb_sa ∧ pmp_sa ≤ tlb_ea) ∨
          (pmp_ea ≥ tlb_sa ∧ pmp_ea ≤ tlb_ea) then 1
      else pmp_get_tlb_size_loop t env tlb_sa tlb_ea fuel (i + 1)

/-- The size a TLB entry for the page of `addr` may cover (`pmp_get_tlb_size`). -/
def pmp_get_tlb_size (t : Target) (env : CPURISCVState) (addr : Nat) : Nat :=
  let tlb_sa := addr &&& t.TARGET_PAGE_MASK
  let tlb_ea := t.wrap (tlb_sa + t.TARGET_PAGE_SIZE - 1)
  if !env.cfg.pmp || decide (pmp_get_num_rules env = 0) then t.TARGET_PAGE_SIZE
  else pmp_get_tlb_size_loop t env tlb_sa tlb_ea t.MAX_RISCV_PMPS 0

/-! ## Vocabulary of the statements -/

/-- The address `x` lies in the derived range `[sa, ea]` of entry `j`. -/
def InRange (env : CPURISCVState) (j x : Nat) : Prop :=
  (env.pmp_state.addr j).sa ≤ x ∧ x ≤ (env.pmp_state.addr j).ea

instance (env : CPURISCVState) (j x : Nat) : Decidable (InRange env j x) := by
  unfold InRange; infer_instance

/-- The A field of entry `j` is not OFF. -/
def NotOff (env : CPURISCVState) (j : Nat) : Prop :=
  pmp_get_a_field (env.pmp_state.pmp j).cfg_reg ≠ PMP_AMATCH_OFF

instance (env : CPURISCVState) (j : Nat) : Decidable (NotOff env j) := by
  unfold NotOff; infer_instance

/-- Entry `j` contains exactly one of the two bytes `addr` and `last`. -/
def Straddles (env : CPURISCVState) (j addr last : Nat) : Prop :=
  (InRange env j addr ∧ ¬ InRange env j last) ∨
    (¬ InRange env j addr ∧ InRange env j last)

instance (env : CPURISCVState) (j addr last : Nat) :
    Decidable (Straddles env j addr last) := by
  unfold Straddles; infer_instance

/-- Entry `j` is not OFF and contains both bytes `addr` and `last`. -/
def Covers (env : CPURISCVState) (j addr last : Nat) : Prop :=
  NotOff env j ∧ InRange env j addr ∧ InRange env j last

instance (env : CPURISCVState) (j addr last : Nat) :
    Decidable (Covers env j addr last) := by
  unfold Covers; infer_instance

/-- No entry with index in `[i, k)` stops the scan of the matcher: none
straddles the access and none covers it. -/
def Clean (env : CPURISCVState) (addr last i k : Nat) : Prop :=
  ∀ j, i ≤ j → j < k → ¬ Straddles env j addr last ∧ ¬ Covers env j addr last

/-- The verdict of the default path as the spec words it: (1) ePMP with MMWP
denies; (2) ePMP with MML gives the sentinel with R|W to M-mode when X is not
requested and denies otherwise; (3) without PMP or in M-mode the sentinel with
R|W|X; (4) denial. A denial is the verdict `-1` with no privileges. -/
def default_verdict (t : Target) (env : CPURISCVState) (privs mode : Nat) :
    Int × Nat :=
  if env.cfg.epmp = true ∧ MSECCFG_MMWP_ISSET env = true then (-1, 0)
  else if env.cfg.epmp = true ∧ MSECCFG_MML_ISSET env = true then
    if mode = PRV_M ∧ privs &&& PMP_EXEC = 0 then
      ((t.MAX_RISCV_PMPS : Int), PMP_READ ||| PMP_WRITE)
    else (-1, 0)
  else if env.cfg.pmp = false ∨ mode = PRV_M then
    ((t.MAX_RISCV_PMPS : Int), PMP_READ ||| PMP_WRITE ||| PMP_EXEC)
  else (-1, 0)

/-- The entry `k` is the one the scan of the matcher stops at with a match:
it covers the access and no entry before it straddles or covers it. -/
def FirstCover (t : Target) (env : CPURISCVState) (addr last k : Nat) : Prop :=
  k < t.MAX_RISCV_PMPS ∧ Clean env addr last 0 k ∧ Covers env k addr last

/-- Bit `n` of the cfg byte `c`, as a number. -/
def cfg_bit (c n : Nat) : Nat := (c / 2 ^ n) % 2

/-- The operation code as the spec words it: `8*L + 4*R + 2*W + X`, with L
bit 7, R bit 0, W bit 1 and X bit 2 of the cfg byte. -/
def epmp_op_spec (c : Nat) : Nat :=
  8 * cfg_bit c 7 + 4 * cfg_bit c 0 + 2 * cfg_bit c 1 + cfg_bit c 2

/-- The M-mode column of the ePMP table as the spec gives it. -/
def epmp_table_M_spec (op : Nat) : Nat :=
  if op = 2 ∨ op = 3 ∨ op = 14 then PMP_READ ||| PMP_WRITE
  else if op = 9 ∨ op = 10 then PMP_EXEC
  else if op = 11 ∨ op = 13 then PMP_READ ||| PMP_EXEC
  else if op = 12 ∨ op = 15 then PMP_READ
  else 0

/-- The S/U-mode column of the ePMP table as the spec gives it
(row 9 is X, row 15 is empty). -/
def epmp_table_SU_spec (op : Nat) : Nat :=
  if op = 1 ∨ op = 9 ∨ op = 10 ∨ op = 11 then PMP_EXEC
  else if op = 2 ∨ op = 4 then PMP_READ
  else if op = 3 ∨ op = 6 then PMP_READ ||| PMP_WRITE
  else if op = 5 then PMP_READ ||| PMP_EXEC
  else if op = 7 then PMP_READ ||| PMP_WRITE ||| PMP_EXEC
  else 0

/-- The S/U-mode column of the ePMP table with rows 9 and 15 as the matcher
has them: row 9 is empty and row 15 is R; the other rows are those of
`epmp_table_SU_spec`. -/
def epmp_table_SU_amended (op : Nat) : Nat :=
  if op = 9 then 0
  else if op = 15 then PMP_READ
  else epmp_table_SU_spec op

/-- The number of entries below `MAX_RISCV_PMPS` whose A field is not OFF. -/
def active_rules (t : Target) (env : CPURISCVState) : Nat :=
  ((List.range t.MAX_RISCV_PMPS).filter (fun j => decide (NotOff env j))).length

/-- A write to one of the PMP registers. -/
inductive CsrWrite where
  | pmpcfg (reg_index val : Nat)
  | pmpaddr (addr_index val : Nat)
  | mseccfg (val : Nat)

/-- The effect of one register write; `none` when an assertion aborts. -/
def csr_write (t : Target) (env : CPURISCVState) : CsrWrite → Option CPURISCVState
  | CsrWrite.pmpcfg reg_index val => pmpcfg_csr_write t env reg_index val
  | CsrWrite.pmpaddr addr_index val => some (pmpaddr_csr_write t env addr_index val)
  | CsrWrite.mseccfg val => some (mseccfg_csr_write t env val)

/-- The effect of a sequence of register writes, first to last. -/
def csr_writes (t : Target) : CPURISCVState → List CsrWrite → Option CPURISCVState
  | env, [] => some env
  | env, w :: ws =>
    match csr_write t env w with
    | none => none
    | some env1 => csr_writes t env1 ws

/-- Entry `i` exists, holds the cfg byte `c` and the address word `a`, is
locked, and locks cannot be bypassed (ePMP absent or RLB clear). -/
def LockHolds (t : Target) (i c a : Nat) (env : CPURISCVState) : Prop :=
  i < t.MAX_RISCV_PMPS ∧ (env.pmp_state.pmp i).cfg_reg = c ∧
    (env.pmp_state.pmp i).addr_reg = a ∧ pmp_is_locked env i = true ∧
    (env.cfg.epmp = false ∨ MSECCFG_RLB_ISSET env = false)

/-- The state with `cfg[j]` set to `v`, before the derived state is refreshed
(the assignment in `pmp_write_cfg`). -/
def with_cfg (env : CPURISCVState) (j v : Nat) : CPURISCVState :=
  { env with pmp_state :=
      { env.pmp_state with
        pmp := set_at env.pmp_state.pmp j
          { env.pmp_state.pmp j with cfg_reg := v } } }

/-- The state with `addr[j]` set to `v`, before the derived state is refreshed
(the assignment in `pmpaddr_csr_write`). -/
def with_addr (env : CPURISCVState) (j v : Nat) : CPURISCVState :=
  { env with pmp_state :=
      { env.pmp_state with
        pmp := set_at env.pmp_state.pmp j
          { env.pmp_state.pmp j with addr_reg := v } } }

/-- Some entry below `MAX_RISCV_PMPS` has L set. -/
def AnyLocked (t : Target) (env : CPURISCVState) : Prop :=
  ∃ i, i < t.MAX_RISCV_PMPS ∧ pmp_is_locked env i = true

/-- The first address of the page that contains `addr`. -/
def page_start (t : Target) (addr : Nat) : Nat := addr - addr % t.TARGET_PAGE_SIZE

/-- The last address of the page that contains `addr`. -/
def page_end (t : Target) (addr : Nat) : Nat :=
  page_start t addr + (t.TARGET_PAGE_SIZE - 1)

/-- The range `[sa, ea]` of entry `j` meets the interval `[lo, hi]`. -/
def Intersects (env : CPURISCVState) (j lo hi : Nat) : Prop :=
  (env.pmp_state.addr j).sa ≤ hi ∧ lo ≤ (env.pmp_state.addr j).ea

/-- The range `[sa, ea]` of entry `j` contains the whole interval `[lo, hi]`. -/
def ContainsAll (env : CPURISCVState) (j lo hi : Nat) : Prop :=
  (env.pmp_state.addr j).sa ≤ lo ∧ hi ≤ (env.pmp_state.addr j).ea

instance (env : CPURISCVState) (j lo hi : Nat) : Decidable (Intersects env j lo hi) := by
  unfold Intersects; infer_instance

instance (env : CPURISCVState) (j lo hi : Nat) : Decidable (ContainsAll env j lo hi) := by
  unfold ContainsAll; infer_instance

/-- Entry `k` is the lowest-indexed entry that is not OFF and whose range meets
`[lo, hi]`. -/
def FirstIntersecting (t : Target) (env : CPURISCVState) (lo hi k : Nat) : Prop :=
  k < t.MAX_RISCV_PMPS ∧ NotOff env k ∧ Intersects env k lo hi ∧
    ∀ j, j < k → ¬ (NotOff env j ∧ Intersects env j lo hi)

/-- The condition under which the TLB hint is 1: PMP is implemented, there are
rules, and the lowest-indexed non-OFF entry meeting the page of `addr` does not
contain the whole page. -/
def SplitsPage (t : Target) (env : CPURISCVState) (addr : Nat) : Prop :=
  env.cfg.pmp = true ∧ pmp_get_num_rules env ≠ 0 ∧
    ∃ k, FirstIntersecting t env (page_start t addr) (page_end t addr) k ∧
      ¬ ContainsAll env k (page_start t addr) (page_end t addr)

/-- The entry index `(reg_index * 4) + i` as `pmpcfg_csr_write` and
`pmpcfg_csr_read` compute it, in `uint32_t`. -/
def pmpcfg_index (reg_index i : Nat) : Nat := (reg_index * 4 + i) % 2 ^ 32

/-- Byte `i` of the word `val`, little-endian (bits `8i .. 8i+7`). -/
def byte_of (val i : Nat) : Nat := (val >>> (8 * i)) &&& 0xff

/-! ## Concrete states used in the examples -/

/-- A 32-bit build with 16 entries and 4 KiB pages. -/
def rv32 : Target := { is64 := false, MAX_RISCV_PMPS := 16, TARGET_PAGE_BITS := 12 }

/-- A 64-bit build with 16 entries and 4 KiB pages. -/
def rv64 : Target := { is64 := true, MAX_RISCV_PMPS := 16, TARGET_PAGE_BITS := 12 }

/-- The state after reset: every field zero; the flags say which features the
hart implements. -/
def reset_state (pmp epmp mmu : Bool) (mxl : Nat) : CPURISCVState :=
  { cfg := { pmp := pmp, epmp := epmp, mmu := mmu }
    misa_mxl := mxl
    mseccfg := 0
    pmp_state :=
      { pmp := fun _ => { addr_reg := 0, cfg_reg := 0 }
        addr := fun _ => { sa := 0, ea := 0 }
        num_rules := 0 } }

/-- The state reached from reset by writing `pmpaddr0 = 0x401` and
`pmpcfg0 = R | NAPOT`: entry 0 is the readable region `[0x1000, 0x100F]`. -/
def napot_R_state : Option CPURISCVState :=
  pmpcfg_csr_write rv32 (pmpaddr_csr_write rv32 (reset_state true false true 1) 0 0x401)
    0 0x19

/-- A state with `mseccfg = m` in which entry 0 is the NAPOT region
`[0x1000, 0x100F]` with cfg byte `c0` and entry 1 the NAPOT region
`[0x1000, 0x1FFF]` with cfg byte `c1`; the other entries are as after reset. -/
def two_region_state (epmp : Bool) (m c0 c1 : Nat) : CPURISCVState :=
  { cfg := { pmp := true, epmp := epmp, mmu := true }
    misa_mxl := 1
    mseccfg := m
    pmp_state :=
      { pmp := fun j =>
          if j = 0 then { addr_reg := 0x401, cfg_reg := c0 }
          else if j = 1 then { addr_reg := 0x5FF, cfg_reg := c1 }
          else { addr_reg := 0, cfg_reg := 0 }
        addr := fun j =>
          if j = 0 then { sa := 0x1000, ea := 0x100F }
          else if j = 1 then { sa := 0x1000, ea := 0x1FFF }
          else { sa := 0, ea := 0 }
        num_rules := 2 } }

/-- A state with `mseccfg = m` in which entry 1 is locked and in TOR mode
(`cfg[1] = L | TOR`, `pmpaddr[1] = 0x200`, range `[0, 0x7FF]`); the other
entries are as after reset. -/
def tor_locked_state (epmp : Bool) (m : Nat) : CPURISCVState :=
  { cfg := { pmp := true, epmp := epmp, mmu := true }
    misa_mxl := 1
    mseccfg := m
    pmp_state :=
      { pmp := fun j =>
          if j = 1 then { addr_reg := 0x200, cfg_reg := 0x88 }
          else { addr_reg := 0, cfg_reg := 0 }
        addr := fun j =>
          if j = 1 then { sa := 0, ea := 0x7FF }
          else { sa := 0, ea := 0 }
        num_rules := 1 } }

/-- A state in which entry 0 is the readable NAPOT region
`[0x80000008, 0x8000000F]`; the other entries are as after reset. -/
def small_region_state : CPURISCVState :=
  { cfg := { pmp := true, epmp := false, mmu := true }
    misa_mxl := 1
    mseccfg := 0
    pmp_state :=
      { pmp := fun j =>
          if j = 0 then { addr_reg := 0x20000002, cfg_reg := 0x19 }
          else { addr_reg := 0, cfg_reg := 0 }
        addr := fun j =>
          if j = 0 then { sa := 0x80000008, ea := 0x8000000F }
          else { sa := 0, ea := 0 }
        num_rules := 1 } }

/-- The state reached from reset by writing `pmpaddr0 = a` and then
`pmpcfg0 = R | NAPOT` (scenario 1 of the spec). -/
def scenario_napot (t : Target) (pmp epmp mmu : Bool) (mxl a : Nat) :
    Option CPURISCVState :=
  csr_writes t (reset_state pmp epmp mmu mxl)
    [CsrWrite.pmpaddr 0 a, CsrWrite.pmpcfg 0 0x19]

/-- The state reached from reset by writing `pmpaddr1 = 0x800`, then
`pmpcfg0 = 0x0900` (entry 1 becomes `R | TOR`, entry 0 stays OFF), then
`pmpaddr0 = 0x400`. -/
def scenario_tor : Option CPURISCVState :=
  csr_writes rv32 (reset_state true false true 1)
    [CsrWrite.pmpaddr 1 0x800, CsrWrite.pmpcfg 0 0x0900, CsrWrite.pmpaddr 0 0x400]

/-- The index of the lowest zero bit of `a` is `k`. -/
def LowestZeroBit (a k : Nat) : Prop :=
  (∀ j, j < k → a.testBit j = true) ∧ a.testBit k = false

/-- The lower bound `prev.addr << 2` of entry `i` in TOR mode, in XLEN-bit
arithmetic; the previous address is 0 for entry 0. -/
def tor_lo (t : Target) (env : CPURISCVState) (i : Nat) : Nat :=
  t.wrap ((if i ≥ 1 then (env.pmp_state.pmp (i - 1)).addr_reg else 0) <<< 2)

/-- The upper bound `this.addr << 2` of entry `i` in TOR mode, in XLEN-bit
arithmetic. -/
def tor_hi (t : Target) (env : CPURISCVState) (i : Nat) : Nat :=
  t.wrap ((env.pmp_state.pmp i).addr_reg <<< 2)

/-- A state in which entries 0 and 1 are readable TOR entries with address
words `a0` and `a1`, before any derived range is computed. -/
def tor_state (a0 a1 : Nat) : CPURISCVState :=
  { cfg := { pmp := true, epmp := false, mmu := true }
    misa_mxl := 1
    mseccfg := 0
    pmp_state :=
      { pmp := fun j =>
          if j = 0 then { addr_reg := a0, cfg_reg := 0x09 }
          else if j = 1 then { addr_reg := a1, cfg_reg := 0x09 }
          else { addr_reg := 0, cfg_reg := 0 }
        addr := fun _ => { sa := 0, ea := 0 }
        num_rules := 2 } }

/-- A state in which entry 0 is the readable NAPOT region `[0x1000, 0x1FFF]`,
one whole 4 KiB page; the other entries are as after reset. -/
def page_region_state : CPURISCVState :=
  { cfg := { pmp := true, epmp := false, mmu := true }
    misa_mxl := 1
    mseccfg := 0
    pmp_state :=
      { pmp := fun j =>
          if j = 0 then { addr_reg := 0x5FF, cfg_reg := 0x19 }
          else { addr_reg := 0, cfg_reg := 0 }
        addr := fun j =>
          if j = 0 then { sa := 0x1000, ea := 0x1FFF }
          else { sa := 0, ea := 0 }
        num_rules := 1 } }

/-! ## Lemmas on the accessors -/

theorem pmp_is_in_range_eq (env : CPURISCVState) (j x : Nat) :
    pmp_is_in_range env j x = if InRange env j x then 1 else 0 := by
  unfold pmp_is_in_range InRange
  rfl

theorem range_sum_eq_one (env : CPURISCVState) (j addr last : Nat) :
    pmp_is_in_range env j addr + pmp_is_in_range env j last = 1 ↔
      Straddles env j addr last := by
  rw [pmp_is_in_range_eq, pmp_is_in_range_eq]
  unfold Straddles
  by_cases h1 : InRange env j addr <;> by_cases h2 : InRange env j last <;>
    simp [h1, h2]

theorem range_sum_eq_two (env : CPURISCVState) (j addr last : Nat) :
    pmp_is_in_range env j addr + pmp_is_in_range env j last = 2 ↔
      (InRange env j addr ∧ InRange env j last) := by
  rw [pmp_is_in_range_eq, pmp_is_in_range_eq]
  by_cases h1 : InRange env j addr <;> by_cases h2 : InRange env j last <;>
    simp [h1, h2]

theorem pmp_get_epmp_operation_lt (cfg : Nat) : pmp_get_epmp_operation cfg < 16 := by
  unfold pmp_get_epmp_operation
  have h1 : (cfg &&& PMP_LOCK) >>> 4 < 2 ^ 4 := by
    have := @Nat.and_le_right cfg PMP_LOCK
    rw [Nat.shiftRight_eq_div_pow]
    have h2 : (cfg &&& PMP_LOCK) / 2 ^ 4 ≤ PMP_LOCK / 2 ^ 4 := Nat.div_le_div_right this
    have h3 : PMP_LOCK / 2 ^ 4 = 8 := by decide
    omega
  have h2 : (cfg &&& PMP_READ) <<< 2 < 2 ^ 4 := by
    have := @Nat.and_le_right cfg PMP_READ
    rw [Nat.shiftLeft_eq]
    have h3 : PMP_READ = 1 := rfl
    omega
  have h3 : cfg &&& PMP_WRITE < 2 ^ 4 := by
    have := @Nat.and_le_right cfg PMP_WRITE
    have h3 : PMP_WRITE = 2 := rfl
    omega
  have h4 : (cfg &&& PMP_EXEC) >>> 2 < 2 ^ 4 := by
    have := @Nat.and_le_right cfg PMP_EXEC
    rw [Nat.shiftRight_eq_div_pow]
    have h5 : (cfg &&& PMP_EXEC) / 2 ^ 2 ≤ cfg &&& PMP_EXEC := Nat.div_le_self _ _
    have h6 : PMP_EXEC = 4 := rfl
    omega
  exact Nat.or_lt_two_pow (Nat.or_lt_two_pow (Nat.or_lt_two_pow h1 h2) h3) h4

theorem epmp_privs_M_isSome (op : Nat) (h : op < 16) : ∃ p, epmp_privs_M op = some p := by
  interval_cases op <;> exact ⟨_, rfl⟩

theorem epmp_privs_SU_isSome (op : Nat) (h : op < 16) : ∃ p, epmp_privs_SU op = some p := by
  interval_cases op <;> exact ⟨_, rfl⟩

theorem pmp_match_privs_isSome (env : CPURISCVState) (i mode : Nat) :
    ∃ p, pmp_match_privs env i mode = some p := by
  unfold pmp_match_privs
  split
  · split <;> exact ⟨_, rfl⟩
  · simp only
    split
    · exact epmp_privs_M_isSome _ (pmp_get_epmp_operation_lt _)
    · exact epmp_privs_SU_isSome _ (pmp_get_epmp_operation_lt _)

/-! ## The scan of the matcher -/

theorem Clean.nil (env : CPURISCVState) (addr last i : Nat) : Clean env addr last i i := by
  intro j h1 h2
  omega

theorem Clean.cons {env : CPURISCVState} {addr last i k : Nat}
    (h0 : ¬ Straddles env i addr last) (h1 : ¬ Covers env i addr last)
    (h : Clean env addr last (i + 1) k) : Clean env addr last i k := by
  intro j hj1 hj2
  by_cases hji : j = i
  · subst hji
    exact ⟨h0, h1⟩
  · exact h j (by omega) hj2

/-- What the loop of the matcher returns: the first entry from `i` on that
straddles or covers the access decides; if there is none the two variables keep
their values. -/
theorem pmp_hart_has_privs_loop_spec (env : CPURISCVState) (addr last mode : Nat) :
    ∀ (fuel i : Nat) (ret : Int) (ap : Nat),
      (∃ k p, i ≤ k ∧ k < i + fuel ∧ Clean env addr last i k ∧
          Covers env k addr last ∧ pmp_match_privs env k mode = some p ∧
          pmp_hart_has_privs_loop env addr last mode fuel i ret ap = some ((k : Int), p)) ∨
      (∃ k, i ≤ k ∧ k < i + fuel ∧ Clean env addr last i k ∧
          Straddles env k addr last ∧
          pmp_hart_has_privs_loop env addr last mode fuel i ret ap = some (-1, ap)) ∨
      (Clean env addr last i (i + fuel) ∧
          pmp_hart_has_privs_loop env addr last mode fuel i ret ap = some (ret, ap)) := by
  intro fuel
  induction fuel with
  | zero =>
    intro i ret ap
    right; right
    exact ⟨Clean.nil env addr last i, rfl⟩
  | succ n ih =>
    intro i ret ap
    by_cases hs : Straddles env i addr last
    · right; left
      refine ⟨i, le_refl i, by omega, Clean.nil env addr last i, hs, ?_⟩
      have h1 := (range_sum_eq_one env i addr last).2 hs
      simp [pmp_hart_has_privs_loop, h1]
    · have h1 : ¬ (pmp_is_in_range env i addr + pmp_is_in_range env i last = 1) :=
        fun h => hs ((range_sum_eq_one env i addr last).1 h)
      by_cases hc : Covers env i addr last
      · left
        obtain ⟨p, hp⟩ := pmp_match_privs_isSome env i mode
        refine ⟨i, p, le_refl i, by omega, Clean.nil env addr last i, hc, hp, ?_⟩
        have h2 := (range_sum_eq_two env i addr last).2 hc.2
        have h3 : pmp_get_a_field (env.pmp_state.pmp i).cfg_reg ≠ 0 := hc.1
        have h4 : ¬ (0 = pmp_get_a_field (env.pmp_state.pmp i).cfg_reg) :=
          fun h => h3 h.symm
        simp [pmp_hart_has_privs_loop, h2, h4, hp]
      · have h2 : ¬ (pmp_is_in_range env i addr + pmp_is_in_range env i last = 2 ∧
            PMP_AMATCH_OFF ≠ pmp_get_a_field (env.pmp_state.pmp i).cfg_reg) := by
          rintro ⟨ha, hb⟩
          exact hc ⟨fun h => hb h.symm, (range_sum_eq_two env i addr last).1 ha⟩
        have hstep : pmp_hart_has_privs_loop env addr last mode (n + 1) i ret ap =
            pmp_hart_has_privs_loop env addr last mode n (i + 1) ret ap := by
          simp only [pmp_hart_has_privs_loop, if_neg h1, if_neg h2]
        rcases ih (i + 1) ret ap with ⟨k, p, hk1, hk2, hcl, hcov, hp, hres⟩ |
            ⟨k, hk1, hk2, hcl, hst, hres⟩ | ⟨hcl, hres⟩
        · left
          exact ⟨k, p, by omega, by omega, Clean.cons hs hc hcl, hcov, hp,
            by rw [hstep, hres]⟩
        · right; left
          exact ⟨k, by omega, by omega, Clean.cons hs hc hcl, hst, by rw [hstep, hres]⟩
        · right; right
          refine ⟨Clean.cons hs hc ?_, by rw [hstep, hres]⟩
          have : i + 1 + n = i + (n + 1) := by omega
          rw [← this]
          exact hcl

theorem default_verdict_eq (t : Target) (env : CPURISCVState)
    (addr size privs ap mode : Nat) :
    ((if (pmp_hart_has_privs_default env addr size privs ap mode).1 = true
        then (t.MAX_RISCV_PMPS : Int) else -1),
      (pmp_hart_has_privs_default env addr size privs ap mode).2) =
    default_verdict t env privs mode := by
  unfold pmp_hart_has_privs_default default_verdict
  cases env.cfg.epmp <;> cases env.cfg.pmp <;> cases MSECCFG_MMWP_ISSET env <;>
    cases MSECCFG_MML_ISSET env <;> by_cases hm : mode = PRV_M <;>
    by_cases hx : privs &&& PMP_EXEC = 0 <;> simp [hm, hx]

theorem default_verdict_fst (t : Target) (env : CPURISCVState) (privs mode : Nat) :
    (default_verdict t env privs mode).1 = -1 ∨
      (default_verdict t env privs mode).1 = (t.MAX_RISCV_PMPS : Int) := by
  unfold default_verdict
  split
  · left; rfl
  · split
    · split
      · right; rfl
      · left; rfl
    · split
      · right; rfl
      · left; rfl

theorem default_verdict_deny (t : Target) (env : CPURISCVState) (privs mode : Nat)
    (h : (default_verdict t env privs mode).1 = -1) :
    (default_verdict t env privs mode).2 = 0 := by
  unfold default_verdict at h ⊢
  split
  · rfl
  · rename_i h1
    rw [if_neg h1] at h
    split
    · rename_i h2
      rw [if_pos h2] at h
      split
      · rename_i h3
        rw [if_pos h3] at h
        simp at h
      · rfl
    · rename_i h2
      rw [if_neg h2] at h
      split
      · rename_i h3
        rw [if_pos h3] at h
        simp at h
      · rfl

theorem Covers.not_straddles {env : CPURISCVState} {k addr last : Nat}
    (h : Covers env k addr last) : ¬ Straddles env k addr last := by
  rintro (⟨_, h2⟩ | ⟨h1, _⟩)
  · exact h2 h.2.2
  · exact h1 h.2.1

theorem pmp_hart_has_privs_unfold (t : Target) (env : CPURISCVState)
    (addr size privs ap mode : Nat) :
    pmp_hart_has_privs t env addr size privs ap mode =
      match pmp_hart_has_privs_loop env addr (pmp_end_of t env addr size) mode
          t.MAX_RISCV_PMPS 0
          (if pmp_get_num_rules env = 0 then default_verdict t env privs mode
            else (-1, ap)).1
          (if pmp_get_num_rules env = 0 then default_verdict t env privs mode
            else (-1, ap)).2 with
      | none => none
      | some st1 =>
        if st1.1 = -1 then some (default_verdict t env privs mode) else some st1 := by
  simp only [pmp_hart_has_privs, default_verdict_eq]

/-- The matcher returns the index of the first covering entry with the
privileges derived from it, and the verdict of the default path when the scan
stops at no covering entry. -/
theorem pmp_hart_has_privs_spec (t : Target) (env : CPURISCVState)
    (addr size privs ap mode : Nat) :
    (∃ k p, FirstCover t env addr (pmp_end_of t env addr size) k ∧
        pmp_match_privs env k mode = some p ∧
        pmp_hart_has_privs t env addr size privs ap mode = some ((k : Int), p)) ∨
    ((¬ ∃ k, FirstCover t env addr (pmp_end_of t env addr size) k) ∧
        pmp_hart_has_privs t env addr size privs ap mode =
          some (default_verdict t env privs mode)) := by
  have hN : ((t.MAX_RISCV_PMPS : Int) = -1) = False := by
    apply eq_false
    omega
  rw [pmp_hart_has_privs_unfold]
  generalize hst0 : (if pmp_get_num_rules env = 0 then default_verdict t env privs mode
            else (-1, ap)) = st0
  have hst0_cases : st0 = default_verdict t env privs mode ∨ st0.1 = -1 := by
    rw [← hst0]
    split
    · left; rfl
    · right; rfl
  rcases pmp_hart_has_privs_loop_spec env addr (pmp_end_of t env addr size) mode
      t.MAX_RISCV_PMPS 0 st0.1 st0.2 with
    ⟨k, p, _, hk2, hcl, hcov, hp, hres⟩ | ⟨k, _, hk2, hcl, hst, hres⟩ | ⟨hcl, hres⟩
  · left
    refine ⟨k, p, ⟨by omega, hcl, hcov⟩, hp, ?_⟩
    have hk : ((k : Int) = -1) = False := by
      apply eq_false
      omega
    simp only [hres, hk, if_false]
  · right
    constructor
    · rintro ⟨k1, hk1, hcl1, hcov1⟩
      rcases Nat.lt_trichotomy k1 k with h | h | h
      · exact (hcl k1 (Nat.zero_le _) h).2 hcov1
      · subst h
        exact hcov1.not_straddles hst
      · exact (hcl1 k (Nat.zero_le _) h).1 hst
    · simp only [hres, if_true]
  · right
    constructor
    · rintro ⟨k1, hk1, _, hcov1⟩
      exact (hcl k1 (Nat.zero_le _) (by omega)).2 hcov1
    · simp only [hres]
      by_cases h1 : st0.1 = -1
      · simp only [h1, if_true]
      · rcases hst0_cases with h | h
        · simp only [h1, if_false]
          rw [h]
        · exact absurd h h1

/-! ## The effective end of an access -/

theorem pmp_end_of_eq (t : Target) (env : CPURISCVState) (addr size : Nat)
    (hs : 1 ≤ size) (hlt : size < 2 ^ 31 ∨ (t.is64 = false ∧ size < 2 ^ 32)) :
    pmp_end_of t env addr size = t.wrap (addr + size - 1) := by
  unfold pmp_end_of pmp_size_of to_int Target.wrap Target.XLEN
  have h0 : size ≠ 0 := by omega
  simp only [h0, if_false]
  rcases hlt with h | ⟨h, h2⟩
  · cases t.is64 <;> simp <;> split <;> omega
  · rw [h]
    simp
    split <;> omega

theorem pmp_end_of_one (t : Target) (env : CPURISCVState) (addr : Nat)
    (ha : addr < 2 ^ t.XLEN) : pmp_end_of t env addr 1 = addr := by
  rw [pmp_end_of_eq t env addr 1 (le_refl 1) (Or.inl (by norm_num))]
  unfold Target.wrap
  exact Nat.mod_eq_of_lt ha

/-- A returned rule index comes from the first covering entry. -/
theorem pmp_hart_has_privs_index (t : Target) (env : CPURISCVState)
    (addr size privs ap mode i p : Nat)
    (hres : pmp_hart_has_privs t env addr size privs ap mode = some ((i : Int), p))
    (hi : i < t.MAX_RISCV_PMPS) :
    FirstCover t env addr (pmp_end_of t env addr size) i ∧
      pmp_match_privs env i mode = some p := by
  rcases pmp_hart_has_privs_spec t env addr size privs ap mode with
    ⟨k, q, hfc, hq, hr⟩ | ⟨_, hr⟩
  · rw [hr] at hres
    simp only [Option.some.injEq, Prod.mk.injEq, Nat.cast_inj] at hres
    obtain ⟨h1, h2⟩ := hres
    subst h1
    subst h2
    exact ⟨hfc, hq⟩
  · rw [hr] at hres
    simp only [Option.some.injEq] at hres
    have h1 : (default_verdict t env privs mode).1 = (i : Int) := by rw [hres]
    rcases default_verdict_fst t env privs mode with h | h
    · rw [h] at h1
      omega
    · rw [h] at h1
      omega

/-- When the first entry that contains a byte of the access straddles it, the
matcher returns the verdict of the default path. -/
theorem pmp_hart_has_privs_straddle (t : Target) (env : CPURISCVState)
    (addr size privs ap mode k : Nat) (hk : k < t.MAX_RISCV_PMPS)
    (hst : Straddles env k addr (pmp_end_of t env addr size))
    (hbefore : ∀ j, j < k → ¬ InRange env j addr ∧
      ¬ InRange env j (pmp_end_of t env addr size)) :
    pmp_hart_has_privs t env addr size privs ap mode =
      some (default_verdict t env privs mode) := by
  rcases pmp_hart_has_privs_spec t env addr size privs ap mode with
    ⟨k1, q, ⟨_, hcl, hcov⟩, _, _⟩ | ⟨_, hr⟩
  · exfalso
    rcases Nat.lt_trichotomy k1 k with h | h | h
    · exact (hbefore k1 h).1 hcov.2.1
    · subst h
      exact hcov.not_straddles hst
    · exact (hcl k (Nat.zero_le _) h).1 hst
  · exact hr

/-! ## C1: an access that straddles the first entry it touches -/

/-- C1, evaluated where the code departs from it: entry 0 is the region
`[0x1000, 0x100F]`, the 8-byte access at `0x100C` has its first byte inside and
its last byte `0x1013` outside, and in M-mode the matcher returns the
default-match sentinel `MAX_RISCV_PMPS = 16` with R|W|X instead of a denial. -/
theorem C1_straddle_in_M_mode_is_default_match :
    napot_R_state.map (fun env =>
        ((env.pmp_state.addr 0).sa, (env.pmp_state.addr 0).ea,
          decide (Straddles env 0 0x100C 0x1013), pmp_end_of rv32 env 0x100C 8)) =
      some (0x1000, 0x100F, true, 0x1013) ∧
    napot_R_state.bind (fun env =>
        pmp_hart_has_privs rv32 env 0x100C 8 PMP_READ 0 PRV_M) =
      some (16, PMP_READ ||| PMP_WRITE ||| PMP_EXEC) ∧
    napot_R_state.bind (fun env =>
        pmp_hart_has_privs rv32 env 0x100C 8 PMP_READ 0 PRV_U) = some (-1, 0) := by
  decide

/-! ## C2: priority of the lower index -/

theorem not_straddles_self (env : CPURISCVState) (j a : Nat) : ¬ Straddles env j a a := by
  rintro (⟨h1, h2⟩ | ⟨h1, h2⟩)
  · exact h2 h1
  · exact h1 h2

/-- C2: for a single byte at `a` which some non-OFF entry contains, the matcher
returns the lowest index among the non-OFF entries containing `a`; and for any
access, a returned rule index `i < MAX_RISCV_PMPS` names a non-OFF entry that
contains the first byte and the last byte the matcher computes
(`addr + pmp_size - 1`), while no non-OFF entry below `i` contains both. That
last byte is `addr + size - 1` in XLEN-bit arithmetic for `1 ≤ size < 2 ^ 31`. -/
theorem C2_priority (t : Target) (env : CPURISCVState)
    (addr size privs ap mode : Nat) :
    (size = 1 → addr < 2 ^ t.XLEN →
      (∃ j, j < t.MAX_RISCV_PMPS ∧ NotOff env j ∧ InRange env j addr) →
      ∃ k p : Nat, pmp_hart_has_privs t env addr size privs ap mode = some ((k : Int), p) ∧
        k < t.MAX_RISCV_PMPS ∧ NotOff env k ∧ InRange env k addr ∧
        ∀ j, j < t.MAX_RISCV_PMPS → NotOff env j → InRange env j addr → k ≤ j) ∧
    (∀ i p : Nat, pmp_hart_has_privs t env addr size privs ap mode = some ((i : Int), p) →
      i < t.MAX_RISCV_PMPS →
      NotOff env i ∧ InRange env i addr ∧
        InRange env i (pmp_end_of t env addr size) ∧
        ∀ j, j < i → ¬ (NotOff env j ∧ InRange env j addr ∧
          InRange env j (pmp_end_of t env addr size))) ∧
    (1 ≤ size → size < 2 ^ 31 →
      pmp_end_of t env addr size = (addr + size - 1) % 2 ^ t.XLEN) := by
  refine ⟨?_, ?_, fun h1 h2 => pmp_end_of_eq t env addr size h1 (Or.inl h2)⟩
  · intro hsz ha hex
    subst hsz
    have hend := pmp_end_of_one t env addr ha
    rcases pmp_hart_has_privs_spec t env addr 1 privs ap mode with
      ⟨k, q, ⟨hk, hcl, hcov⟩, _, hr⟩ | ⟨hno, _⟩
    · rw [hend] at hcl hcov
      refine ⟨k, q, hr, hk, hcov.1, hcov.2.1, ?_⟩
      intro j _ hj1 hj2
      by_contra hlt
      exact (hcl j (Nat.zero_le _) (by omega)).2 ⟨hj1, hj2, hj2⟩
    · exfalso
      apply hno
      rw [hend]
      have hex2 : ∃ j, j < t.MAX_RISCV_PMPS ∧ Covers env j addr addr := by
        obtain ⟨j, h1, h2, h3⟩ := hex
        exact ⟨j, h1, h2, h3, h3⟩
      classical
      refine ⟨Nat.find hex2, (Nat.find_spec hex2).1, ?_, (Nat.find_spec hex2).2⟩
      intro j _ hj
      refine ⟨not_straddles_self env j addr, ?_⟩
      intro hc
      exact Nat.find_min hex2 hj ⟨by have := (Nat.find_spec hex2).1; omega, hc⟩
  · intro i p hres hi
    obtain ⟨⟨_, hcl, hcov⟩, _⟩ :=
      pmp_hart_has_privs_index t env addr size privs ap mode i p hres hi
    exact ⟨hcov.1, hcov.2.1, hcov.2.2, fun j hj => (hcl j (Nat.zero_le _) hj).2⟩

/-- C2 at a concrete state: the byte `0x1004` lies in entries 0 and 1, and the
matcher answers with entry 0. -/
theorem C2_priority_witness :
    (∃ k p : Nat, pmp_hart_has_privs rv32 (two_region_state false 0 0x19 0x1F) 0x1004 1
          PMP_READ 0 PRV_U = some ((k : Int), p) ∧
        k < rv32.MAX_RISCV_PMPS ∧ NotOff (two_region_state false 0 0x19 0x1F) k ∧
        InRange (two_region_state false 0 0x19 0x1F) k 0x1004 ∧
        ∀ j, j < rv32.MAX_RISCV_PMPS → NotOff (two_region_state false 0 0x19 0x1F) j →
          InRange (two_region_state false 0 0x19 0x1F) j 0x1004 → k ≤ j) ∧
    (NotOff (two_region_state false 0 0x19 0x1F) 0 ∧
      InRange (two_region_state false 0 0x19 0x1F) 0 0x1004 ∧
      InRange (two_region_state false 0 0x19 0x1F) 0
        (pmp_end_of rv32 (two_region_state false 0 0x19 0x1F) 0x1004 1) ∧
      ∀ j, j < 0 → ¬ (NotOff (two_region_state false 0 0x19 0x1F) j ∧
        InRange (two_region_state false 0 0x19 0x1F) j 0x1004 ∧
        InRange (two_region_state false 0 0x19 0x1F) j
          (pmp_end_of rv32 (two_region_state false 0 0x19 0x1F) 0x1004 1))) ∧
    pmp_end_of rv32 (two_region_state false 0 0x19 0x1F) 0x1004 1 =
      (0x1004 + 1 - 1) % 2 ^ rv32.XLEN :=
  ⟨(C2_priority rv32 (two_region_state false 0 0x19 0x1F) 0x1004 1 PMP_READ 0 PRV_U).1
      rfl (by decide) ⟨1, by decide, by decide, by decide⟩,
    (C2_priority rv32 (two_region_state false 0 0x19 0x1F) 0x1004 1 PMP_READ 0 PRV_U).2.1
      0 1 (by decide) (by decide),
    (C2_priority rv32 (two_region_state false 0 0x19 0x1F) 0x1004 1 PMP_READ 0 PRV_U).2.2
      (by decide) (by decide)⟩

/-! ## C3: privileges of a match without MML -/

/-- C3: when MML is clear and the matcher returns the rule index `i`, the
privileges it reports are R|W|X if the mode is M and entry `i` is unlocked, and
`cfg[i] & (R|W|X)` otherwise. -/
theorem C3_standard_privs (t : Target) (env : CPURISCVState)
    (addr size privs ap mode i p : Nat)
    (hmml : MSECCFG_MML_ISSET env = false)
    (hres : pmp_hart_has_privs t env addr size privs ap mode = some ((i : Int), p))
    (hi : i < t.MAX_RISCV_PMPS) :
    p = if mode = PRV_M ∧ pmp_is_locked env i = false
        then PMP_READ ||| PMP_WRITE ||| PMP_EXEC
        else (env.pmp_state.pmp i).cfg_reg &&& (PMP_READ ||| PMP_WRITE ||| PMP_EXEC) := by
  obtain ⟨_, hp⟩ := pmp_hart_has_privs_index t env addr size privs ap mode i p hres hi
  unfold pmp_match_privs at hp
  simp only [hmml, Bool.not_false, if_true] at hp
  by_cases hm : mode = PRV_M
  · cases hl : pmp_is_locked env i
    · simp only [hm, hl, ne_eq, not_true_eq_false, Bool.false_eq_true, or_self,
        if_false, Option.some.injEq] at hp
      simp only [hm, and_self, if_true]
      exact hp.symm
    · simp only [hm, hl, ne_eq, not_true_eq_false, or_true, if_true,
        Option.some.injEq] at hp
      simp only [hm, Bool.true_eq_false, and_false, if_false]
      rw [Nat.and_comm]
      exact hp.symm
  · simp only [ne_eq, hm, not_false_eq_true, true_or, if_true, Option.some.injEq] at hp
    simp only [hm, false_and, if_false]
    rw [Nat.and_comm]
    exact hp.symm

/-- C3 at a concrete state: MML is clear, entry 0 (cfg `R | NAPOT`, unlocked)
matches a U-mode access and the privileges are `cfg[0] & 7 = R`. -/
theorem C3_standard_privs_witness :
    MSECCFG_MML_ISSET (two_region_state false 0 0x19 0x1F) = false ∧
    pmp_hart_has_privs rv32 (two_region_state false 0 0x19 0x1F) 0x1004 4 PMP_READ 0
      PRV_U = some (((0 : Nat) : Int), 1) ∧
    1 = (if PRV_U = PRV_M ∧ pmp_is_locked (two_region_state false 0 0x19 0x1F) 0 = false
        then PMP_READ ||| PMP_WRITE ||| PMP_EXEC
        else ((two_region_state false 0 0x19 0x1F).pmp_state.pmp 0).cfg_reg &&&
          (PMP_READ ||| PMP_WRITE ||| PMP_EXEC)) :=
  ⟨by decide, by decide,
    C3_standard_privs rv32 (two_region_state false 0 0x19 0x1F) 0x1004 4 PMP_READ 0
      PRV_U 0 1 (by decide) (by decide) (by decide)⟩

/-! ## C4 and C5: the ePMP truth table -/

theorem and_mod_256 (c m : Nat) (hm : 255 &&& m = m) : c % 256 &&& m = c &&& m := by
  have h : c % 256 = c &&& 255 := (Nat.and_pow_two_sub_one_eq_mod c 8).symm
  rw [h, Nat.and_assoc, hm]

theorem pmp_get_epmp_operation_mod (c : Nat) :
    pmp_get_epmp_operation (c % 256) = pmp_get_epmp_operation c := by
  unfold pmp_get_epmp_operation
  rw [and_mod_256 c PMP_LOCK (by decide), and_mod_256 c PMP_READ (by decide),
    and_mod_256 c PMP_WRITE (by decide), and_mod_256 c PMP_EXEC (by decide)]

theorem epmp_op_spec_mod (c : Nat) : epmp_op_spec (c % 256) = epmp_op_spec c := by
  unfold epmp_op_spec cfg_bit
  norm_num
  omega

set_option maxRecDepth 100000 in
theorem pmp_get_epmp_operation_byte :
    ∀ c, c < 256 → pmp_get_epmp_operation c = epmp_op_spec c := by
  decide

/-- The operation code of the source is `8*L + 4*R + 2*W + X`. -/
theorem pmp_get_epmp_operation_eq_spec (c : Nat) :
    pmp_get_epmp_operation c = epmp_op_spec c := by
  rw [← pmp_get_epmp_operation_mod, ← epmp_op_spec_mod]
  exact pmp_get_epmp_operation_byte (c % 256) (Nat.mod_lt _ (by norm_num))

theorem epmp_privs_M_eq_spec :
    ∀ op, op < 16 → epmp_privs_M op = some (epmp_table_M_spec op) := by
  decide

theorem epmp_privs_SU_eq_amended :
    ∀ op, op < 16 → epmp_privs_SU op = some (epmp_table_SU_amended op) := by
  decide

/-- C4 as stated fails on rows 9 and 15 of the S/U column: with MML set, a
U-mode access matching entry 0 gets no privilege when `cfg[0] = L | X` (row 9,
where the spec table has X) and gets R when `cfg[0] = L | R | W | X` (row 15,
where the spec table has none). -/
theorem C4_counterexample :
    (MSECCFG_MML_ISSET (two_region_state true 1 0x9C 0x1F) = true ∧ PRV_U ≠ PRV_M ∧
      pmp_hart_has_privs rv32 (two_region_state true 1 0x9C 0x1F) 0x1004 4 PMP_EXEC 0
        PRV_U = some (0, 0) ∧
      epmp_op_spec ((two_region_state true 1 0x9C 0x1F).pmp_state.pmp 0).cfg_reg = 9 ∧
      epmp_table_SU_spec 9 = PMP_EXEC ∧
      0 ≠ epmp_table_SU_spec
        (epmp_op_spec ((two_region_state true 1 0x9C 0x1F).pmp_state.pmp 0).cfg_reg)) ∧
    (MSECCFG_MML_ISSET (two_region_state true 1 0x9F 0x1F) = true ∧ PRV_U ≠ PRV_M ∧
      pmp_hart_has_privs rv32 (two_region_state true 1 0x9F 0x1F) 0x1004 4 PMP_READ 0
        PRV_U = some (0, PMP_READ) ∧
      epmp_op_spec ((two_region_state true 1 0x9F 0x1F).pmp_state.pmp 0).cfg_reg = 15 ∧
      epmp_table_SU_spec 15 = 0 ∧
      PMP_READ ≠ epmp_table_SU_spec
        (epmp_op_spec ((two_region_state true 1 0x9F 0x1F).pmp_state.pmp 0).cfg_reg)) := by
  decide

/-- C4, amended in rows 9 and 15: when MML is set, the mode is not M and the
matcher returns the rule index `i`, the privileges are those of the S/U column
indexed by `8*L + 4*R + 2*W + X` of `cfg[i]`, where row 9 is empty and row 15
is R. -/
theorem C4_epmp_SU_column (t : Target) (env : CPURISCVState)
    (addr size privs ap mode i p : Nat)
    (hmml : MSECCFG_MML_ISSET env = true) (hm : mode ≠ PRV_M)
    (hres : pmp_hart_has_privs t env addr size privs ap mode = some ((i : Int), p))
    (hi : i < t.MAX_RISCV_PMPS) :
    p = epmp_table_SU_amended (epmp_op_spec (env.pmp_state.pmp i).cfg_reg) := by
  obtain ⟨_, hp⟩ := pmp_hart_has_privs_index t env addr size privs ap mode i p hres hi
  unfold pmp_match_privs at hp
  simp only [hmml, Bool.not_true, Bool.false_eq_true, if_false, hm] at hp
  rw [epmp_privs_SU_eq_amended _ (pmp_get_epmp_operation_lt _),
    pmp_get_epmp_operation_eq_spec] at hp
  exact (Option.some.inj hp).symm

/-- C4 (amended) at a concrete state: row 5 (`R | X`, unlocked) gives R|X to
U-mode. -/
theorem C4_epmp_SU_column_witness :
    MSECCFG_MML_ISSET (two_region_state true 1 0x1D 0x1F) = true ∧ PRV_U ≠ PRV_M ∧
    pmp_hart_has_privs rv32 (two_region_state true 1 0x1D 0x1F) 0x1004 4 PMP_READ 0
      PRV_U = some (((0 : Nat) : Int), 5) ∧
    5 = epmp_table_SU_amended
      (epmp_op_spec ((two_region_state true 1 0x1D 0x1F).pmp_state.pmp 0).cfg_reg) :=
  ⟨by decide, by decide, by decide,
    C4_epmp_SU_column rv32 (two_region_state true 1 0x1D 0x1F) 0x1004 4 PMP_READ 0
      PRV_U 0 5 (by decide) (by decide) (by decide) (by decide)⟩

/-- C5: when MML is set, the mode is M and the matcher returns the rule index
`i`, the privileges are those of the M-mode column of the spec table indexed by
`8*L + 4*R + 2*W + X` of `cfg[i]`. -/
theorem C5_epmp_M_column (t : Target) (env : CPURISCVState)
    (addr size privs ap mode i p : Nat)
    (hmml : MSECCFG_MML_ISSET env = true) (hm : mode = PRV_M)
    (hres : pmp_hart_has_privs t env addr size privs ap mode = some ((i : Int), p))
    (hi : i < t.MAX_RISCV_PMPS) :
    p = epmp_table_M_spec (epmp_op_spec (env.pmp_state.pmp i).cfg_reg) := by
  obtain ⟨_, hp⟩ := pmp_hart_has_privs_index t env addr size privs ap mode i p hres hi
  unfold pmp_match_privs at hp
  simp only [hmml, Bool.not_true, Bool.false_eq_true, if_false, hm, if_true] at hp
  rw [epmp_privs_M_eq_spec _ (pmp_get_epmp_operation_lt _),
    pmp_get_epmp_operation_eq_spec] at hp
  exact (Option.some.inj hp).symm

/-- C5 at a concrete state: row 11 (`L | W | X`) gives R|X to M-mode. -/
theorem C5_epmp_M_column_witness :
    MSECCFG_MML_ISSET (two_region_state true 1 0x9E 0x1F) = true ∧ PRV_M = PRV_M ∧
    pmp_hart_has_privs rv32 (two_region_state true 1 0x9E 0x1F) 0x1004 4 PMP_READ 0
      PRV_M = some (((0 : Nat) : Int), 5) ∧
    5 = epmp_table_M_spec
      (epmp_op_spec ((two_region_state true 1 0x9E 0x1F).pmp_state.pmp 0).cfg_reg) :=
  ⟨by decide, rfl, by decide,
    C5_epmp_M_column rv32 (two_region_state true 1 0x9E 0x1F) 0x1004 4 PMP_READ 0
      PRV_M 0 5 (by decide) rfl (by decide) (by decide)⟩

/-! ## C6 and C7: the default path -/

theorem active_rules_eq_zero (t : Target) (env : CPURISCVState)
    (h : active_rules t env = 0) (j : Nat) (hj : j < t.MAX_RISCV_PMPS) :
    ¬ NotOff env j := by
  unfold active_rules at h
  rw [List.length_eq_zero, List.filter_eq_nil_iff] at h
  have := h j (List.mem_range.2 hj)
  simpa using this

/-- C6: when no non-OFF entry contains both ends of the access and no entry
contains exactly one of them, or when `num_rules` is zero and agrees with the
cfg bytes, the matcher returns the verdict of the default path: (1) ePMP with
MMWP: denial with no privileges; (2) ePMP with MML: the sentinel
`MAX_RISCV_PMPS` with R|W for M-mode not requesting X, else denial; (3) PMP not
implemented or M-mode: the sentinel with R|W|X; (4) else denial. -/
theorem C6_default_path (t : Target) (env : CPURISCVState)
    (addr size privs ap mode : Nat)
    (h : (∀ j, j < t.MAX_RISCV_PMPS →
          ¬ Covers env j addr (pmp_end_of t env addr size) ∧
          ¬ Straddles env j addr (pmp_end_of t env addr size)) ∨
        (pmp_get_num_rules env = 0 ∧ pmp_get_num_rules env = active_rules t env)) :
    pmp_hart_has_privs t env addr size privs ap mode =
      some
        (if env.cfg.epmp = true ∧ MSECCFG_MMWP_ISSET env = true then (-1, 0)
        else if env.cfg.epmp = true ∧ MSECCFG_MML_ISSET env = true then
          if mode = PRV_M ∧ privs &&& PMP_EXEC = 0 then
            ((t.MAX_RISCV_PMPS : Int), PMP_READ ||| PMP_WRITE)
          else (-1, 0)
        else if env.cfg.pmp = false ∨ mode = PRV_M then
          ((t.MAX_RISCV_PMPS : Int), PMP_READ ||| PMP_WRITE ||| PMP_EXEC)
        else (-1, 0)) := by
  rcases pmp_hart_has_privs_spec t env addr size privs ap mode with
    ⟨k, q, ⟨hk, _, hcov⟩, _, _⟩ | ⟨_, hr⟩
  · exfalso
    rcases h with h | ⟨h0, h1⟩
    · exact (h k hk).1 hcov
    · rw [h0] at h1
      exact active_rules_eq_zero t env h1.symm k hk hcov.1
  · exact hr

/-- C6 at the state after reset: an M-mode access that touches no range gets
the sentinel with R|W|X. -/
theorem C6_default_path_witness :
    pmp_hart_has_privs rv32 (reset_state true false true 1) 0x2000 4 7 0 PRV_M =
      some
        (if (reset_state true false true 1).cfg.epmp = true ∧
            MSECCFG_MMWP_ISSET (reset_state true false true 1) = true then (-1, 0)
        else if (reset_state true false true 1).cfg.epmp = true ∧
            MSECCFG_MML_ISSET (reset_state true false true 1) = true then
          if PRV_M = PRV_M ∧ 7 &&& PMP_EXEC = 0 then
            ((rv32.MAX_RISCV_PMPS : Int), PMP_READ ||| PMP_WRITE)
          else (-1, 0)
        else if (reset_state true false true 1).cfg.pmp = false ∨ PRV_M = PRV_M then
          ((rv32.MAX_RISCV_PMPS : Int), PMP_READ ||| PMP_WRITE ||| PMP_EXEC)
        else (-1, 0)) :=
  C6_default_path rv32 (reset_state true false true 1) 0x2000 4 7 0 PRV_M
    (Or.inl (by decide))

/-- C7: with ePMP implemented and MMWP set, the matcher either returns the
index `i < MAX_RISCV_PMPS` of a non-OFF entry containing the first and the last
byte of the access, or a negative verdict with no privileges; it never returns
the sentinel `MAX_RISCV_PMPS`. The last byte is the one the matcher computes,
which is `addr + size - 1` in XLEN-bit arithmetic for `1 ≤ size < 2 ^ 31`. -/
theorem C7_mmwp_whitelist (t : Target) (env : CPURISCVState)
    (addr size privs ap mode : Nat)
    (hepmp : env.cfg.epmp = true) (hmmwp : MSECCFG_MMWP_ISSET env = true) :
    (∃ (v : Int) (p : Nat),
      pmp_hart_has_privs t env addr size privs ap mode = some (v, p) ∧
      v ≠ (t.MAX_RISCV_PMPS : Int) ∧
      ((∃ i : Nat, v = (i : Int) ∧ i < t.MAX_RISCV_PMPS ∧ NotOff env i ∧
          InRange env i addr ∧ InRange env i (pmp_end_of t env addr size)) ∨
        (v < 0 ∧ p = 0))) ∧
    (1 ≤ size → size < 2 ^ 31 →
      pmp_end_of t env addr size = (addr + size - 1) % 2 ^ t.XLEN) := by
  refine ⟨?_, fun h1 h2 => pmp_end_of_eq t env addr size h1 (Or.inl h2)⟩
  rcases pmp_hart_has_privs_spec t env addr size privs ap mode with
    ⟨k, q, ⟨hk, _, hcov⟩, _, hr⟩ | ⟨_, hr⟩
  · refine ⟨(k : Int), q, hr, ?_, Or.inl ⟨k, rfl, hk, hcov.1, hcov.2.1, hcov.2.2⟩⟩
    omega
  · have hd : default_verdict t env privs mode = (-1, 0) := by
      unfold default_verdict
      simp only [hepmp, hmmwp, and_self, if_true]
    rw [hd] at hr
    refine ⟨-1, 0, hr, ?_, Or.inr ⟨by omega, rfl⟩⟩
    omega

/-- C7 at a concrete state: MMWP is set and no entry contains `0xDEAD`; the
M-mode read is denied. -/
theorem C7_mmwp_whitelist_witness :
    (two_region_state true 2 0x19 0x1F).cfg.epmp = true ∧
    MSECCFG_MMWP_ISSET (two_region_state true 2 0x19 0x1F) = true ∧
    pmp_hart_has_privs rv32 (two_region_state true 2 0x19 0x1F) 0xDEAD 1 PMP_READ 0
      PRV_M = some (-1, 0) ∧
    ∃ (v : Int) (p : Nat),
      pmp_hart_has_privs rv32 (two_region_state true 2 0x19 0x1F) 0xDEAD 1 PMP_READ 0
        PRV_M = some (v, p) ∧
      v ≠ (rv32.MAX_RISCV_PMPS : Int) ∧
      ((∃ i : Nat, v = (i : Int) ∧ i < rv32.MAX_RISCV_PMPS ∧
          NotOff (two_region_state true 2 0x19 0x1F) i ∧
          InRange (two_region_state true 2 0x19 0x1F) i 0xDEAD ∧
          InRange (two_region_state true 2 0x19 0x1F) i
            (pmp_end_of rv32 (two_region_state true 2 0x19 0x1F) 0xDEAD 1)) ∨
        (v < 0 ∧ p = 0)) :=
  ⟨by decide, by decide, by decide,
    (C7_mmwp_whitelist rv32 (two_region_state true 2 0x19 0x1F) 0xDEAD 1 PMP_READ 0
      PRV_M (by decide) (by decide)).1⟩

/-! ## C8: locked entries are immutable -/

@[simp] theorem pmp_update_rule_pmp (t : Target) (env : CPURISCVState) (j : Nat) :
    (pmp_update_rule t env j).pmp_state.pmp = env.pmp_state.pmp := rfl

@[simp] theorem pmp_update_rule_cfg (t : Target) (env : CPURISCVState) (j : Nat) :
    (pmp_update_rule t env j).cfg = env.cfg := rfl

@[simp] theorem pmp_update_rule_mseccfg (t : Target) (env : CPURISCVState) (j : Nat) :
    (pmp_update_rule t env j).mseccfg = env.mseccfg := rfl

@[simp] theorem pmp_update_rule_misa_mxl (t : Target) (env : CPURISCVState) (j : Nat) :
    (pmp_update_rule t env j).misa_mxl = env.misa_mxl := rfl

theorem set_at_same {α : Type} (a : Nat → α) (i : Nat) (v : α) : set_at a i v i = v := by
  simp [set_at]

theorem set_at_other {α : Type} (a : Nat → α) (i j : Nat) (v : α) (h : j ≠ i) :
    set_at a i v j = a j := by
  simp [set_at, h]

theorem pmp_is_valid_epmp_cfg_isSome (env : CPURISCVState) (val : Nat) :
    ∃ b, pmp_is_valid_epmp_cfg env val = some b := by
  unfold pmp_is_valid_epmp_cfg
  split
  · exact ⟨true, rfl⟩
  · have h := pmp_get_epmp_operation_lt val
    generalize pmp_get_epmp_operation val = op at h
    interval_cases op <;> exact ⟨_, rfl⟩

theorem LockHolds.not_writable {t : Target} {i c a : Nat} {env : CPURISCVState}
    (h : LockHolds t i c a env) : pmp_is_writable env i = false := by
  obtain ⟨_, _, _, hl, hb⟩ := h
  unfold pmp_is_writable
  rcases hb with hb | hb <;> simp [hb, hl]

/-- Storing into another entry and refreshing the derived state keeps a lock. -/
theorem LockHolds.store_cfg {t : Target} {i c a : Nat} {env : CPURISCVState}
    (h : LockHolds t i c a env) (j val : Nat) (hj : j ≠ i) :
    LockHolds t i c a
      (pmp_update_rule t
        { env with pmp_state :=
            { env.pmp_state with
              pmp := set_at env.pmp_state.pmp j
                { env.pmp_state.pmp j with cfg_reg := val } } } j) := by
  obtain ⟨h1, h2, h3, h4, h5⟩ := h
  unfold LockHolds pmp_is_locked MSECCFG_RLB_ISSET at *
  simp only [pmp_update_rule_pmp, pmp_update_rule_cfg, pmp_update_rule_mseccfg,
    set_at_other _ _ _ _ (Ne.symm hj)]
  exact ⟨h1, h2, h3, h4, h5⟩

theorem LockHolds.store_addr {t : Target} {i c a : Nat} {env : CPURISCVState}
    (h : LockHolds t i c a env) (j val : Nat) (hj : j ≠ i) :
    LockHolds t i c a
      (pmp_update_rule t
        { env with pmp_state :=
            { env.pmp_state with
              pmp := set_at env.pmp_state.pmp j
                { env.pmp_state.pmp j with addr_reg := val } } } j) := by
  obtain ⟨h1, h2, h3, h4, h5⟩ := h
  unfold LockHolds pmp_is_locked MSECCFG_RLB_ISSET at *
  simp only [pmp_update_rule_pmp, pmp_update_rule_cfg, pmp_update_rule_mseccfg,
    set_at_other _ _ _ _ (Ne.symm hj)]
  exact ⟨h1, h2, h3, h4, h5⟩

theorem LockHolds.pmp_write_cfg {t : Target} {i c a : Nat} {env : CPURISCVState}
    (h : LockHolds t i c a env) (j val : Nat) :
    ∃ env1, pmp_write_cfg t env j val = some env1 ∧ LockHolds t i c a env1 := by
  unfold PMP.pmp_write_cfg
  by_cases hj : j < t.MAX_RISCV_PMPS
  · simp only [hj, if_true]
    cases hw : pmp_is_writable env j
    · exact ⟨env, by simp, h⟩
    · have hji : j ≠ i := by
        intro hji
        rw [hji, h.not_writable] at hw
        exact Bool.noConfusion hw
      simp only [Bool.not_true, Bool.false_eq_true, if_false]
      cases he : env.cfg.epmp
      · simp only [Bool.false_eq_true, if_false]
        exact ⟨_, rfl, h.store_cfg j val hji⟩
      · simp only [if_true]
        obtain ⟨b, hb⟩ := pmp_is_valid_epmp_cfg_isSome env val
        rw [hb]
        cases b
        · exact ⟨env, rfl, h⟩
        · exact ⟨_, rfl, h.store_cfg j val hji⟩
  · simp only [hj, if_false]
    exact ⟨env, rfl, h⟩

theorem LockHolds.pmpcfg_csr_write_loop {t : Target} {i c a : Nat} (reg_index val : Nat) :
    ∀ (fuel k : Nat) (env : CPURISCVState), LockHolds t i c a env →
      ∃ env1, pmpcfg_csr_write_loop t reg_index val fuel k env = some env1 ∧
        LockHolds t i c a env1 := by
  intro fuel
  induction fuel with
  | zero =>
    intro k env h
    exact ⟨env, rfl, h⟩
  | succ n ih =>
    intro k env h
    obtain ⟨env1, h1, h2⟩ :=
      h.pmp_write_cfg ((reg_index * 4 + k) % 2 ^ 32) ((val >>> (8 * k)) &&& 0xff)
    obtain ⟨env2, h3, h4⟩ := ih (k + 1) env1 h2
    refine ⟨env2, ?_, h4⟩
    simp only [PMP.pmpcfg_csr_write_loop, h1, h3]

theorem LockHolds.pmpaddr_csr_write {t : Target} {i c a : Nat} {env : CPURISCVState}
    (h : LockHolds t i c a env) (j val : Nat) :
    LockHolds t i c a (pmpaddr_csr_write t env j val) := by
  unfold PMP.pmpaddr_csr_write
  split
  · split
    · exact h
    · split
      · rename_i hw
        have hji : j ≠ i := by
          intro hji
          rw [hji, h.not_writable] at hw
          exact Bool.noConfusion hw
        exact h.store_addr j val hji
      · exact h
  · exact h

theorem mseccfg_csr_write_loop_locked (t : Target) (env : CPURISCVState) (val : Nat) :
    ∀ (fuel k i : Nat), k ≤ i → i < k + fuel → pmp_is_locked env i = true →
      mseccfg_csr_write_loop t env val fuel k =
        val &&& (2 ^ t.XLEN - 1 - MSECCFG_RLB) := by
  intro fuel
  induction fuel with
  | zero =>
    intro k i h1 h2 _
    omega
  | succ n ih =>
    intro k i h1 h2 hl
    unfold mseccfg_csr_write_loop
    cases hk : pmp_is_locked env k
    · simp only [Bool.false_eq_true, if_false]
      have hki : k ≠ i := by
        intro hki
        rw [hki, hl] at hk
        exact Bool.noConfusion hk
      exact ih (k + 1) i (by omega) (by omega) hl
    · simp only [if_true]

theorem or_and_right (a b c : Nat) : (a ||| b) &&& c = (a &&& c) ||| (b &&& c) := by
  apply Nat.eq_of_testBit_eq
  intro k
  simp only [Nat.testBit_and, Nat.testBit_or]
  cases a.testBit k <;> cases b.testBit k <;> cases c.testBit k <;> rfl

theorem rlb_mask_and (t : Target) : (2 ^ t.XLEN - 1 - MSECCFG_RLB) &&& MSECCFG_RLB = 0 := by
  unfold Target.XLEN
  cases t.is64 <;> decide

theorem LockHolds.mseccfg_csr_write {t : Target} {i c a : Nat} {env : CPURISCVState}
    (h : LockHolds t i c a env) (val : Nat) :
    LockHolds t i c a (mseccfg_csr_write t env val) := by
  obtain ⟨h1, h2, h3, h4, h5⟩ := h
  refine ⟨h1, h2, h3, h4, ?_⟩
  rcases h5 with h5 | h5
  · left
    exact h5
  · right
    have hloop := mseccfg_csr_write_loop_locked t env val t.MAX_RISCV_PMPS 0 i
      (Nat.zero_le _) (by omega) h4
    have hm : env.mseccfg &&& MSECCFG_RLB = 0 := by
      unfold MSECCFG_RLB_ISSET at h5
      simpa using h5
    unfold MSECCFG_RLB_ISSET PMP.mseccfg_csr_write
    simp only [h5, Bool.not_false, if_true, hloop]
    have hz : (val &&& (2 ^ t.XLEN - 1 - MSECCFG_RLB) |||
        env.mseccfg &&& (MSECCFG_MMWP ||| MSECCFG_MML)) &&& MSECCFG_RLB = 0 := by
      rw [or_and_right, Nat.and_assoc, rlb_mask_and, Nat.and_zero,
        Nat.zero_or, Nat.and_assoc]
      have : (MSECCFG_MMWP ||| MSECCFG_MML) &&& MSECCFG_RLB = 0 := by decide
      rw [this, Nat.and_zero]
    simp [hz]

theorem LockHolds.csr_write {t : Target} {i c a : Nat} {env : CPURISCVState}
    (h : LockHolds t i c a env) (w : CsrWrite) :
    ∃ env1, csr_write t env w = some env1 ∧ LockHolds t i c a env1 := by
  cases w with
  | pmpcfg reg_index val =>
    exact LockHolds.pmpcfg_csr_write_loop reg_index val _ 0 env h
  | pmpaddr addr_index val => exact ⟨_, rfl, h.pmpaddr_csr_write addr_index val⟩
  | mseccfg val => exact ⟨_, rfl, h.mseccfg_csr_write val⟩

theorem LockHolds.csr_writes {t : Target} {i c a : Nat} (ws : List CsrWrite) :
    ∀ env : CPURISCVState, LockHolds t i c a env →
      ∃ env1, csr_writes t env ws = some env1 ∧ LockHolds t i c a env1 := by
  induction ws with
  | nil =>
    intro env h
    exact ⟨env, rfl, h⟩
  | cons w ws ih =>
    intro env h
    obtain ⟨env1, h1, h2⟩ := h.csr_write w
    obtain ⟨env2, h3, h4⟩ := ih env1 h2
    refine ⟨env2, ?_, h4⟩
    simp only [PMP.csr_writes, h1, h3]

/-- C8: let entry `i` be locked while locks cannot be bypassed (ePMP absent or
RLB clear). Every single register write returns, leaves `cfg[i]` and `addr[i]`
unchanged and keeps entry `i` locked and not bypassable; and after every finite
sequence of writes `cfg[i]` and `addr[i]` have their initial values. -/
theorem C8_lock_immutability (t : Target) (env : CPURISCVState) (i : Nat)
    (hi : i < t.MAX_RISCV_PMPS) (hl : pmp_is_locked env i = true)
    (hb : env.cfg.epmp = false ∨ MSECCFG_RLB_ISSET env = false) :
    (∀ w : CsrWrite, ∃ env1, csr_write t env w = some env1 ∧
      (env1.pmp_state.pmp i).cfg_reg = (env.pmp_state.pmp i).cfg_reg ∧
      (env1.pmp_state.pmp i).addr_reg = (env.pmp_state.pmp i).addr_reg ∧
      pmp_is_locked env1 i = true ∧
      (env1.cfg.epmp = false ∨ MSECCFG_RLB_ISSET env1 = false)) ∧
    (∀ ws : List CsrWrite, ∃ env1, csr_writes t env ws = some env1 ∧
      (env1.pmp_state.pmp i).cfg_reg = (env.pmp_state.pmp i).cfg_reg ∧
      (env1.pmp_state.pmp i).addr_reg = (env.pmp_state.pmp i).addr_reg) := by
  have h : LockHolds t i (env.pmp_state.pmp i).cfg_reg (env.pmp_state.pmp i).addr_reg env :=
    ⟨hi, rfl, rfl, hl, hb⟩
  constructor
  · intro w
    obtain ⟨env1, h1, _, h2, h3, h4, h5⟩ := h.csr_write w
    exact ⟨env1, h1, h2, h3, h4, h5⟩
  · intro ws
    obtain ⟨env1, h1, _, h2, h3, _, _⟩ := LockHolds.csr_writes ws env h
    exact ⟨env1, h1, h2, h3⟩

/-- C8 at a concrete state: entry 0 is locked and ePMP is absent; a `pmpcfg`
write, an `mseccfg` write and a `pmpaddr` write leave entry 0 as it was. -/
theorem C8_lock_immutability_witness :
    pmp_is_locked (two_region_state false 0 0x99 0x1F) 0 = true ∧
    ∃ env1, csr_writes rv32 (two_region_state false 0 0x99 0x1F)
        [CsrWrite.pmpcfg 0 0, CsrWrite.mseccfg 4, CsrWrite.pmpaddr 0 0x123] = some env1 ∧
      (env1.pmp_state.pmp 0).cfg_reg =
        ((two_region_state false 0 0x99 0x1F).pmp_state.pmp 0).cfg_reg ∧
      (env1.pmp_state.pmp 0).addr_reg =
        ((two_region_state false 0 0x99 0x1F).pmp_state.pmp 0).addr_reg :=
  ⟨by decide,
    (C8_lock_immutability rv32 (two_region_state false 0 0x99 0x1F) 0 (by decide)
      (by decide) (Or.inl (by decide))).2
      [CsrWrite.pmpcfg 0 0, CsrWrite.mseccfg 4, CsrWrite.pmpaddr 0 0x123]⟩

/-! ## C9: the locked TOR neighbour -/

/-- C9 as stated fails when locks are bypassed: with ePMP implemented and RLB
set, entry 1 locked and in TOR mode, the write of `0x100` to `pmpaddr[0]` is
stored. -/
theorem C9_counterexample :
    0 + 1 < rv32.MAX_RISCV_PMPS ∧
    ((tor_locked_state true 4).pmp_state.pmp 1).cfg_reg &&& PMP_LOCK ≠ 0 ∧
    pmp_get_a_field ((tor_locked_state true 4).pmp_state.pmp 1).cfg_reg = PMP_AMATCH_TOR ∧
    ((tor_locked_state true 4).pmp_state.pmp 0).addr_reg = 0 ∧
    ((pmpaddr_csr_write rv32 (tor_locked_state true 4) 0 0x100).pmp_state.pmp 0).addr_reg =
      0x100 := by
  decide

/-- C9, amended: if `i + 1 < MAX_RISCV_PMPS`, entry `i + 1` is locked and in TOR
mode, and locks cannot be bypassed (ePMP absent or RLB clear), then
`pmpaddr_csr_write (i, v)` leaves the whole state unchanged. -/
theorem C9_tor_neighbour (t : Target) (env : CPURISCVState) (i v : Nat)
    (hi : i + 1 < t.MAX_RISCV_PMPS) (hl : pmp_is_locked env (i + 1) = true)
    (htor : pmp_get_a_field (env.pmp_state.pmp (i + 1)).cfg_reg = PMP_AMATCH_TOR)
    (hb : env.cfg.epmp = false ∨ MSECCFG_RLB_ISSET env = false) :
    pmpaddr_csr_write t env i v = env := by
  have hw : pmp_is_writable env (i + 1) = false := by
    unfold pmp_is_writable
    rcases hb with hb | hb <;> simp [hb, hl]
  have hi0 : i < t.MAX_RISCV_PMPS := by omega
  unfold pmpaddr_csr_write
  rw [if_pos hi0, if_pos ⟨hi, hw, htor.symm⟩]

/-- C9 (amended) at a concrete state: ePMP is implemented, RLB is clear and
entry 1 is locked in TOR mode; the write to `pmpaddr[0]` changes nothing. -/
theorem C9_tor_neighbour_witness :
    0 + 1 < rv32.MAX_RISCV_PMPS ∧ pmp_is_locked (tor_locked_state true 3) (0 + 1) = true ∧
    pmpaddr_csr_write rv32 (tor_locked_state true 3) 0 0x100 = tor_locked_state true 3 :=
  ⟨by decide, by decide,
    C9_tor_neighbour rv32 (tor_locked_state true 3) 0 0x100 (by decide) (by decide)
      (by decide) (Or.inr (by decide))⟩

/-! ## C10: the validity filter under MML -/

theorem pmp_is_valid_epmp_cfg_mml (env : CPURISCVState) (c : Nat)
    (hmml : MSECCFG_MML_ISSET env = true) (hrlb : MSECCFG_RLB_ISSET env = false) :
    pmp_is_valid_epmp_cfg env c =
      some (decide (¬ (epmp_op_spec c = 9 ∨ epmp_op_spec c = 10 ∨
        epmp_op_spec c = 11 ∨ epmp_op_spec c = 13))) := by
  unfold pmp_is_valid_epmp_cfg
  simp only [hmml, hrlb, Bool.not_true, Bool.or_self, Bool.false_eq_true, if_false]
  rw [pmp_get_epmp_operation_eq_spec]
  have h : epmp_op_spec c < 16 := by
    rw [← pmp_get_epmp_operation_eq_spec]
    exact pmp_get_epmp_operation_lt c
  generalize epmp_op_spec c = op at h
  interval_cases op <;> rfl

theorem epmp_op_spec_locked (c : Nat) (h : 8 ≤ epmp_op_spec c) : c &&& PMP_LOCK ≠ 0 := by
  intro h0
  have h1 : pmp_get_epmp_operation c = epmp_op_spec c := pmp_get_epmp_operation_eq_spec c
  have h2 : pmp_get_epmp_operation c < 8 := by
    unfold pmp_get_epmp_operation
    rw [h0]
    have a1 : (0 : Nat) >>> 4 < 2 ^ 3 := by decide
    have a2 : (c &&& PMP_READ) <<< 2 < 2 ^ 3 := by
      have := @Nat.and_le_right c PMP_READ
      rw [Nat.shiftLeft_eq]
      have h3 : PMP_READ = 1 := rfl
      omega
    have a3 : c &&& PMP_WRITE < 2 ^ 3 := by
      have := @Nat.and_le_right c PMP_WRITE
      have h3 : PMP_WRITE = 2 := rfl
      omega
    have a4 : (c &&& PMP_EXEC) >>> 2 < 2 ^ 3 := by
      have := @Nat.and_le_right c PMP_EXEC
      rw [Nat.shiftRight_eq_div_pow]
      have h5 : (c &&& PMP_EXEC) / 2 ^ 2 ≤ c &&& PMP_EXEC := Nat.div_le_self _ _
      have h6 : PMP_EXEC = 4 := rfl
      omega
    exact Nat.or_lt_two_pow (Nat.or_lt_two_pow (Nat.or_lt_two_pow a1 a2) a3) a4
  omega

/-- C10: with ePMP implemented, MML set and RLB clear, for an unlocked entry
`i < MAX_RISCV_PMPS` and a value `c`, `pmp_write_cfg (i, c)` returns, and
`cfg[i]` is `c` afterwards if and only if the operation code
`8*L + 4*R + 2*W + X` of `c` is not 9, 10, 11 or 13; when it is one of these
the state is unchanged. -/
theorem C10_mml_filter (t : Target) (env : CPURISCVState) (i c : Nat)
    (hepmp : env.cfg.epmp = true) (hmml : MSECCFG_MML_ISSET env = true)
    (hrlb : MSECCFG_RLB_ISSET env = false) (hi : i < t.MAX_RISCV_PMPS)
    (hunl : pmp_is_locked env i = false) :
    ∃ env1, pmp_write_cfg t env i c = some env1 ∧
      ((env1.pmp_state.pmp i).cfg_reg = c ↔
        ¬ (epmp_op_spec c = 9 ∨ epmp_op_spec c = 10 ∨ epmp_op_spec c = 11 ∨
          epmp_op_spec c = 13)) ∧
      ((epmp_op_spec c = 9 ∨ epmp_op_spec c = 10 ∨ epmp_op_spec c = 11 ∨
          epmp_op_spec c = 13) → env1 = env) := by
  have hw : pmp_is_writable env i = true := by
    unfold pmp_is_writable
    simp [hrlb, hunl]
  unfold pmp_write_cfg
  simp only [hi, if_true, hw, Bool.not_true, Bool.false_eq_true, if_false, hepmp,
    pmp_is_valid_epmp_cfg_mml env c hmml hrlb]
  by_cases hop : epmp_op_spec c = 9 ∨ epmp_op_spec c = 10 ∨ epmp_op_spec c = 11 ∨
      epmp_op_spec c = 13
  · simp only [hop, not_true_eq_false, decide_False]
    refine ⟨env, rfl, ?_, fun _ => rfl⟩
    simp only [iff_false]
    intro heq
    have h8 : 8 ≤ epmp_op_spec c := by omega
    have hlock := epmp_op_spec_locked c h8
    unfold pmp_is_locked at hunl
    rw [heq] at hunl
    simp at hunl
    exact hlock hunl
  · simp only [hop, not_false_eq_true, decide_True]
    refine ⟨_, rfl, ?_, fun h => False.elim h⟩
    simp only [pmp_update_rule_pmp, set_at_same, iff_true]

/-- C10 at a concrete state: MML is set, RLB clear, entry 2 unlocked; the byte
`0x9C` (`L | X | NAPOT`, operation code 9) is rejected and the state is
unchanged. -/
theorem C10_mml_filter_witness :
    MSECCFG_MML_ISSET (two_region_state true 1 0x19 0x1F) = true ∧
    epmp_op_spec 0x9C = 9 ∧
    ∃ env1, pmp_write_cfg rv32 (two_region_state true 1 0x19 0x1F) 2 0x9C = some env1 ∧
      ((env1.pmp_state.pmp 2).cfg_reg = 0x9C ↔
        ¬ (epmp_op_spec 0x9C = 9 ∨ epmp_op_spec 0x9C = 10 ∨ epmp_op_spec 0x9C = 11 ∨
          epmp_op_spec 0x9C = 13)) ∧
      ((epmp_op_spec 0x9C = 9 ∨ epmp_op_spec 0x9C = 10 ∨ epmp_op_spec 0x9C = 11 ∨
          epmp_op_spec 0x9C = 13) → env1 = two_region_state true 1 0x19 0x1F) :=
  ⟨by decide, by decide,
    C10_mml_filter rv32 (two_region_state true 1 0x19 0x1F) 2 0x9C (by decide)
      (by decide) (by decide) (by decide) (by decide)⟩

/-! ## Totality and frame of the register writes -/

theorem pmp_write_cfg_cases (t : Target) (env : CPURISCVState) (j v : Nat) :
    pmp_write_cfg t env j v = some env ∨
      (j < t.MAX_RISCV_PMPS ∧ pmp_is_writable env j = true ∧
        (env.cfg.epmp = true → pmp_is_valid_epmp_cfg env v = some true) ∧
        pmp_write_cfg t env j v = some (pmp_update_rule t (with_cfg env j v) j)) := by
  unfold pmp_write_cfg
  by_cases hj : j < t.MAX_RISCV_PMPS
  · simp only [hj, if_true]
    cases hw : pmp_is_writable env j
    · left
      simp
    · simp only [Bool.not_true, Bool.false_eq_true, if_false]
      cases he : env.cfg.epmp
      · right
        exact ⟨trivial, trivial, fun h => Bool.noConfusion h, rfl⟩
      · simp only [if_true]
        obtain ⟨b, hb⟩ := pmp_is_valid_epmp_cfg_isSome env v
        rw [hb]
        cases b
        · left
          rfl
        · right
          exact ⟨trivial, trivial, fun _ => rfl, rfl⟩
  · left
    simp only [hj, if_false]

theorem pmpaddr_csr_write_cases (t : Target) (env : CPURISCVState) (j v : Nat) :
    pmpaddr_csr_write t env j v = env ∨
      (j < t.MAX_RISCV_PMPS ∧ pmp_is_writable env j = true ∧
        pmpaddr_csr_write t env j v = pmp_update_rule t (with_addr env j v) j) := by
  unfold pmpaddr_csr_write
  split
  · rename_i hj
    split
    · left; rfl
    · split
      · rename_i hw
        right
        exact ⟨hj, hw, rfl⟩
      · left; rfl
  · left; rfl

/-- A property of the state that each accepted store and each `mseccfg` write
keeps holds after every sequence of register writes, and every such sequence
returns. The bytes of the `pmpcfg` values may be restricted by `B`. -/
theorem csr_writes_invariant (t : Target) (I : CPURISCVState → Prop) (B : Nat → Prop)
    (hcfg : ∀ env j v, I env → j < t.MAX_RISCV_PMPS → B v → v < 256 →
      I (pmp_update_rule t (with_cfg env j v) j))
    (haddr : ∀ env j v, I env → j < t.MAX_RISCV_PMPS →
      I (pmp_update_rule t (with_addr env j v) j))
    (hmsec : ∀ env v, I env → I (mseccfg_csr_write t env v)) :
    ∀ (ws : List CsrWrite) (env : CPURISCVState), I env →
      (∀ reg val, CsrWrite.pmpcfg reg val ∈ ws → ∀ i, B ((val >>> (8 * i)) &&& 0xff)) →
      ∃ env1, csr_writes t env ws = some env1 ∧ I env1 := by
  have hbyte : ∀ x : Nat, x &&& 0xff < 256 := by
    intro x
    have := @Nat.and_le_right x 0xff
    omega
  have hloop : ∀ (reg val : Nat), (∀ i, B ((val >>> (8 * i)) &&& 0xff)) →
      ∀ (fuel k : Nat) (env : CPURISCVState), I env →
        ∃ env1, pmpcfg_csr_write_loop t reg val fuel k env = some env1 ∧ I env1 := by
    intro reg val hB fuel
    induction fuel with
    | zero =>
      intro k env h
      exact ⟨env, rfl, h⟩
    | succ n ih =>
      intro k env h
      rcases pmp_write_cfg_cases t env ((reg * 4 + k) % 2 ^ 32)
          ((val >>> (8 * k)) &&& 0xff) with h1 | ⟨hj, _, _, h1⟩
      · obtain ⟨env2, h3, h4⟩ := ih (k + 1) env h
        exact ⟨env2, by simp only [pmpcfg_csr_write_loop, h1, h3], h4⟩
      · obtain ⟨env2, h3, h4⟩ := ih (k + 1) _ (hcfg env _ _ h hj (hB k) (hbyte _))
        exact ⟨env2, by simp only [pmpcfg_csr_write_loop, h1, h3], h4⟩
  intro ws
  induction ws with
  | nil =>
    intro env h _
    exact ⟨env, rfl, h⟩
  | cons w ws ih =>
    intro env h hB
    have hB2 : ∀ reg val, CsrWrite.pmpcfg reg val ∈ ws →
        ∀ i, B ((val >>> (8 * i)) &&& 0xff) :=
      fun reg val hm => hB reg val (List.mem_cons_of_mem _ hm)
    have hstep : ∃ env1, csr_write t env w = some env1 ∧ I env1 := by
      cases w with
      | pmpcfg reg val =>
        exact hloop reg val (hB reg val (List.mem_cons_self _ _)) _ 0 env h
      | pmpaddr j v =>
        refine ⟨_, rfl, ?_⟩
        rcases pmpaddr_csr_write_cases t env j v with h1 | ⟨hj, _, h1⟩
        · rw [h1]; exact h
        · rw [h1]; exact haddr env j v h hj
      | mseccfg v => exact ⟨_, rfl, hmsec env v h⟩
    obtain ⟨env1, h1, h2⟩ := hstep
    obtain ⟨env2, h3, h4⟩ := ih env1 h2 hB2
    exact ⟨env2, by simp only [csr_writes, h1, h3], h4⟩

/-! ## C11, C12, C13: the bits of `mseccfg` -/

theorem or_ne_zero_right (a b : Nat) (h : b ≠ 0) : a ||| b ≠ 0 := by
  obtain ⟨i, hi⟩ := Nat.ne_zero_implies_bit_true h
  intro h0
  have : (a ||| b).testBit i = true := by
    rw [Nat.testBit_or, hi, Bool.or_true]
  rw [h0, Nat.zero_testBit] at this
  exact Bool.noConfusion this

theorem mseccfg_csr_write_sticky (t : Target) (env : CPURISCVState) (val b : Nat)
    (hb : (MSECCFG_MMWP ||| MSECCFG_MML) &&& b = b) (h : env.mseccfg &&& b ≠ 0) :
    (mseccfg_csr_write t env val).mseccfg &&& b ≠ 0 := by
  unfold mseccfg_csr_write
  simp only
  rw [or_and_right, Nat.and_assoc, hb]
  exact or_ne_zero_right _ _ h

theorem mseccfg_of_pmp_update_rule_with_cfg (t : Target) (env : CPURISCVState) (j v : Nat) :
    (pmp_update_rule t (with_cfg env j v) j).mseccfg = env.mseccfg := rfl

theorem mseccfg_of_pmp_update_rule_with_addr (t : Target) (env : CPURISCVState) (j v : Nat) :
    (pmp_update_rule t (with_addr env j v) j).mseccfg = env.mseccfg := rfl

theorem csr_writes_single (t : Target) (env : CPURISCVState) (w : CsrWrite) :
    csr_writes t env [w] = csr_write t env w := by
  unfold csr_writes
  cases h : csr_write t env w
  · rfl
  · rfl

/-- C11: an `mseccfg` write keeps MML set if it was set, and likewise MMWP;
writes of `pmpcfg` and `pmpaddr` return and leave `mseccfg` as it was; hence
after every sequence of register writes MML (resp. MMWP) is set if it was set
at the start. -/
theorem C11_stickiness (t : Target) (env : CPURISCVState) :
    (∀ val, (MSECCFG_MML_ISSET env = true →
          MSECCFG_MML_ISSET (mseccfg_csr_write t env val) = true) ∧
        (MSECCFG_MMWP_ISSET env = true →
          MSECCFG_MMWP_ISSET (mseccfg_csr_write t env val) = true)) ∧
    (∀ reg val, ∃ env1, pmpcfg_csr_write t env reg val = some env1 ∧
        env1.mseccfg = env.mseccfg) ∧
    (∀ j v, (pmpaddr_csr_write t env j v).mseccfg = env.mseccfg) ∧
    (∀ ws : List CsrWrite, ∃ env1, csr_writes t env ws = some env1 ∧
        (MSECCFG_MML_ISSET env = true → MSECCFG_MML_ISSET env1 = true) ∧
        (MSECCFG_MMWP_ISSET env = true → MSECCFG_MMWP_ISSET env1 = true)) := by
  have hstep : ∀ (e : CPURISCVState) (val : Nat),
      (MSECCFG_MML_ISSET e = true →
          MSECCFG_MML_ISSET (mseccfg_csr_write t e val) = true) ∧
        (MSECCFG_MMWP_ISSET e = true →
          MSECCFG_MMWP_ISSET (mseccfg_csr_write t e val) = true) := by
    intro e val
    constructor
    · intro h
      unfold MSECCFG_MML_ISSET at h ⊢
      have h1 : e.mseccfg &&& MSECCFG_MML ≠ 0 := by simpa using h
      have := mseccfg_csr_write_sticky t e val MSECCFG_MML (by decide) h1
      simpa using this
    · intro h
      unfold MSECCFG_MMWP_ISSET at h ⊢
      have h1 : e.mseccfg &&& MSECCFG_MMWP ≠ 0 := by simpa using h
      have := mseccfg_csr_write_sticky t e val MSECCFG_MMWP (by decide) h1
      simpa using this
  refine ⟨hstep env, ?_, ?_, ?_⟩
  · intro reg val
    have hloop : ∀ (fuel k : Nat) (e : CPURISCVState), e.mseccfg = env.mseccfg →
        ∃ env1, pmpcfg_csr_write_loop t reg val fuel k e = some env1 ∧
          env1.mseccfg = env.mseccfg := by
      intro fuel
      induction fuel with
      | zero =>
        intro k e he
        exact ⟨e, rfl, he⟩
      | succ n ih =>
        intro k e he
        rcases pmp_write_cfg_cases t e ((reg * 4 + k) % 2 ^ 32)
            ((val >>> (8 * k)) &&& 0xff) with h1 | ⟨_, _, _, h1⟩
        · obtain ⟨env2, h3, h4⟩ := ih (k + 1) e he
          exact ⟨env2, by simp only [pmpcfg_csr_write_loop, h1, h3], h4⟩
        · obtain ⟨env2, h3, h4⟩ := ih (k + 1)
            (pmp_update_rule t (with_cfg e ((reg * 4 + k) % 2 ^ 32)
              ((val >>> (8 * k)) &&& 0xff)) ((reg * 4 + k) % 2 ^ 32))
            ((mseccfg_of_pmp_update_rule_with_cfg t e _ _).trans he)
          exact ⟨env2, by simp only [pmpcfg_csr_write_loop, h1, h3], h4⟩
    exact hloop _ 0 env rfl
  · intro j v
    rcases pmpaddr_csr_write_cases t env j v with h1 | ⟨_, _, h1⟩
    · rw [h1]
    · rw [h1]; rfl
  · intro ws
    exact csr_writes_invariant t
      (fun e => (MSECCFG_MML_ISSET env = true → MSECCFG_MML_ISSET e = true) ∧
        (MSECCFG_MMWP_ISSET env = true → MSECCFG_MMWP_ISSET e = true))
      (fun _ => True)
      (fun e j v he _ _ _ => he)
      (fun e j v he _ => he)
      (fun e v he => ⟨fun h => (hstep e v).1 (he.1 h), fun h => (hstep e v).2 (he.2 h)⟩)
      ws env ⟨id, id⟩ (fun _ _ _ _ => trivial)

/-- C11 at a concrete state: MML and MMWP are set; after writing `mseccfg = 0`,
`pmpcfg0 = 0` and `pmpaddr3 = 5` both are still set. -/
theorem C11_stickiness_witness :
    MSECCFG_MML_ISSET (two_region_state true 3 0x19 0x1F) = true ∧
    MSECCFG_MMWP_ISSET (two_region_state true 3 0x19 0x1F) = true ∧
    ∃ env1, csr_writes rv32 (two_region_state true 3 0x19 0x1F)
        [CsrWrite.mseccfg 0, CsrWrite.pmpcfg 0 0, CsrWrite.pmpaddr 3 5] = some env1 ∧
      MSECCFG_MML_ISSET env1 = true ∧ MSECCFG_MMWP_ISSET env1 = true := by
  refine ⟨by decide, by decide, ?_⟩
  obtain ⟨env1, h1, h2, h3⟩ :=
    (C11_stickiness rv32 (two_region_state true 3 0x19 0x1F)).2.2.2
      [CsrWrite.mseccfg 0, CsrWrite.pmpcfg 0 0, CsrWrite.pmpaddr 3 5]
  exact ⟨env1, h1, h2 (by decide), h3 (by decide)⟩

theorem mseccfg_csr_write_rlb_stays_clear (t : Target) (env : CPURISCVState) (val : Nat)
    (hr : MSECCFG_RLB_ISSET env = false) (hl : AnyLocked t env) :
    MSECCFG_RLB_ISSET (mseccfg_csr_write t env val) = false := by
  obtain ⟨i, hi, hli⟩ := hl
  have hloop := mseccfg_csr_write_loop_locked t env val t.MAX_RISCV_PMPS 0 i
    (Nat.zero_le _) (by omega) hli
  unfold MSECCFG_RLB_ISSET mseccfg_csr_write
  simp only [hr, Bool.not_false, if_true, hloop]
  have hz : (val &&& (2 ^ t.XLEN - 1 - MSECCFG_RLB) |||
      env.mseccfg &&& (MSECCFG_MMWP ||| MSECCFG_MML)) &&& MSECCFG_RLB = 0 := by
    rw [or_and_right, Nat.and_assoc, rlb_mask_and, Nat.and_zero,
      Nat.zero_or, Nat.and_assoc]
    have : (MSECCFG_MMWP ||| MSECCFG_MML) &&& MSECCFG_RLB = 0 := by decide
    rw [this, Nat.and_zero]
  simp [hz]

/-- C12: in a state where RLB is clear and at least one entry has L set, RLB is
still clear after `mseccfg_csr_write (val)`, for every `val`. -/
theorem C12_rlb_locking (t : Target) (env : CPURISCVState) (val : Nat)
    (hr : MSECCFG_RLB_ISSET env = false)
    (hl : ∃ i, i < t.MAX_RISCV_PMPS ∧ pmp_is_locked env i = true) :
    MSECCFG_RLB_ISSET (mseccfg_csr_write t env val) = false :=
  mseccfg_csr_write_rlb_stays_clear t env val hr hl

/-- C12 at a concrete state: entry 1 is locked and RLB is clear; writing
`mseccfg = RLB` leaves RLB clear. -/
theorem C12_rlb_locking_witness :
    MSECCFG_RLB_ISSET (tor_locked_state true 0) = false ∧
    pmp_is_locked (tor_locked_state true 0) 1 = true ∧
    MSECCFG_RLB_ISSET (mseccfg_csr_write rv32 (tor_locked_state true 0) MSECCFG_RLB) =
      false :=
  ⟨by decide, by decide,
    C12_rlb_locking rv32 (tor_locked_state true 0) MSECCFG_RLB (by decide)
      ⟨1, by decide, by decide⟩⟩

/-- C13 as stated fails: RLB is set and entry 1 is locked, and writing
`mseccfg = 0` clears RLB. -/
theorem C13_counterexample :
    MSECCFG_RLB_ISSET (tor_locked_state true 4) = true ∧
    (1 < rv32.MAX_RISCV_PMPS ∧ pmp_is_locked (tor_locked_state true 4) 1 = true) ∧
    MSECCFG_RLB_ISSET (mseccfg_csr_write rv32 (tor_locked_state true 4) 0) = false := by
  decide

/-- C13, amended: in a state where RLB is set (whether or not an entry has L
set), after `mseccfg_csr_write (val)` RLB is the RLB bit of `val`: it stays set
exactly when `val` has it set. -/
theorem C13_rlb_follows_val (t : Target) (env : CPURISCVState) (val : Nat)
    (hr : MSECCFG_RLB_ISSET env = true) :
    MSECCFG_RLB_ISSET (mseccfg_csr_write t env val) = true ↔
      val &&& MSECCFG_RLB ≠ 0 := by
  unfold MSECCFG_RLB_ISSET mseccfg_csr_write
  simp only [hr, Bool.not_true, Bool.false_eq_true, if_false]
  have hz : (val ||| env.mseccfg &&& (MSECCFG_MMWP ||| MSECCFG_MML)) &&& MSECCFG_RLB =
      val &&& MSECCFG_RLB := by
    rw [or_and_right, Nat.and_assoc]
    have : (MSECCFG_MMWP ||| MSECCFG_MML) &&& MSECCFG_RLB = 0 := by decide
    rw [this, Nat.and_zero, Nat.or_zero]
  rw [hz]
  simp

/-- C13 (amended) at a concrete state: RLB is set and entry 1 is locked; the
write of `mseccfg = RLB | MML` keeps RLB set. -/
theorem C13_rlb_follows_val_witness :
    MSECCFG_RLB_ISSET (tor_locked_state true 4) = true ∧
    MSECCFG_RLB_ISSET (mseccfg_csr_write rv32 (tor_locked_state true 4) 5) = true :=
  ⟨by decide,
    (C13_rlb_follows_val rv32 (tor_locked_state true 4) 5 (by decide)).2 (by decide)⟩

/-! ## C14: `num_rules` counts the entries that are not OFF -/

theorem pmp_update_rule_nums_loop_eq (env : CPURISCVState) :
    ∀ fuel i n, pmp_update_rule_nums_loop env fuel i n =
      n + ((List.range' i fuel).filter (fun j => decide (NotOff env j))).length := by
  intro fuel
  induction fuel with
  | zero =>
    intro i n
    simp [pmp_update_rule_nums_loop]
  | succ m ih =>
    intro i n
    rw [pmp_update_rule_nums_loop, ih, List.range'_succ]
    by_cases h : NotOff env i
    · have h2 : PMP_AMATCH_OFF ≠ pmp_get_a_field (env.pmp_state.pmp i).cfg_reg :=
        fun h3 => h h3.symm
      simp only [h2, ne_eq, not_false_eq_true, if_true, List.filter_cons, h,
        decide_True, List.length_cons]
      omega
    · have h2 : ¬ (PMP_AMATCH_OFF ≠ pmp_get_a_field (env.pmp_state.pmp i).cfg_reg) :=
        fun h3 => h (fun h4 => h3 h4.symm)
      simp only [h2, if_false, List.filter_cons, h, decide_False, Bool.false_eq_true]

theorem active_rules_congr (t : Target) (e1 e2 : CPURISCVState)
    (h : e1.pmp_state.pmp = e2.pmp_state.pmp) : active_rules t e1 = active_rules t e2 := by
  unfold active_rules NotOff
  simp only [h]

/-- After the refresh of the derived state `num_rules` is the number of entries
that are not OFF, whatever it was before. -/
theorem pmp_update_rule_num_rules (t : Target) (env : CPURISCVState) (j : Nat) :
    (pmp_update_rule t env j).pmp_state.num_rules =
      active_rules t (pmp_update_rule t env j) := by
  have h1 : (pmp_update_rule t env j).pmp_state.num_rules =
      pmp_update_rule_nums_loop (pmp_update_rule_addr t env j) t.MAX_RISCV_PMPS 0 0 := rfl
  rw [h1, pmp_update_rule_nums_loop_eq, Nat.zero_add, ← List.range_eq_range']
  have h2 : active_rules t (pmp_update_rule t env j) =
      active_rules t (pmp_update_rule_addr t env j) :=
    active_rules_congr t _ _ rfl
  rw [h2]
  rfl

/-- The count `num_rules == |{i : A(i) != OFF}|` is kept by every sequence of
register writes, from any state in which it holds. -/
theorem num_rules_invariant (t : Target) (ws : List CsrWrite) (env : CPURISCVState)
    (h : pmp_get_num_rules env = active_rules t env) :
    ∃ env1, csr_writes t env ws = some env1 ∧
      pmp_get_num_rules env1 = active_rules t env1 :=
  csr_writes_invariant t (fun e => pmp_get_num_rules e = active_rules t e) (fun _ => True)
    (fun e j v _ _ _ _ => pmp_update_rule_num_rules t (with_cfg e j v) j)
    (fun e j v _ _ => pmp_update_rule_num_rules t (with_addr e j v) j)
    (fun e v he => by
      have h1 : pmp_get_num_rules (mseccfg_csr_write t e v) = pmp_get_num_rules e := rfl
      have h2 : active_rules t (mseccfg_csr_write t e v) = active_rules t e :=
        active_rules_congr t _ _ rfl
      show pmp_get_num_rules (mseccfg_csr_write t e v) =
        active_rules t (mseccfg_csr_write t e v)
      rw [h1, h2]
      exact he)
    ws env h (fun _ _ _ _ => trivial)

theorem active_rules_reset (t : Target) (pmp epmp mmu : Bool) (mxl : Nat) :
    active_rules t (reset_state pmp epmp mmu mxl) = 0 := by
  unfold active_rules
  rw [List.length_eq_zero, List.filter_eq_nil_iff]
  intro j _
  simp [NotOff, reset_state, pmp_get_a_field]

/-- C14: from the state after reset, every finite sequence of `pmpcfg`,
`pmpaddr` and `mseccfg` writes returns, and afterwards `pmp_get_num_rules` is
the number of entries whose A field is not OFF. -/
theorem C14_num_rules_consistency (t : Target) (pmp epmp mmu : Bool) (mxl : Nat)
    (ws : List CsrWrite) :
    ∃ env1, csr_writes t (reset_state pmp epmp mmu mxl) ws = some env1 ∧
      pmp_get_num_rules env1 = active_rules t env1 :=
  num_rules_invariant t ws (reset_state pmp epmp mmu mxl)
    ((active_rules_reset t pmp epmp mmu mxl).symm ▸ rfl)

/-! ## C15: the TLB hint -/

theorem and_page_mask (t : Target) (addr : Nat) (ha : addr < 2 ^ t.XLEN) :
    addr &&& t.TARGET_PAGE_MASK = page_start t addr := by
  have h1 : addr &&& t.TARGET_PAGE_MASK =
      2 ^ t.TARGET_PAGE_BITS * (addr >>> t.TARGET_PAGE_BITS) := by
    apply Nat.eq_of_testBit_eq
    intro i
    unfold Target.TARGET_PAGE_MASK Target.wrap
    rw [Nat.testBit_and, Nat.testBit_mod_two_pow, Nat.testBit_shiftLeft,
      Nat.testBit_two_pow_sub_one, Nat.testBit_mul_pow_two, Nat.testBit_shiftRight]
    by_cases h2 : i < t.XLEN
    · by_cases h3 : i ≥ t.TARGET_PAGE_BITS
      · have h4 : i - t.TARGET_PAGE_BITS < t.XLEN := by omega
        have h5 : t.TARGET_PAGE_BITS + (i - t.TARGET_PAGE_BITS) = i := by omega
        simp [h2, h3, h4, h5]
      · simp [h3]
    · have h6 : addr.testBit i = false := by
        apply Nat.testBit_lt_two_pow
        exact Nat.lt_of_lt_of_le ha (Nat.pow_le_pow_right (by norm_num) (by omega))
      by_cases h3 : i ≥ t.TARGET_PAGE_BITS
      · have h5 : t.TARGET_PAGE_BITS + (i - t.TARGET_PAGE_BITS) = i := by omega
        simp [h6, h5]
      · simp [h6, h3]
  rw [h1, Nat.shiftRight_eq_div_pow]
  unfold page_start Target.TARGET_PAGE_SIZE
  have := Nat.mod_add_div addr (2 ^ t.TARGET_PAGE_BITS)
  omega

theorem page_end_lt (t : Target) (addr : Nat) (ha : addr < 2 ^ t.XLEN)
    (hb : t.TARGET_PAGE_BITS ≤ t.XLEN) : page_end t addr < 2 ^ t.XLEN := by
  unfold page_end page_start Target.TARGET_PAGE_SIZE
  have hpos : 0 < 2 ^ t.TARGET_PAGE_BITS := Nat.two_pow_pos _
  have hsplit : 2 ^ t.XLEN = 2 ^ t.TARGET_PAGE_BITS * 2 ^ (t.XLEN - t.TARGET_PAGE_BITS) := by
    rw [← Nat.pow_add]
    congr 1
    omega
  have hq : addr / 2 ^ t.TARGET_PAGE_BITS < 2 ^ (t.XLEN - t.TARGET_PAGE_BITS) := by
    apply Nat.div_lt_of_lt_mul
    rw [← hsplit]
    exact ha
  have hmul : 2 ^ t.TARGET_PAGE_BITS * (addr / 2 ^ t.TARGET_PAGE_BITS + 1) ≤
      2 ^ t.TARGET_PAGE_BITS * 2 ^ (t.XLEN - t.TARGET_PAGE_BITS) :=
    Nat.mul_le_mul_left _ hq
  rw [Nat.mul_add, Nat.mul_one, ← hsplit] at hmul
  have := Nat.mod_add_div addr (2 ^ t.TARGET_PAGE_BITS)
  omega

theorem tlb_ea_eq (t : Target) (addr : Nat) (ha : addr < 2 ^ t.XLEN)
    (hb : t.TARGET_PAGE_BITS ≤ t.XLEN) :
    t.wrap (page_start t addr + t.TARGET_PAGE_SIZE - 1) = page_end t addr := by
  have h1 := page_end_lt t addr ha hb
  have hpos : 0 < t.TARGET_PAGE_SIZE := Nat.two_pow_pos _
  have h2 : page_start t addr + t.TARGET_PAGE_SIZE - 1 = page_end t addr := by
    unfold page_end
    omega
  rw [h2]
  exact Nat.mod_eq_of_lt h1

theorem page_start_le_end (t : Target) (addr : Nat) : page_start t addr ≤ page_end t addr := by
  unfold page_end
  omega

/-- What the loop of `pmp_get_tlb_size` returns on a non-empty interval
`[lo, hi]` when the entries that are not OFF have `sa ≤ ea`: the first entry
from `i` on that is not OFF and meets the interval decides. -/
theorem pmp_get_tlb_size_loop_spec (t : Target) (env : CPURISCVState) (lo hi : Nat)
    (hlh : lo ≤ hi) :
    ∀ (fuel i : Nat),
      (∀ j, i ≤ j → j < i + fuel → NotOff env j →
        (env.pmp_state.addr j).sa ≤ (env.pmp_state.addr j).ea) →
      (∃ k, i ≤ k ∧ k < i + fuel ∧ NotOff env k ∧ Intersects env k lo hi ∧
          (∀ j, i ≤ j → j < k → ¬ (NotOff env j ∧ Intersects env j lo hi)) ∧
          pmp_get_tlb_size_loop t env lo hi fuel i =
            if ContainsAll env k lo hi then t.TARGET_PAGE_SIZE else 1) ∨
      ((∀ j, i ≤ j → j < i + fuel → ¬ (NotOff env j ∧ Intersects env j lo hi)) ∧
          pmp_get_tlb_size_loop t env lo hi fuel i = t.TARGET_PAGE_SIZE) := by
  intro fuel
  induction fuel with
  | zero =>
    intro i _
    right
    exact ⟨fun j h1 h2 => by omega, rfl⟩
  | succ n ih =>
    intro i hwf
    have hwf2 : ∀ j, i + 1 ≤ j → j < i + 1 + n → NotOff env j →
        (env.pmp_state.addr j).sa ≤ (env.pmp_state.addr j).ea :=
      fun j h1 h2 h3 => hwf j (by omega) (by omega) h3
    have hskip : ¬ (NotOff env i ∧ Intersects env i lo hi) →
        pmp_get_tlb_size_loop t env lo hi n (i + 1) =
          pmp_get_tlb_size_loop t env lo hi (n + 1) i →
        (∃ k, i ≤ k ∧ k < i + (n + 1) ∧ NotOff env k ∧ Intersects env k lo hi ∧
          (∀ j, i ≤ j → j < k → ¬ (NotOff env j ∧ Intersects env j lo hi)) ∧
          pmp_get_tlb_size_loop t env lo hi (n + 1) i =
            if ContainsAll env k lo hi then t.TARGET_PAGE_SIZE else 1) ∨
        ((∀ j, i ≤ j → j < i + (n + 1) → ¬ (NotOff env j ∧ Intersects env j lo hi)) ∧
          pmp_get_tlb_size_loop t env lo hi (n + 1) i = t.TARGET_PAGE_SIZE) := by
      intro hno heq
      rcases ih (i + 1) hwf2 with ⟨k, h1, h2, h3, h4, h5, h6⟩ | ⟨h1, h2⟩
      · left
        refine ⟨k, by omega, by omega, h3, h4, ?_, by rw [← heq, h6]⟩
        intro j hj1 hj2
        by_cases hji : j = i
        · subst hji; exact hno
        · exact h5 j (by omega) hj2
      · right
        refine ⟨?_, by rw [← heq, h2]⟩
        intro j hj1 hj2
        by_cases hji : j = i
        · subst hji; exact hno
        · exact h1 j (by omega) (by omega)
    by_cases hoff : NotOff env i
    · have hoff2 : ¬ (pmp_get_a_field (env.pmp_state.pmp i).cfg_reg = PMP_AMATCH_OFF) := hoff
      have hle := hwf i (le_refl i) (by omega) hoff
      by_cases hint : Intersects env i lo hi
      · left
        refine ⟨i, le_refl i, by omega, hoff, hint, fun j h1 h2 => by omega, ?_⟩
        unfold Intersects at hint
        unfold ContainsAll
        rw [pmp_get_tlb_size_loop]
        simp only [hoff2, if_false, ge_iff_le]
        by_cases hc : (env.pmp_state.addr i).sa ≤ lo ∧ hi ≤ (env.pmp_state.addr i).ea
        · simp only [hc, and_self, if_true]
        · simp only [hc, if_false]
          have hend : (lo ≤ (env.pmp_state.addr i).sa ∧ (env.pmp_state.addr i).sa ≤ hi) ∨
              (lo ≤ (env.pmp_state.addr i).ea ∧ (env.pmp_state.addr i).ea ≤ hi) := by
            by_contra hcon
            apply hc
            omega
          simp only [hend, if_true]
      · apply hskip (fun h => hint h.2)
        unfold Intersects at hint
        rw [pmp_get_tlb_size_loop.eq_2]
        simp only [hoff2, if_false, ge_iff_le]
        have hc : ¬ ((env.pmp_state.addr i).sa ≤ lo ∧ hi ≤ (env.pmp_state.addr i).ea) := by
          intro hc
          apply hint
          omega
        have hend : ¬ ((lo ≤ (env.pmp_state.addr i).sa ∧ (env.pmp_state.addr i).sa ≤ hi) ∨
            (lo ≤ (env.pmp_state.addr i).ea ∧ (env.pmp_state.addr i).ea ≤ hi)) := by
          intro hcon
          apply hint
          omega
        simp only [hc, hend, if_false]
    · apply hskip (fun h => hoff h.1)
      have hoff2 : pmp_get_a_field (env.pmp_state.pmp i).cfg_reg = PMP_AMATCH_OFF := by
        unfold NotOff at hoff
        exact not_not.1 hoff
      rw [pmp_get_tlb_size_loop.eq_2]
      simp only [hoff2, if_true]

theorem FirstIntersecting.unique {t : Target} {env : CPURISCVState} {lo hi k1 k2 : Nat}
    (h1 : FirstIntersecting t env lo hi k1) (h2 : FirstIntersecting t env lo hi k2) :
    k1 = k2 := by
  rcases Nat.lt_trichotomy k1 k2 with h | h | h
  · exact absurd ⟨h1.2.1, h1.2.2.1⟩ (h2.2.2.2 k1 h)
  · exact h
  · exact absurd ⟨h2.2.1, h2.2.2.1⟩ (h1.2.2.2 k2 h)

theorem pmp_get_tlb_size_cases (t : Target) (env : CPURISCVState) (addr : Nat)
    (ha : addr < 2 ^ t.XLEN) (hb : t.TARGET_PAGE_BITS ≤ t.XLEN)
    (hwf : ∀ j, j < t.MAX_RISCV_PMPS → NotOff env j →
      (env.pmp_state.addr j).sa ≤ (env.pmp_state.addr j).ea) :
    (SplitsPage t env addr → pmp_get_tlb_size t env addr = 1) ∧
    (¬ SplitsPage t env addr → pmp_get_tlb_size t env addr = t.TARGET_PAGE_SIZE) := by
  have hunf : pmp_get_tlb_size t env addr =
      if (!env.cfg.pmp || decide (pmp_get_num_rules env = 0)) = true
      then t.TARGET_PAGE_SIZE
      else pmp_get_tlb_size_loop t env (page_start t addr) (page_end t addr)
        t.MAX_RISCV_PMPS 0 := by
    unfold pmp_get_tlb_size
    simp only [and_page_mask t addr ha, tlb_ea_eq t addr ha hb]
  rw [hunf]
  by_cases h0 : (!env.cfg.pmp || decide (pmp_get_num_rules env = 0)) = true
  · rw [if_pos h0]
    have hns : ¬ SplitsPage t env addr := by
      rintro ⟨h1, h2, _⟩
      simp [h1, h2] at h0
    exact ⟨fun h => absurd h hns, fun _ => rfl⟩
  · rw [if_neg h0]
    have hp : env.cfg.pmp = true ∧ pmp_get_num_rules env ≠ 0 := by
      cases hpmp : env.cfg.pmp <;> simp [hpmp] at h0 ⊢
      exact h0
    rcases pmp_get_tlb_size_loop_spec t env (page_start t addr) (page_end t addr)
        (page_start_le_end t addr) t.MAX_RISCV_PMPS 0
        (fun j _ h2 h3 => hwf j (by omega) h3) with
      ⟨k, _, hk, hoff, hint, hfirst, hres⟩ | ⟨hnone, hres⟩
    · have hfi : FirstIntersecting t env (page_start t addr) (page_end t addr) k :=
        ⟨by omega, hoff, hint, fun j hj => hfirst j (Nat.zero_le _) hj⟩
      rw [hres]
      constructor
      · rintro ⟨_, _, k2, hk2, hnc⟩
        have := hfi.unique hk2
        subst this
        rw [if_neg hnc]
      · intro hns
        by_cases hc : ContainsAll env k (page_start t addr) (page_end t addr)
        · rw [if_pos hc]
        · exact absurd ⟨hp.1, hp.2, k, hfi, hc⟩ hns
    · rw [hres]
      constructor
      · rintro ⟨_, _, k2, hk2, _⟩
        exact absurd ⟨hk2.2.1, hk2.2.2.1⟩ (hnone k2 (Nat.zero_le _) (by have := hk2.1; omega))
      · intro _
        rfl

/-- C15: for an address of XLEN bits, pages of at most `2 ^ XLEN` bytes and
entries with `sa ≤ ea`, `pmp_get_tlb_size` returns `TARGET_PAGE_SIZE` or 1; it
returns 1 when PMP is implemented, `num_rules` is not 0 and the lowest-indexed
non-OFF entry whose range meets the page of `addr` does not contain the whole
page, and `TARGET_PAGE_SIZE` in every other case; so, the page being larger
than one byte, it returns 1 if and only if that condition holds. -/
theorem C15_tlb_hint (t : Target) (env : CPURISCVState) (addr : Nat)
    (ha : addr < 2 ^ t.XLEN) (hb : t.TARGET_PAGE_BITS ≤ t.XLEN)
    (hwf : ∀ j, j < t.MAX_RISCV_PMPS → NotOff env j →
      (env.pmp_state.addr j).sa ≤ (env.pmp_state.addr j).ea) :
    (pmp_get_tlb_size t env addr = t.TARGET_PAGE_SIZE ∨ pmp_get_tlb_size t env addr = 1) ∧
    (SplitsPage t env addr → pmp_get_tlb_size t env addr = 1) ∧
    (¬ SplitsPage t env addr → pmp_get_tlb_size t env addr = t.TARGET_PAGE_SIZE) ∧
    (0 < t.TARGET_PAGE_BITS → (pmp_get_tlb_size t env addr = 1 ↔ SplitsPage t env addr)) := by
  obtain ⟨h1, h2⟩ := pmp_get_tlb_size_cases t env addr ha hb hwf
  refine ⟨?_, h1, h2, ?_⟩
  · by_cases hs : SplitsPage t env addr
    · right; exact h1 hs
    · left; exact h2 hs
  · intro hpos
    constructor
    · intro hr
      by_contra hs
      have hp := h2 hs
      rw [hr] at hp
      have hgt : 1 < t.TARGET_PAGE_SIZE := by
        unfold Target.TARGET_PAGE_SIZE
        exact Nat.one_lt_two_pow (by omega)
      omega
    · exact h1

/-- C15 at a concrete state: entry 0 is `[0x80000008, 0x8000000F]`, it meets
the 4 KiB page of `0x80000000` without containing it, and the hint is 1. -/
theorem C15_tlb_hint_witness :
    SplitsPage rv32 small_region_state 0x80000000 ∧
    pmp_get_tlb_size rv32 small_region_state 0x80000000 = 1 := by
  have hs : SplitsPage rv32 small_region_state 0x80000000 :=
    ⟨by decide, by decide, 0, ⟨by decide, by decide, by decide, by decide⟩, by decide⟩
  exact ⟨hs, (C15_tlb_hint rv32 small_region_state 0x80000000 (by decide) (by decide)
    (by decide)).2.1 hs⟩

/-! ## C16: `pmpcfg` write and read -/

theorem testBit_byte (c b : Nat) (hc : c < 256) (hb : 8 ≤ b) : c.testBit b = false := by
  apply Nat.testBit_lt_two_pow
  have h1 : (2 : Nat) ^ 8 ≤ 2 ^ b := Nat.pow_le_pow_right (by norm_num) hb
  have h2 : (2 : Nat) ^ 8 = 256 := by norm_num
  omega

/-- Bit `b` of the word the read loop builds: a bit of the accumulator, or bit
`b % 8` of the cfg byte read for position `b / 8` when that position is one the
loop visits. -/
theorem pmpcfg_csr_read_loop_testBit (t : Target) (env : CPURISCVState) (reg : Nat) :
    ∀ (fuel i acc b : Nat), 8 * (i + fuel) ≤ t.XLEN →
      (∀ k, i ≤ k → k < i + fuel → pmp_read_cfg t env (pmpcfg_index reg k) < 256) →
      (pmpcfg_csr_read_loop t env reg fuel i acc).testBit b =
        (acc.testBit b ||
          (decide (8 * i ≤ b ∧ b < 8 * (i + fuel)) &&
            (pmp_read_cfg t env (pmpcfg_index reg (b / 8))).testBit (b % 8))) := by
  intro fuel
  induction fuel with
  | zero =>
    intro i acc b _ _
    have h : ¬ (8 * i ≤ b ∧ b < 8 * (i + 0)) := by omega
    simp [pmpcfg_csr_read_loop, h]
  | succ n ih =>
    intro i acc b hX hc
    have hci := hc i (le_refl i) (by omega)
    have hstep : pmpcfg_csr_read_loop t env reg (n + 1) i acc =
        pmpcfg_csr_read_loop t env reg n (i + 1)
          (acc ||| t.wrap (pmp_read_cfg t env (pmpcfg_index reg i) <<< (i * 8))) := rfl
    rw [hstep, ih (i + 1) _ b (by omega) (fun k h1 h2 => hc k (by omega) (by omega))]
    unfold Target.wrap
    rw [Nat.testBit_or, Nat.testBit_mod_two_pow, Nat.testBit_shiftLeft]
    by_cases h1 : 8 * i ≤ b ∧ b < 8 * i + 8
    · have h2 : b / 8 = i := by omega
      have h3 : b % 8 = b - i * 8 := by omega
      have h4 : b < t.XLEN := by omega
      have h5 : b ≥ i * 8 := by omega
      have h6 : ¬ (8 * (i + 1) ≤ b ∧ b < 8 * (i + 1 + n)) := by omega
      have h7 : 8 * i ≤ b ∧ b < 8 * (i + (n + 1)) := by omega
      simp [h2, h3, h4, h5, h6, h7]
    · by_cases h5 : b ≥ i * 8
      · have h8 : (pmp_read_cfg t env (pmpcfg_index reg i)).testBit (b - i * 8) = false :=
          testBit_byte _ _ hci (by omega)
        have h9 : (8 * (i + 1) ≤ b ∧ b < 8 * (i + 1 + n)) ↔
            (8 * i ≤ b ∧ b < 8 * (i + (n + 1))) := by omega
        simp [h8, h9]
      · have h6 : ¬ (8 * (i + 1) ≤ b ∧ b < 8 * (i + 1 + n)) := by omega
        have h7 : ¬ (8 * i ≤ b ∧ b < 8 * (i + (n + 1))) := by omega
        simp [h5, h6, h7]

/-- Byte `i` of the word `pmpcfg_csr_read` returns is what `pmp_read_cfg`
returns for the index of position `i`. -/
theorem pmpcfg_csr_read_byte (t : Target) (env : CPURISCVState) (reg i : Nat)
    (h8 : 8 * (2 <<< env.misa_mxl) ≤ t.XLEN)
    (hc : ∀ k, k < 2 <<< env.misa_mxl → pmp_read_cfg t env (pmpcfg_index reg k) < 256)
    (hi : i < 2 <<< env.misa_mxl) :
    byte_of (pmpcfg_csr_read t env reg) i = pmp_read_cfg t env (pmpcfg_index reg i) := by
  apply Nat.eq_of_testBit_eq
  intro b
  unfold byte_of pmpcfg_csr_read
  have h255 : (0xff : Nat) = 2 ^ 8 - 1 := by norm_num
  rw [Nat.testBit_and, Nat.testBit_shiftRight, h255, Nat.testBit_two_pow_sub_one,
    pmpcfg_csr_read_loop_testBit t env reg _ 0 0 _ (by omega)
      (fun k _ h2 => hc k (by omega))]
  by_cases hb : b < 8
  · have h2 : (8 * i + b) / 8 = i := by omega
    have h3 : (8 * i + b) % 8 = b := by omega
    have h4 : 8 * 0 ≤ 8 * i + b ∧ 8 * i + b < 8 * (0 + 2 <<< env.misa_mxl) := by omega
    simp [h2, h3, hb]
    intro _
    omega
  · have h5 := testBit_byte _ b (hc i hi) (by omega)
    simp [hb, h5]

theorem pmp_write_cfg_stores (t : Target) (env : CPURISCVState) (j v : Nat)
    (hj : j < t.MAX_RISCV_PMPS) (hw : pmp_is_writable env j = true)
    (hv : env.cfg.epmp = true → pmp_is_valid_epmp_cfg env v = some true) :
    pmp_write_cfg t env j v = some (pmp_update_rule t (with_cfg env j v) j) := by
  unfold pmp_write_cfg
  simp only [hj, if_true, hw, Bool.not_true, Bool.false_eq_true, if_false]
  cases he : env.cfg.epmp
  · simp only [Bool.false_eq_true, if_false]
    rfl
  · simp only [if_true, hv he]
    rfl

theorem pmpcfg_index_ne (reg i k : Nat) (h1 : i < k) (h2 : k < i + 2 ^ 32) :
    pmpcfg_index reg k ≠ pmpcfg_index reg i := by
  unfold pmpcfg_index
  omega

/-- When every target entry is in range and writable and every byte passes the
filter, the write loop stores each byte in its entry and touches nothing
else of the registers. -/
theorem pmpcfg_csr_write_loop_stores (t : Target) (reg val : Nat) :
    ∀ (fuel i : Nat) (env : CPURISCVState), i + fuel ≤ 2 ^ 32 →
      (∀ k, i ≤ k → k < i + fuel →
        pmpcfg_index reg k < t.MAX_RISCV_PMPS ∧
        pmp_is_writable env (pmpcfg_index reg k) = true ∧
        (env.cfg.epmp = true → pmp_is_valid_epmp_cfg env (byte_of val k) = some true)) →
      ∃ env1, pmpcfg_csr_write_loop t reg val fuel i env = some env1 ∧
        (∀ k, i ≤ k → k < i + fuel →
          (env1.pmp_state.pmp (pmpcfg_index reg k)).cfg_reg = byte_of val k) ∧
        (∀ j, (∀ k, i ≤ k → k < i + fuel → j ≠ pmpcfg_index reg k) →
          env1.pmp_state.pmp j = env.pmp_state.pmp j) ∧
        env1.cfg = env.cfg ∧ env1.mseccfg = env.mseccfg ∧
        env1.misa_mxl = env.misa_mxl := by
  intro fuel
  induction fuel with
  | zero =>
    intro i env _ _
    exact ⟨env, rfl, fun k h1 h2 => by omega, fun _ _ => rfl, rfl, rfl, rfl⟩
  | succ n ih =>
    intro i env hlen h
    obtain ⟨hj, hw, hv⟩ := h i (le_refl i) (by omega)
    have hst := pmp_write_cfg_stores t env (pmpcfg_index reg i) (byte_of val i) hj hw hv
    have hnext : ∀ k, i + 1 ≤ k → k < i + 1 + n →
        pmpcfg_index reg k < t.MAX_RISCV_PMPS ∧
        pmp_is_writable
          (pmp_update_rule t (with_cfg env (pmpcfg_index reg i) (byte_of val i))
            (pmpcfg_index reg i)) (pmpcfg_index reg k) = true ∧
        ((pmp_update_rule t (with_cfg env (pmpcfg_index reg i) (byte_of val i))
            (pmpcfg_index reg i)).cfg.epmp = true →
          pmp_is_valid_epmp_cfg
            (pmp_update_rule t (with_cfg env (pmpcfg_index reg i) (byte_of val i))
              (pmpcfg_index reg i)) (byte_of val k) = some true) := by
      intro k hk1 hk2
      obtain ⟨hj2, hw2, hv2⟩ := h k (by omega) (by omega)
      have hne := pmpcfg_index_ne reg i k (by omega) (by omega)
      refine ⟨hj2, ?_, hv2⟩
      unfold pmp_is_writable pmp_is_locked MSECCFG_RLB_ISSET at hw2 ⊢
      simp only [pmp_update_rule_pmp, pmp_update_rule_cfg, pmp_update_rule_mseccfg,
        with_cfg, set_at_other _ _ _ _ hne]
      exact hw2
    obtain ⟨env1, h1, h2, h3, h4, h5, h6⟩ := ih (i + 1) _ (by omega) hnext
    refine ⟨env1, ?_, ?_, ?_, h4, h5, h6⟩
    · have hst2 : pmp_write_cfg t env ((reg * 4 + i) % 2 ^ 32) ((val >>> (8 * i)) &&& 0xff) =
          some (pmp_update_rule t (with_cfg env (pmpcfg_index reg i) (byte_of val i))
            (pmpcfg_index reg i)) := hst
      simp only [pmpcfg_csr_write_loop, hst2, h1]
    · intro k hk1 hk2
      by_cases hki : k = i
      · subst hki
        rw [h3 (pmpcfg_index reg k)
          (fun k2 hk3 hk4 => (pmpcfg_index_ne reg k k2 (by omega) (by omega)).symm)]
        simp only [pmp_update_rule_pmp, with_cfg, set_at_same]
      · exact h2 k (by omega) (by omega)
    · intro j hjne
      rw [h3 j (fun k hk1 hk2 => hjne k (by omega) (by omega))]
      have hji : j ≠ pmpcfg_index reg i := hjne i (le_refl i) (by omega)
      simp only [pmp_update_rule_pmp, with_cfg, set_at_other _ _ _ _ hji]

theorem byte_of_lt (val i : Nat) : byte_of val i < 256 := by
  unfold byte_of
  have := @Nat.and_le_right (val >>> (8 * i)) 0xff
  omega

theorem testBit_byte_of (val k j : Nat) :
    (byte_of val k).testBit j = (val.testBit (8 * k + j) && decide (j < 8)) := by
  unfold byte_of
  have h255 : (0xff : Nat) = 2 ^ 8 - 1 := by norm_num
  rw [Nat.testBit_and, Nat.testBit_shiftRight, h255, Nat.testBit_two_pow_sub_one]

theorem XLEN_le (t : Target) : t.XLEN ≤ 64 := by
  unfold Target.XLEN
  split <;> omega

/-- C16: let the register hold `2 << MXL` bytes and fit in `target_ulong`.
If `val` is such a word, every target index (computed in `uint32_t` as the
source does) is below `MAX_RISCV_PMPS` and writable, and every byte passes the
ePMP filter, then `pmpcfg_csr_write (reg, val)` returns and `pmpcfg_csr_read
(reg)` afterwards returns `val`, byte `i` of the word being `cfg[reg*4+i]`; and
in any state with 8-bit cfg bytes `pmpcfg_csr_read` has a zero byte at every
position whose index is not below `MAX_RISCV_PMPS`. The computed index is
`reg*4+i` whenever that is below `2 ^ 32`. -/
theorem C16_pmpcfg_round_trip (t : Target) (env : CPURISCVState) (reg val : Nat)
    (h8 : 8 * (2 <<< env.misa_mxl) ≤ t.XLEN) :
    (val < 2 ^ (8 * (2 <<< env.misa_mxl)) →
      (∀ i, i < 2 <<< env.misa_mxl →
        pmpcfg_index reg i < t.MAX_RISCV_PMPS ∧
        pmp_is_writable env (pmpcfg_index reg i) = true ∧
        (env.cfg.epmp = true → pmp_is_valid_epmp_cfg env (byte_of val i) = some true)) →
      ∃ env1, pmpcfg_csr_write t env reg val = some env1 ∧
        pmpcfg_csr_read t env1 reg = val ∧
        ∀ i, i < 2 <<< env.misa_mxl →
          byte_of (pmpcfg_csr_read t env1 reg) i =
            (env1.pmp_state.pmp (pmpcfg_index reg i)).cfg_reg ∧
          (env1.pmp_state.pmp (pmpcfg_index reg i)).cfg_reg = byte_of val i) ∧
    ((∀ j, (env.pmp_state.pmp j).cfg_reg < 256) →
      ∀ i, i < 2 <<< env.misa_mxl → t.MAX_RISCV_PMPS ≤ pmpcfg_index reg i →
        byte_of (pmpcfg_csr_read t env reg) i = 0) ∧
    (∀ i, reg * 4 + i < 2 ^ 32 → pmpcfg_index reg i = reg * 4 + i) := by
  have hX := XLEN_le t
  refine ⟨?_, ?_, ?_⟩
  · intro hval hidx
    obtain ⟨env1, h1, h2, _, _, _, h6⟩ :=
      pmpcfg_csr_write_loop_stores t reg val (2 <<< env.misa_mxl) 0 env (by omega)
        (fun k _ hk => hidx k (by omega))
    have hrd : ∀ k, k < 2 <<< env.misa_mxl →
        pmp_read_cfg t env1 (pmpcfg_index reg k) = byte_of val k := by
      intro k hk
      unfold pmp_read_cfg
      rw [if_pos (hidx k hk).1]
      exact h2 k (Nat.zero_le _) (by omega)
    have hread : pmpcfg_csr_read t env1 reg = val := by
      apply Nat.eq_of_testBit_eq
      intro b
      unfold pmpcfg_csr_read
      rw [h6, pmpcfg_csr_read_loop_testBit t env1 reg _ 0 0 b (by omega)
        (fun k _ hk => by rw [hrd k (by omega)]; exact byte_of_lt val k)]
      by_cases hb : b < 8 * (2 <<< env.misa_mxl)
      · have hk : b / 8 < 2 <<< env.misa_mxl := by omega
        have h3 : 8 * (b / 8) + b % 8 = b := by omega
        have h4 : b % 8 < 8 := by omega
        have h5 : 8 * 0 ≤ b ∧ b < 8 * (0 + 2 <<< env.misa_mxl) := by omega
        rw [hrd _ hk, testBit_byte_of, h3]
        simp [h4]
        intro _
        omega
      · have h7 : val.testBit b = false := by
          apply Nat.testBit_lt_two_pow
          exact Nat.lt_of_lt_of_le hval (Nat.pow_le_pow_right (by norm_num) (by omega))
        simp [h7]
        intro hlt
        omega
    refine ⟨env1, h1, hread, ?_⟩
    intro i hi
    have hc := h2 i (Nat.zero_le _) (by omega)
    refine ⟨?_, hc⟩
    rw [hread, hc]
  · intro hwf i hi hge
    have hc : ∀ k, k < 2 <<< env.misa_mxl →
        pmp_read_cfg t env (pmpcfg_index reg k) < 256 := by
      intro k _
      unfold pmp_read_cfg
      split
      · exact hwf _
      · norm_num
    rw [pmpcfg_csr_read_byte t env reg i h8 hc hi]
    unfold pmp_read_cfg
    rw [if_neg (by omega)]
  · intro i hi
    unfold pmpcfg_index
    exact Nat.mod_eq_of_lt hi

/-- C16 at a concrete state: on a 32-bit hart entries 4 to 7 are writable, the
word `0x1F1B0918` written to `pmpcfg1` is read back; and `pmpcfg4`, whose
indices 16 to 19 are not entries, has byte 0 equal to zero. -/
theorem C16_pmpcfg_round_trip_witness :
    8 * (2 <<< (two_region_state false 0 0x19 0x1F).misa_mxl) ≤ rv32.XLEN ∧
    (∃ env1, pmpcfg_csr_write rv32 (two_region_state false 0 0x19 0x1F) 1 0x1F1B0918 =
        some env1 ∧
      pmpcfg_csr_read rv32 env1 1 = 0x1F1B0918 ∧
      ∀ i, i < 2 <<< (two_region_state false 0 0x19 0x1F).misa_mxl →
        byte_of (pmpcfg_csr_read rv32 env1 1) i =
          (env1.pmp_state.pmp (pmpcfg_index 1 i)).cfg_reg ∧
        (env1.pmp_state.pmp (pmpcfg_index 1 i)).cfg_reg = byte_of 0x1F1B0918 i) ∧
    byte_of (pmpcfg_csr_read rv32 (two_region_state false 0 0x19 0x1F) 4) 0 = 0 := by
  have h := C16_pmpcfg_round_trip rv32 (two_region_state false 0 0x19 0x1F) 1 0x1F1B0918
    (by decide)
  have h4 := C16_pmpcfg_round_trip rv32 (two_region_state false 0 0x19 0x1F) 4 0
    (by decide)
  refine ⟨by decide, h.1 (by decide) (by decide), h4.2.1 ?_ 0 (by decide) (by decide)⟩
  intro j
  unfold two_region_state
  simp only
  split
  · decide
  · split <;> decide

/-! ## C17: the reserved bits of a cfg byte -/

/-- C17 as stated fails: from the state after reset, the write of `0x60` to
`pmpcfg0` is stored as it is, and the byte read back has bits 5 and 6 set. -/
theorem C17_counterexample :
    (csr_writes rv32 (reset_state true false true 1) [CsrWrite.pmpcfg 0 0x60]).map
        (fun e => (byte_of (pmpcfg_csr_read rv32 e 0) 0,
          byte_of (pmpcfg_csr_read rv32 e 0) 0 &&& 0x60)) = some (0x60, 0x60) := by
  decide

theorem pmp_read_cfg_reserved (t : Target) (env : CPURISCVState) (j : Nat)
    (h : ∀ k, (env.pmp_state.pmp k).cfg_reg < 256 ∧
      (env.pmp_state.pmp k).cfg_reg &&& 0x60 = 0) :
    pmp_read_cfg t env j < 256 ∧ pmp_read_cfg t env j &&& 0x60 = 0 := by
  unfold pmp_read_cfg
  split
  · exact h j
  · exact ⟨by norm_num, by decide⟩

/-- C17, amended: from the state after reset, after every sequence of register
writes in which each byte of each `pmpcfg` value has bits 5 and 6 clear, every
cfg byte returned through `pmpcfg_csr_read` has bits 5 and 6 clear (the
register holding `2 << MXL` bytes and fitting in `target_ulong`). -/
theorem C17_reserved_bits (t : Target) (pmp epmp mmu : Bool) (mxl : Nat)
    (ws : List CsrWrite) (h8 : 8 * (2 <<< mxl) ≤ t.XLEN)
    (hB : ∀ reg val, CsrWrite.pmpcfg reg val ∈ ws → ∀ i, byte_of val i &&& 0x60 = 0) :
    ∃ env1, csr_writes t (reset_state pmp epmp mmu mxl) ws = some env1 ∧
      ∀ reg i, i < 2 <<< mxl → byte_of (pmpcfg_csr_read t env1 reg) i &&& 0x60 = 0 := by
  obtain ⟨env1, h1, hmxl, hinv⟩ := csr_writes_invariant t
    (fun e => e.misa_mxl = mxl ∧ ∀ k, (e.pmp_state.pmp k).cfg_reg < 256 ∧
      (e.pmp_state.pmp k).cfg_reg &&& 0x60 = 0)
    (fun v => v &&& 0x60 = 0)
    (fun e j v he _ hv hlt => by
      refine ⟨he.1, fun k => ?_⟩
      simp only [pmp_update_rule_pmp, with_cfg]
      by_cases hkj : k = j
      · subst hkj
        rw [set_at_same]
        exact ⟨hlt, hv⟩
      · rw [set_at_other _ _ _ _ hkj]
        exact he.2 k)
    (fun e j v he _ => by
      refine ⟨he.1, fun k => ?_⟩
      simp only [pmp_update_rule_pmp, with_addr]
      by_cases hkj : k = j
      · subst hkj
        rw [set_at_same]
        exact he.2 k
      · rw [set_at_other _ _ _ _ hkj]
        exact he.2 k)
    (fun e v he => he)
    ws (reset_state pmp epmp mmu mxl)
    ⟨rfl, fun k => ⟨by simp [reset_state], by simp [reset_state]⟩⟩
    (fun reg val hm i => hB reg val hm i)
  refine ⟨env1, h1, ?_⟩
  intro reg i hi
  rw [← hmxl] at hi h8
  rw [pmpcfg_csr_read_byte t env1 reg i h8
    (fun k _ => (pmp_read_cfg_reserved t env1 _ hinv).1) hi]
  exact (pmp_read_cfg_reserved t env1 _ hinv).2

/-- C17 (amended) at a concrete sequence: the bytes `0x1F` and `0x99` have bits
5 and 6 clear, and so has every byte read back afterwards. -/
theorem C17_reserved_bits_witness :
    ∃ env1, csr_writes rv32 (reset_state true false true 1)
        [CsrWrite.pmpcfg 0 0x991F, CsrWrite.pmpaddr 0 0x401] = some env1 ∧
      ∀ reg i, i < 2 <<< 1 → byte_of (pmpcfg_csr_read rv32 env1 reg) i &&& 0x60 = 0 := by
  apply C17_reserved_bits rv32 true false true 1
    [CsrWrite.pmpcfg 0 0x991F, CsrWrite.pmpaddr 0 0x401] (by decide)
  intro reg val hm i
  simp only [List.mem_cons, CsrWrite.pmpcfg.injEq, List.mem_singleton, reduceCtorEq,
    or_false, List.not_mem_nil] at hm
  obtain ⟨_, hv⟩ := hm
  subst hv
  unfold byte_of
  by_cases hi : i < 2
  · interval_cases i <;> decide
  · have h0 : (0x991F : Nat) >>> (8 * i) = 0 := by
      rw [Nat.shiftRight_eq_div_pow]
      apply Nat.div_eq_of_lt
      have h1 : (2 : Nat) ^ 16 ≤ 2 ^ (8 * i) := Nat.pow_le_pow_right (by norm_num) (by omega)
      have h2 : (2 : Nat) ^ 16 = 65536 := by norm_num
      omega
    rw [h0]
    decide

/-! ## C18: the first scenario of the spec -/

/-- C18 as stated fails: after writing `pmpaddr0 = 0x20003FFF >> 2` and
`pmpcfg0 = R | NAPOT` the range of entry 0 is `[0x20000000, 0x20007FFF]`, and
the U-mode read of 4 bytes at `0x80000100` is denied. -/
theorem C18_counterexample :
    (scenario_napot rv32 true false true 1 (0x20003FFF >>> 2)).map (fun e =>
        (MSECCFG_MML_ISSET e, (e.pmp_state.addr 0).sa, (e.pmp_state.addr 0).ea)) =
      some (false, 0x20000000, 0x20007FFF) ∧
    (scenario_napot rv32 true false true 1 (0x20003FFF >>> 2)).bind (fun e =>
        pmp_hart_has_privs rv32 e 0x80000100 4 PMP_READ 0 PRV_U) = some (-1, 0) := by
  decide

/-- C18, amended in the address word: from the state after reset (MML clear),
after writing `pmpaddr0 = 0x20001FFF` and `pmpcfg0 = R | NAPOT`, the range of
entry 0 is base `0x80000000`, size `0x10000`, and the U-mode read of 4 bytes at
`0x80000100` returns rule index 0 with exactly R; on 32-bit and 64-bit builds
and whatever features the hart implements. -/
theorem C18_scenario_napot_read :
    (∀ pmp epmp mmu : Bool,
      (scenario_napot rv32 pmp epmp mmu 1 0x20001FFF).map (fun e =>
          (MSECCFG_MML_ISSET e, (e.pmp_state.addr 0).sa,
            (e.pmp_state.addr 0).ea - (e.pmp_state.addr 0).sa + 1)) =
        some (false, 0x80000000, 0x10000) ∧
      (scenario_napot rv32 pmp epmp mmu 1 0x20001FFF).bind (fun e =>
          pmp_hart_has_privs rv32 e 0x80000100 4 PMP_READ 0 PRV_U) =
        some (0, PMP_READ)) ∧
    (∀ pmp epmp mmu : Bool,
      (scenario_napot rv64 pmp epmp mmu 2 0x20001FFF).map (fun e =>
          (MSECCFG_MML_ISSET e, (e.pmp_state.addr 0).sa,
            (e.pmp_state.addr 0).ea - (e.pmp_state.addr 0).sa + 1)) =
        some (false, 0x80000000, 0x10000) ∧
      (scenario_napot rv64 pmp epmp mmu 2 0x20001FFF).bind (fun e =>
          pmp_hart_has_privs rv64 e 0x80000100 4 PMP_READ 0 PRV_U) =
        some (0, PMP_READ)) := by
  decide

/-! ## C20: the cached range of the TOR neighbour -/

/-- C20, evaluated where the code departs from it: entry 1 is in TOR mode with
`pmpaddr1 = 0x800`; the write `pmpaddr0 = 0x400` is accepted, but the cached
start of entry 1 stays 0 while the decode of the registers gives
`0x400 << 2 = 0x1000`; a U-mode read at `0x800`, below that start, still
matches entry 1. -/
theorem C20_stale_tor_start :
    scenario_tor.map (fun e =>
        ((e.pmp_state.pmp 0).addr_reg, pmp_get_a_field (e.pmp_state.pmp 1).cfg_reg,
          (e.pmp_state.addr 1).sa, (e.pmp_state.addr 1).ea,
          pmp_range_of rv32 (e.pmp_state.pmp 1).cfg_reg (e.pmp_state.pmp 1).addr_reg
            (e.pmp_state.pmp 0).addr_reg)) =
      some (0x400, PMP_AMATCH_TOR, 0, 0x1FFF, (0x1000, 0x1FFF)) ∧
    scenario_tor.bind (fun e => pmp_hart_has_privs rv32 e 0x800 4 PMP_READ 0 PRV_U) =
      some (1, PMP_READ) := by
  decide

/-! ## C19: the length of a NAPOT range -/

theorem napot_word_testBit (t : Target) (a j : Nat) :
    (t.wrap (a <<< 2) ||| 0x3).testBit j =
      ((decide (j < t.XLEN) && (decide (j ≥ 2) && a.testBit (j - 2))) || decide (j < 2)) := by
  unfold Target.wrap
  have h3 : (0x3 : Nat) = 2 ^ 2 - 1 := by norm_num
  rw [Nat.testBit_or, Nat.testBit_mod_two_pow, Nat.testBit_shiftLeft, h3,
    Nat.testBit_two_pow_sub_one]

theorem napot_word_low (t : Target) (a k : Nat) (hz : LowestZeroBit a k)
    (hk : k + 3 ≤ t.XLEN) :
    (t.wrap (a <<< 2) ||| 0x3) % 2 ^ (k + 3) = 2 ^ (k + 2) - 1 := by
  apply Nat.eq_of_testBit_eq
  intro j
  rw [Nat.testBit_mod_two_pow, napot_word_testBit, Nat.testBit_two_pow_sub_one]
  by_cases h1 : j < 2
  · have h2 : j < k + 3 := by omega
    have h4 : j < k + 2 := by omega
    simp [h1, h2, h4]
  · by_cases h2 : j < k + 2
    · have h5 := hz.1 (j - 2) (by omega)
      have h6 : j < t.XLEN := by omega
      have h7 : j < k + 3 := by omega
      have h8 : 2 ≤ j := by omega
      simp [h2, h5, h6, h7, h8]
    · by_cases h3 : j = k + 2
      · subst h3
        have h5 : a.testBit k = false := hz.2
        simp [h5]
      · have h7 : ¬ j < k + 3 := by omega
        simp [h2, h7]

theorem napot_word_lt (t : Target) (a : Nat) (hX : 2 ≤ t.XLEN) :
    t.wrap (a <<< 2) ||| 0x3 < 2 ^ t.XLEN := by
  apply Nat.or_lt_two_pow
  · exact Nat.mod_lt _ (Nat.two_pow_pos _)
  · have h1 : (2 : Nat) ^ 2 ≤ 2 ^ t.XLEN := Nat.pow_le_pow_right (by norm_num) hX
    have h2 : (2 : Nat) ^ 2 = 4 := by norm_num
    omega

theorem and_succ_of_form (H m : Nat) :
    (2 ^ (m + 1) * H + (2 ^ m - 1)) &&& (2 ^ (m + 1) * H + 2 ^ m) = 2 ^ (m + 1) * H := by
  have hp : 0 < 2 ^ m := Nat.two_pow_pos m
  have hs : 2 ^ (m + 1) = 2 * 2 ^ m := by rw [Nat.pow_succ]; omega
  have hb1 : 2 ^ m - 1 < 2 ^ (m + 1) := by omega
  have hb2 : 2 ^ m < 2 ^ (m + 1) := by omega
  apply Nat.eq_of_testBit_eq
  intro j
  rw [Nat.testBit_and, Nat.testBit_mul_pow_two_add H hb1, Nat.testBit_mul_pow_two_add H hb2,
    Nat.testBit_mul_pow_two, Nat.testBit_two_pow_sub_one, Nat.testBit_two_pow]
  by_cases h1 : j < m + 1
  · have h2 : ¬ (j ≥ m + 1) := by omega
    by_cases h3 : j < m
    · have h4 : ¬ (m = j) := by omega
      simp [h1, h2, h3, h4]
    · simp [h1, h2, h3]
  · have h2 : j ≥ m + 1 := by omega
    simp [h1, h2]

theorem or_succ_of_form (H m : Nat) :
    (2 ^ (m + 1) * H + (2 ^ m - 1)) ||| (2 ^ (m + 1) * H + 2 ^ m) =
      2 ^ (m + 1) * H + (2 ^ (m + 1) - 1) := by
  have hp : 0 < 2 ^ m := Nat.two_pow_pos m
  have hs : 2 ^ (m + 1) = 2 * 2 ^ m := by rw [Nat.pow_succ]; omega
  have hb1 : 2 ^ m - 1 < 2 ^ (m + 1) := by omega
  have hb2 : 2 ^ m < 2 ^ (m + 1) := by omega
  have hb3 : 2 ^ (m + 1) - 1 < 2 ^ (m + 1) := by omega
  apply Nat.eq_of_testBit_eq
  intro j
  rw [Nat.testBit_or, Nat.testBit_mul_pow_two_add H hb1, Nat.testBit_mul_pow_two_add H hb2,
    Nat.testBit_mul_pow_two_add H hb3, Nat.testBit_two_pow_sub_one, Nat.testBit_two_pow,
    Nat.testBit_two_pow_sub_one]
  by_cases h1 : j < m + 1
  · by_cases h3 : j < m
    · simp [h1, h3]
    · have h4 : m = j := by omega
      simp [h1, h3, h4]
  · simp [h1]

/-- The shape of a NAPOT decode: when the lowest zero bit of `a` is at `k` and
`k + 3 ≤ XLEN`, the range is the block of `2 ^ (k + 3)` bytes with number `H`,
where `(a << 2) | 3` is `2 ^ (k + 3) * H + 2 ^ (k + 2) - 1`. -/
theorem pmp_decode_napot_form (t : Target) (a k : Nat) (hz : LowestZeroBit a k)
    (hk : k + 3 ≤ t.XLEN) :
    ∃ H, 2 ^ (k + 3) * (H + 1) ≤ 2 ^ t.XLEN ∧
      t.wrap (a <<< 2) ||| 0x3 = 2 ^ (k + 3) * H + (2 ^ (k + 2) - 1) ∧
      pmp_decode_napot t a = (2 ^ (k + 3) * H, 2 ^ (k + 3) * H + (2 ^ (k + 3) - 1)) := by
  have hlow := napot_word_low t a k hz hk
  have hlt := napot_word_lt t a (by omega)
  have hp : 0 < 2 ^ (k + 2) := Nat.two_pow_pos _
  have hs : 2 ^ (k + 3) = 2 * 2 ^ (k + 2) := by
    rw [show k + 3 = (k + 2) + 1 from rfl, Nat.pow_succ]; omega
  have hsplit : 2 ^ t.XLEN = 2 ^ (k + 3) * 2 ^ (t.XLEN - (k + 3)) := by
    rw [← Nat.pow_add]
    congr 1
    omega
  have hform : t.wrap (a <<< 2) ||| 0x3 =
      2 ^ (k + 3) * ((t.wrap (a <<< 2) ||| 0x3) / 2 ^ (k + 3)) + (2 ^ (k + 2) - 1) := by
    have := Nat.div_add_mod (t.wrap (a <<< 2) ||| 0x3) (2 ^ (k + 3))
    rw [hlow] at this
    exact this.symm
  have hH : (t.wrap (a <<< 2) ||| 0x3) / 2 ^ (k + 3) < 2 ^ (t.XLEN - (k + 3)) := by
    apply Nat.div_lt_of_lt_mul
    rw [← hsplit]
    exact hlt
  have hle : 2 ^ (k + 3) * ((t.wrap (a <<< 2) ||| 0x3) / 2 ^ (k + 3) + 1) ≤ 2 ^ t.XLEN := by
    rw [hsplit]
    exact Nat.mul_le_mul_left _ hH
  refine ⟨(t.wrap (a <<< 2) ||| 0x3) / 2 ^ (k + 3), hle, hform, ?_⟩
  generalize (t.wrap (a <<< 2) ||| 0x3) / 2 ^ (k + 3) = H at hform hle
  unfold pmp_decode_napot
  simp only
  rw [hform]
  have hsucc : 2 ^ (k + 3) * H + (2 ^ (k + 2) - 1) + 1 = 2 ^ (k + 3) * H + 2 ^ (k + 2) := by
    omega
  have hwrap : t.wrap (2 ^ (k + 3) * H + (2 ^ (k + 2) - 1) + 1) =
      2 ^ (k + 3) * H + 2 ^ (k + 2) := by
    rw [hsucc]
    unfold Target.wrap
    apply Nat.mod_eq_of_lt
    rw [Nat.mul_add, Nat.mul_one] at hle
    omega
  rw [hwrap]
  have h1 := and_succ_of_form H (k + 2)
  have h2 := or_succ_of_form H (k + 2)
  rw [show k + 2 + 1 = k + 3 from rfl] at h1 h2
  rw [h1, h2]

/-- C19 as stated fails: for `addr = 0` the lowest zero bit is at index 0 and
the range is `[0, 7]`, of length 8 and not `1 << 2`; and on a 32-bit build, for
`addr = 0x7FFFFFFF` (not all ones, lowest zero bit at index 31) the range is
the whole address space, of length `2 ^ 32` and not `1 << 33`. -/
theorem C19_counterexample :
    (LowestZeroBit 0 0 ∧ pmp_decode_napot rv32 0 = (0, 7) ∧
      (pmp_decode_napot rv32 0).2 - (pmp_decode_napot rv32 0).1 + 1 ≠ 1 <<< (0 + 2)) ∧
    (0x7FFFFFFF ≠ 2 ^ rv32.XLEN - 1 ∧ LowestZeroBit 0x7FFFFFFF 31 ∧
      pmp_decode_napot rv32 0x7FFFFFFF = (0, 0xFFFFFFFF) ∧
      (pmp_decode_napot rv32 0x7FFFFFFF).2 - (pmp_decode_napot rv32 0x7FFFFFFF).1 + 1 ≠
        1 <<< (31 + 2)) := by
  unfold LowestZeroBit
  decide

/-- C19, amended: for every address word whose lowest zero bit is at index `k`
with `k + 3 ≤ XLEN`, the range `[sa, ea]` of `pmp_decode_napot` has `sa ≤ ea`
and length `ea - sa + 1 == 1 << (k + 3)`. -/
theorem C19_napot_length (t : Target) (a k : Nat) (hz : LowestZeroBit a k)
    (hk : k + 3 ≤ t.XLEN) :
    (pmp_decode_napot t a).1 ≤ (pmp_decode_napot t a).2 ∧
    (pmp_decode_napot t a).2 - (pmp_decode_napot t a).1 + 1 = 1 <<< (k + 3) := by
  obtain ⟨H, _, _, hd⟩ := pmp_decode_napot_form t a k hz hk
  have hp : 0 < 2 ^ (k + 3) := Nat.two_pow_pos _
  rw [hd, Nat.one_shiftLeft]
  simp only
  omega

/-- C19 (amended) at a concrete word: `0x20001FFF` has its lowest zero bit at
index 13, and the decoded range has length `1 << 16`. -/
theorem C19_napot_length_witness :
    LowestZeroBit 0x20001FFF 13 ∧
    (pmp_decode_napot rv32 0x20001FFF).1 ≤ (pmp_decode_napot rv32 0x20001FFF).2 ∧
    (pmp_decode_napot rv32 0x20001FFF).2 - (pmp_decode_napot rv32 0x20001FFF).1 + 1 =
      1 <<< (13 + 3) :=
  ⟨by unfold LowestZeroBit; decide,
    C19_napot_length rv32 0x20001FFF 13 (by unfold LowestZeroBit; decide) (by decide)⟩

/-! ## C24: a denial reports no privileges -/

/-- C24: for every state and every input `pmp_hart_has_privs` returns, its
verdict is `-1`, a rule index in `[0, MAX_RISCV_PMPS)` or `MAX_RISCV_PMPS`, and
whenever the verdict is negative the privileges left in `*allowed_privs` are 0,
whatever the pointee held before the call. -/
theorem C24_denial_reports_nothing (t : Target) (env : CPURISCVState)
    (addr size privs ap mode : Nat) :
    ∃ (v : Int) (p : Nat),
      pmp_hart_has_privs t env addr size privs ap mode = some (v, p) ∧
      (v = -1 ∨ (0 ≤ v ∧ v < (t.MAX_RISCV_PMPS : Int)) ∨ v = (t.MAX_RISCV_PMPS : Int)) ∧
      (v < 0 → p = 0) := by
  rcases pmp_hart_has_privs_spec t env addr size privs ap mode with
    ⟨k, q, ⟨hk, _, _⟩, _, hr⟩ | ⟨_, hr⟩
  · refine ⟨(k : Int), q, hr, Or.inr (Or.inl ⟨by omega, by omega⟩), ?_⟩
    intro hneg
    omega
  · refine ⟨(default_verdict t env privs mode).1, (default_verdict t env privs mode).2,
      hr, ?_, ?_⟩
    · rcases default_verdict_fst t env privs mode with h | h
      · left; exact h
      · right; right; exact h
    · intro hneg
      rcases default_verdict_fst t env privs mode with h | h
      · exact default_verdict_deny t env privs mode h
      · rw [h] at hneg
        omega

/-! ## C22: NAPOT ranges are aligned powers of two -/

theorem XLEN_ge (t : Target) : 32 ≤ t.XLEN := by
  unfold Target.XLEN
  split <;> omega

theorem napot_word_eq_add (t : Target) (a : Nat) :
    t.wrap (a <<< 2) ||| 0x3 = t.wrap (a <<< 2) + 3 := by
  have hX := XLEN_ge t
  have hdvd : (2 : Nat) ^ 2 ∣ 2 ^ t.XLEN := Nat.pow_dvd_pow 2 (by omega)
  have hmod : t.wrap (a <<< 2) % 2 ^ 2 = 0 := by
    unfold Target.wrap
    rw [Nat.mod_mod_of_dvd _ hdvd, Nat.shiftLeft_eq]
    exact Nat.mul_mod_left _ _
  have hform : t.wrap (a <<< 2) = 2 ^ 2 * (t.wrap (a <<< 2) / 2 ^ 2) := by
    have := Nat.div_add_mod (t.wrap (a <<< 2)) (2 ^ 2)
    omega
  have hor := @Nat.mul_add_lt_is_or 2 3 (by norm_num) (t.wrap (a <<< 2) / 2 ^ 2)
  rw [← hform] at hor
  exact hor.symm

/-- When the bits 0 to `XLEN - 3` of `a` are all ones, the decode is the whole
address space. -/
theorem pmp_decode_napot_all (t : Target) (a : Nat)
    (hones : ∀ j, j + 3 ≤ t.XLEN → a.testBit j = true) :
    pmp_decode_napot t a = (0, 2 ^ t.XLEN - 1) := by
  have hX := XLEN_ge t
  have hp : 0 < 2 ^ t.XLEN := Nat.two_pow_pos _
  have hword : t.wrap (a <<< 2) ||| 0x3 = 2 ^ t.XLEN - 1 := by
    apply Nat.eq_of_testBit_eq
    intro j
    rw [napot_word_testBit, Nat.testBit_two_pow_sub_one]
    by_cases h1 : j < t.XLEN
    · by_cases h2 : j < 2
      · simp [h1, h2]
      · have h3 := hones (j - 2) (by omega)
        have h4 : 2 ≤ j := by omega
        simp [h1, h3, h4]
    · have h2 : ¬ j < 2 := by omega
      simp [h1, h2]
  unfold pmp_decode_napot
  simp only
  rw [hword]
  have hwrap : t.wrap (2 ^ t.XLEN - 1 + 1) = 0 := by
    unfold Target.wrap
    have : 2 ^ t.XLEN - 1 + 1 = 2 ^ t.XLEN := by omega
    rw [this, Nat.mod_self]
  rw [hwrap, Nat.and_zero, Nat.or_zero]

theorem ones_below_of_no_low_zero (t : Target) (a : Nat)
    (hno : ¬ ∃ k, LowestZeroBit a k ∧ k + 3 ≤ t.XLEN - 1) :
    ∀ j, j + 3 ≤ t.XLEN - 1 → a.testBit j = true := by
  intro j
  induction j using Nat.strong_induction_on with
  | _ j ih =>
    intro hj
    by_contra hbit
    apply hno
    refine ⟨j, ⟨fun i hi => ih i hi (by omega), ?_⟩, hj⟩
    cases h : a.testBit j
    · rfl
    · exact absurd h hbit

/-- C22: when the lowest zero bit of `a` is at index `k` with
`k + 3 ≤ XLEN - 1`, `pmp_decode_napot (a)` gives `sa ≤ ea`, a length
`ea - sa + 1` that is a power of two of at least 8, `sa` a multiple of that
length, and `sa ≤ (a << 2) mod 2 ^ XLEN ≤ ea`; for every other `a` (all ones
included) it gives `sa = 0` and `ea = 2 ^ XLEN - 1`. -/
theorem C22_napot_aligned (t : Target) (a : Nat) :
    (∀ k, LowestZeroBit a k → k + 3 ≤ t.XLEN - 1 →
      (pmp_decode_napot t a).1 ≤ (pmp_decode_napot t a).2 ∧
      (∃ n, 3 ≤ n ∧ (pmp_decode_napot t a).2 - (pmp_decode_napot t a).1 + 1 = 2 ^ n) ∧
      ((pmp_decode_napot t a).2 - (pmp_decode_napot t a).1 + 1) ∣ (pmp_decode_napot t a).1 ∧
      (pmp_decode_napot t a).1 ≤ (a <<< 2) % 2 ^ t.XLEN ∧
      (a <<< 2) % 2 ^ t.XLEN ≤ (pmp_decode_napot t a).2) ∧
    ((¬ ∃ k, LowestZeroBit a k ∧ k + 3 ≤ t.XLEN - 1) →
      pmp_decode_napot t a = (0, 2 ^ t.XLEN - 1)) := by
  have hX := XLEN_ge t
  constructor
  · intro k hz hk
    obtain ⟨H, _, hword, hd⟩ := pmp_decode_napot_form t a k hz (by omega)
    have hadd := napot_word_eq_add t a
    unfold Target.wrap at hword hadd
    have hp : 0 < 2 ^ (k + 2) := Nat.two_pow_pos _
    have h4 : (2 : Nat) ^ 2 ≤ 2 ^ (k + 2) := Nat.pow_le_pow_right (by norm_num) (by omega)
    have hs : 2 ^ (k + 3) = 2 * 2 ^ (k + 2) := by
      rw [show k + 3 = (k + 2) + 1 from rfl, Nat.pow_succ]; omega
    have hlen : 2 ^ (k + 3) * H + (2 ^ (k + 3) - 1) - 2 ^ (k + 3) * H + 1 = 2 ^ (k + 3) := by
      omega
    rw [hd]
    simp only
    refine ⟨by omega, ⟨k + 3, by omega, hlen⟩, ?_, ?_, ?_⟩
    · rw [hlen]
      exact Dvd.intro H rfl
    · have : (2 : Nat) ^ 2 = 4 := by norm_num
      omega
    · omega
  · intro hno
    have hones := ones_below_of_no_low_zero t a hno
    cases hb : a.testBit (t.XLEN - 3)
    · have hz : LowestZeroBit a (t.XLEN - 3) := ⟨fun j hj => hones j (by omega), hb⟩
      obtain ⟨H, hle, _, hd⟩ := pmp_decode_napot_form t a (t.XLEN - 3) hz (by omega)
      have hk : t.XLEN - 3 + 3 = t.XLEN := by omega
      rw [hk] at hle hd
      have hp : 0 < 2 ^ t.XLEN := Nat.two_pow_pos _
      have hH : H = 0 := by
        by_contra hne
        have h1 : 2 ≤ H + 1 := by omega
        have h2 : 2 ^ t.XLEN * 2 ≤ 2 ^ t.XLEN * (H + 1) := Nat.mul_le_mul_left _ h1
        omega
      rw [hd, hH]
      simp
    · apply pmp_decode_napot_all
      intro j hj
      by_cases hj2 : j = t.XLEN - 3
      · rw [hj2]; exact hb
      · exact hones j (by omega)

/-- C22 at concrete words: `0x20001FFF` has its lowest zero bit at index 13 and
decodes to an aligned block of `2 ^ 16` bytes containing `0x80007FFC`; the word
of all ones decodes to the whole address space. -/
theorem C22_napot_aligned_witness :
    LowestZeroBit 0x20001FFF 13 ∧
    ((pmp_decode_napot rv32 0x20001FFF).1 ≤ (pmp_decode_napot rv32 0x20001FFF).2 ∧
      (∃ n, 3 ≤ n ∧
        (pmp_decode_napot rv32 0x20001FFF).2 - (pmp_decode_napot rv32 0x20001FFF).1 + 1 =
          2 ^ n) ∧
      ((pmp_decode_napot rv32 0x20001FFF).2 - (pmp_decode_napot rv32 0x20001FFF).1 + 1) ∣
        (pmp_decode_napot rv32 0x20001FFF).1 ∧
      (pmp_decode_napot rv32 0x20001FFF).1 ≤ (0x20001FFF <<< 2) % 2 ^ rv32.XLEN ∧
      (0x20001FFF <<< 2) % 2 ^ rv32.XLEN ≤ (pmp_decode_napot rv32 0x20001FFF).2) ∧
    pmp_decode_napot rv32 0xFFFFFFFF = (0, 2 ^ rv32.XLEN - 1) := by
  have hz : LowestZeroBit 0x20001FFF 13 := by unfold LowestZeroBit; decide
  refine ⟨hz, (C22_napot_aligned rv32 0x20001FFF).1 13 hz (by decide),
    (C22_napot_aligned rv32 0xFFFFFFFF).2 ?_⟩
  rintro ⟨k, ⟨_, hk0⟩, hk⟩
  have hall : ∀ j, j < 29 → (0xFFFFFFFF : Nat).testBit j = true := by decide
  have hk2 : k < 29 := by
    have : rv32.XLEN = 32 := rfl
    omega
  rw [hall k hk2] at hk0
  exact Bool.noConfusion hk0

/-! ## C21: the range of a TOR entry -/

theorem pmp_update_rule_addr_tor (t : Target) (env : CPURISCVState) (i : Nat)
    (htor : pmp_get_a_field (env.pmp_state.pmp i).cfg_reg = PMP_AMATCH_TOR) :
    (pmp_update_rule_addr t env i).pmp_state.addr i =
      if tor_lo t env i > t.wrap (tor_hi t env i + 2 ^ t.XLEN - 1)
      then { sa := 0, ea := 0 }
      else { sa := tor_lo t env i, ea := t.wrap (tor_hi t env i + 2 ^ t.XLEN - 1) } := by
  unfold pmp_update_rule_addr
  simp only [set_at_same]
  unfold pmp_range_of
  rw [htor]
  simp only
  unfold tor_lo tor_hi
  split_ifs <;> rfl

/-- C21 as stated fails: with `prev.addr << 2 = 8` and `this.addr << 2 = 4`
the range of entry 1 becomes `[0, 0]`, which contains the address 0 although
`8 ≤ 0 < 4` is false; and with `this.addr << 2 = 0` the range of entry 0 is
`[0, 2 ^ 32 - 1]`, which contains `0x1000` although `0 ≤ 0x1000 < 0` is false. -/
theorem C21_counterexample :
    (pmp_get_a_field ((tor_state 2 1).pmp_state.pmp 1).cfg_reg = PMP_AMATCH_TOR ∧
      tor_lo rv32 (tor_state 2 1) 1 = 8 ∧ tor_hi rv32 (tor_state 2 1) 1 = 4 ∧
      InRange (pmp_update_rule_addr rv32 (tor_state 2 1) 1) 1 0 ∧
      ¬ (tor_lo rv32 (tor_state 2 1) 1 ≤ 0 ∧ 0 < tor_hi rv32 (tor_state 2 1) 1)) ∧
    (pmp_get_a_field ((tor_state 0 0).pmp_state.pmp 0).cfg_reg = PMP_AMATCH_TOR ∧
      tor_lo rv32 (tor_state 0 0) 0 = 0 ∧ tor_hi rv32 (tor_state 0 0) 0 = 0 ∧
      ((pmp_update_rule_addr rv32 (tor_state 0 0) 0).pmp_state.addr 0).ea = 2 ^ 32 - 1 ∧
      InRange (pmp_update_rule_addr rv32 (tor_state 0 0) 0) 0 0x1000 ∧
      ¬ (tor_lo rv32 (tor_state 0 0) 0 ≤ 0x1000 ∧ 0x1000 < tor_hi rv32 (tor_state 0 0) 0)) := by
  decide

/-- C21, amended: after `pmp_update_rule_addr (i)` on an entry in TOR mode whose
`this.addr << 2` is not 0 in XLEN-bit arithmetic: if `prev.addr << 2` is below
`this.addr << 2`, an address `x` lies in `[sa, ea]` if and only if
`prev.addr << 2 ≤ x < this.addr << 2`; otherwise the range is reduced to
`sa = ea = 0` and contains exactly the address 0. -/
theorem C21_tor_range (t : Target) (env : CPURISCVState) (i : Nat)
    (htor : pmp_get_a_field (env.pmp_state.pmp i).cfg_reg = PMP_AMATCH_TOR)
    (hhi : tor_hi t env i ≠ 0) :
    (tor_lo t env i < tor_hi t env i →
      ∀ x, InRange (pmp_update_rule_addr t env i) i x ↔
        (tor_lo t env i ≤ x ∧ x < tor_hi t env i)) ∧
    (tor_hi t env i ≤ tor_lo t env i →
      (pmp_update_rule_addr t env i).pmp_state.addr i = { sa := 0, ea := 0 } ∧
      ∀ x, InRange (pmp_update_rule_addr t env i) i x ↔ x = 0) := by
  have hlt : tor_hi t env i < 2 ^ t.XLEN := by
    unfold tor_hi Target.wrap
    exact Nat.mod_lt _ (Nat.two_pow_pos _)
  have hea : t.wrap (tor_hi t env i + 2 ^ t.XLEN - 1) = tor_hi t env i - 1 := by
    unfold Target.wrap
    have h1 : tor_hi t env i + 2 ^ t.XLEN - 1 = (tor_hi t env i - 1) + 2 ^ t.XLEN := by omega
    rw [h1, Nat.add_mod_right]
    apply Nat.mod_eq_of_lt
    omega
  have hupd := pmp_update_rule_addr_tor t env i htor
  rw [hea] at hupd
  constructor
  · intro hlo x
    rw [if_neg (by omega)] at hupd
    unfold InRange
    rw [hupd]
    simp only
    omega
  · intro hge
    rw [if_pos (by omega)] at hupd
    refine ⟨hupd, fun x => ?_⟩
    unfold InRange
    rw [hupd]
    simp only
    omega

/-- C21 (amended) at a concrete state: `prev.addr << 2 = 0x1000` and
`this.addr << 2 = 0x2000`; the address `0x1FFF` is in the range of entry 1 and
`0x2000` is not. -/
theorem C21_tor_range_witness :
    pmp_get_a_field ((tor_state 0x400 0x800).pmp_state.pmp 1).cfg_reg = PMP_AMATCH_TOR ∧
    tor_lo rv32 (tor_state 0x400 0x800) 1 = 0x1000 ∧
    tor_hi rv32 (tor_state 0x400 0x800) 1 = 0x2000 ∧
    (InRange (pmp_update_rule_addr rv32 (tor_state 0x400 0x800) 1) 1 0x1FFF ↔
      (tor_lo rv32 (tor_state 0x400 0x800) 1 ≤ 0x1FFF ∧
        0x1FFF < tor_hi rv32 (tor_state 0x400 0x800) 1)) ∧
    (InRange (pmp_update_rule_addr rv32 (tor_state 0x400 0x800) 1) 1 0x2000 ↔
      (tor_lo rv32 (tor_state 0x400 0x800) 1 ≤ 0x2000 ∧
        0x2000 < tor_hi rv32 (tor_state 0x400 0x800) 1)) :=
  ⟨by decide, by decide, by decide,
    (C21_tor_range rv32 (tor_state 0x400 0x800) 1 (by decide) (by decide)).1
      (by decide) 0x1FFF,
    (C21_tor_range rv32 (tor_state 0x400 0x800) 1 (by decide) (by decide)).1
      (by decide) 0x2000⟩

/-! ## C23: soundness of the TLB hint -/

theorem FirstCover.same_index {t : Target} {env : CPURISCVState} {addr last k1 k2 : Nat}
    (h1 : FirstCover t env addr last k1) (h2 : FirstCover t env addr last k2) :
    k1 = k2 := by
  rcases Nat.lt_trichotomy k1 k2 with h | h | h
  · exact absurd h1.2.2 (h2.2.1 k1 (Nat.zero_le _) h).2
  · exact h
  · exact absurd h2.2.2 (h1.2.1 k2 (Nat.zero_le _) h).2

theorem pmp_hart_has_privs_of_first_cover (t : Target) (env : CPURISCVState)
    (addr size privs ap mode k : Nat)
    (h : FirstCover t env addr (pmp_end_of t env addr size) k) :
    ∃ p, pmp_match_privs env k mode = some p ∧
      pmp_hart_has_privs t env addr size privs ap mode = some ((k : Int), p) := by
  rcases pmp_hart_has_privs_spec t env addr size privs ap mode with
    ⟨k1, q, hfc, hq, hr⟩ | ⟨hno, _⟩
  · have := hfc.same_index h
    subst this
    exact ⟨q, hq, hr⟩
  · exact absurd ⟨k, h⟩ hno

theorem pmp_hart_has_privs_of_no_cover (t : Target) (env : CPURISCVState)
    (addr size privs ap mode : Nat)
    (h : ∀ j, j < t.MAX_RISCV_PMPS → ¬ Covers env j addr (pmp_end_of t env addr size)) :
    pmp_hart_has_privs t env addr size privs ap mode =
      some (default_verdict t env privs mode) := by
  rcases pmp_hart_has_privs_spec t env addr size privs ap mode with
    ⟨k, _, ⟨hk, _, hcov⟩, _, _⟩ | ⟨_, hr⟩
  · exact absurd hcov (h k hk)
  · exact hr

theorem pmp_hart_has_privs_total (t : Target) (env : CPURISCVState)
    (addr size privs ap mode : Nat) :
    ∃ r, pmp_hart_has_privs t env addr size privs ap mode = some r := by
  rcases pmp_hart_has_privs_spec t env addr size privs ap mode with
    ⟨k, q, _, _, hr⟩ | ⟨_, hr⟩
  · exact ⟨_, hr⟩
  · exact ⟨_, hr⟩

/-- The value the pointee of `allowed_privs` has before the call does not
influence the result. -/
theorem pmp_hart_has_privs_ap (t : Target) (env : CPURISCVState)
    (addr size privs ap1 ap2 mode : Nat) :
    pmp_hart_has_privs t env addr size privs ap1 mode =
      pmp_hart_has_privs t env addr size privs ap2 mode := by
  rcases pmp_hart_has_privs_spec t env addr size privs ap1 mode with
    ⟨k, q, hfc, hq, hr⟩ | ⟨hno, hr⟩
  · obtain ⟨q2, hq2, hr2⟩ :=
      pmp_hart_has_privs_of_first_cover t env addr size privs ap2 mode k hfc
    rw [hq] at hq2
    rw [hr, hr2, Option.some.inj hq2]
  · rcases pmp_hart_has_privs_spec t env addr size privs ap2 mode with
      ⟨k, _, hfc, _, _⟩ | ⟨_, hr2⟩
    · exact absurd ⟨k, hfc⟩ hno
    · rw [hr, hr2]

/-- When the loop of `pmp_get_tlb_size` answers with the page size (the page
being larger than one byte), either an entry that is not OFF contains the
whole interval and no earlier such entry contains any address of it, or no
entry that is not OFF contains any address of the interval. -/
theorem pmp_get_tlb_size_loop_page (t : Target) (env : CPURISCVState) (lo hi : Nat)
    (hps : t.TARGET_PAGE_SIZE ≠ 1) :
    ∀ (fuel i : Nat), pmp_get_tlb_size_loop t env lo hi fuel i = t.TARGET_PAGE_SIZE →
      (∃ k, i ≤ k ∧ k < i + fuel ∧ NotOff env k ∧ ContainsAll env k lo hi ∧
          ∀ j, i ≤ j → j < k → NotOff env j →
            ∀ x, lo ≤ x → x ≤ hi → ¬ InRange env j x) ∨
      (∀ j, i ≤ j → j < i + fuel → NotOff env j →
          ∀ x, lo ≤ x → x ≤ hi → ¬ InRange env j x) := by
  intro fuel
  induction fuel with
  | zero =>
    intro i _
    right
    intro j h1 h2
    omega
  | succ n ih =>
    intro i hres
    have hskip : (NotOff env i → ∀ x, lo ≤ x → x ≤ hi → ¬ InRange env i x) →
        pmp_get_tlb_size_loop t env lo hi n (i + 1) = t.TARGET_PAGE_SIZE →
        (∃ k, i ≤ k ∧ k < i + (n + 1) ∧ NotOff env k ∧ ContainsAll env k lo hi ∧
            ∀ j, i ≤ j → j < k → NotOff env j →
              ∀ x, lo ≤ x → x ≤ hi → ¬ InRange env j x) ∨
        (∀ j, i ≤ j → j < i + (n + 1) → NotOff env j →
            ∀ x, lo ≤ x → x ≤ hi → ¬ InRange env j x) := by
      intro hi0 hrest
      rcases ih (i + 1) hrest with ⟨k, h1, h2, h3, h4, h5⟩ | h1
      · left
        refine ⟨k, by omega, by omega, h3, h4, ?_⟩
        intro j hj1 hj2
        by_cases hji : j = i
        · subst hji; exact hi0
        · exact h5 j (by omega) hj2
      · right
        intro j hj1 hj2
        by_cases hji : j = i
        · subst hji; exact hi0
        · exact h1 j (by omega) (by omega)
    rw [pmp_get_tlb_size_loop] at hres
    by_cases hoff : pmp_get_a_field (env.pmp_state.pmp i).cfg_reg = PMP_AMATCH_OFF
    · rw [if_pos hoff] at hres
      exact hskip (fun hn => absurd hoff hn) hres
    · rw [if_neg hoff] at hres
      simp only [ge_iff_le] at hres
      by_cases hc : (env.pmp_state.addr i).sa ≤ lo ∧ hi ≤ (env.pmp_state.addr i).ea
      · left
        exact ⟨i, le_refl i, by omega, hoff, hc, fun j h1 h2 => by omega⟩
      · rw [if_neg hc] at hres
        by_cases hend : (lo ≤ (env.pmp_state.addr i).sa ∧ (env.pmp_state.addr i).sa ≤ hi) ∨
            (lo ≤ (env.pmp_state.addr i).ea ∧ (env.pmp_state.addr i).ea ≤ hi)
        · rw [if_pos hend] at hres
          exact absurd hres.symm hps
        · rw [if_neg hend] at hres
          apply hskip _ hres
          intro _ x hx1 hx2 hin
          unfold InRange at hin
          omega

/-- C23: in a state with PMP implemented and `num_rules` equal to the number of
entries that are not OFF, for an address of XLEN bits and pages of at most
`2 ^ XLEN` bytes: if `pmp_get_tlb_size (addr)` returns `TARGET_PAGE_SIZE`, then
for any two addresses `a` and `b` of the page of `addr`, every mode and every
requested privileges, the single-byte checks on `a` and on `b` return, with
the same verdict and the same allowed privileges. -/
theorem C23_tlb_hint_sound (t : Target) (env : CPURISCVState)
    (addr a b privs ap1 ap2 mode : Nat)
    (hpmp : env.cfg.pmp = true) (hnum : pmp_get_num_rules env = active_rules t env)
    (haddr : addr < 2 ^ t.XLEN) (hbits : t.TARGET_PAGE_BITS ≤ t.XLEN)
    (htlb : pmp_get_tlb_size t env addr = t.TARGET_PAGE_SIZE)
    (ha : page_start t addr ≤ a ∧ a ≤ page_end t addr)
    (hb : page_start t addr ≤ b ∧ b ≤ page_end t addr) :
    ∃ r, pmp_hart_has_privs t env a 1 privs ap1 mode = some r ∧
      pmp_hart_has_privs t env b 1 privs ap2 mode = some r := by
  have hend := page_end_lt t addr haddr hbits
  have hea : pmp_end_of t env a 1 = a := pmp_end_of_one t env a (by omega)
  have heb : pmp_end_of t env b 1 = b := pmp_end_of_one t env b (by omega)
  have hdefault : (∀ j, j < t.MAX_RISCV_PMPS → NotOff env j →
      ∀ x, page_start t addr ≤ x → x ≤ page_end t addr → ¬ InRange env j x) →
      ∃ r, pmp_hart_has_privs t env a 1 privs ap1 mode = some r ∧
        pmp_hart_has_privs t env b 1 privs ap2 mode = some r := by
    intro hnone
    refine ⟨default_verdict t env privs mode, ?_, ?_⟩
    · apply pmp_hart_has_privs_of_no_cover
      intro j hj hcov
      rw [hea] at hcov
      exact hnone j hj hcov.1 a ha.1 ha.2 hcov.2.1
    · apply pmp_hart_has_privs_of_no_cover
      intro j hj hcov
      rw [heb] at hcov
      exact hnone j hj hcov.1 b hb.1 hb.2 hcov.2.1
  by_cases hps : t.TARGET_PAGE_SIZE = 1
  · have hab : a = b := by
      unfold page_end at ha hb
      rw [hps] at ha hb
      omega
    subst hab
    obtain ⟨r, hr⟩ := pmp_hart_has_privs_total t env a 1 privs ap1 mode
    exact ⟨r, hr, by rw [← hr]; exact pmp_hart_has_privs_ap t env a 1 privs ap2 ap1 mode⟩
  · have hunf : pmp_get_tlb_size t env addr =
        if (!env.cfg.pmp || decide (pmp_get_num_rules env = 0)) = true
        then t.TARGET_PAGE_SIZE
        else pmp_get_tlb_size_loop t env (page_start t addr) (page_end t addr)
          t.MAX_RISCV_PMPS 0 := by
      unfold pmp_get_tlb_size
      simp only [and_page_mask t addr haddr, tlb_ea_eq t addr haddr hbits]
    rw [hunf] at htlb
    by_cases h0 : pmp_get_num_rules env = 0
    · apply hdefault
      intro j hj hoff
      rw [h0] at hnum
      exact absurd hoff (active_rules_eq_zero t env hnum.symm j hj)
    · have hcond : ¬ ((!env.cfg.pmp || decide (pmp_get_num_rules env = 0)) = true) := by
        simp [hpmp, h0]
      rw [if_neg hcond] at htlb
      rcases pmp_get_tlb_size_loop_page t env (page_start t addr) (page_end t addr) hps
          t.MAX_RISCV_PMPS 0 htlb with ⟨k, _, hk, hoff, hcont, hbefore⟩ | hnone
      · have hfc : ∀ x, page_start t addr ≤ x → x ≤ page_end t addr →
            FirstCover t env x x k := by
          intro x hx1 hx2
          refine ⟨by omega, ?_, hoff, ?_, ?_⟩
          · intro j _ hj
            refine ⟨not_straddles_self env j x, ?_⟩
            intro hcov
            exact hbefore j (Nat.zero_le _) hj hcov.1 x hx1 hx2 hcov.2.1
          · unfold ContainsAll at hcont
            unfold InRange
            omega
          · unfold ContainsAll at hcont
            unfold InRange
            omega
        have hfa := hfc a ha.1 ha.2
        have hfb := hfc b hb.1 hb.2
        obtain ⟨p1, hp1, hr1⟩ :=
          pmp_hart_has_privs_of_first_cover t env a 1 privs ap1 mode k (by rw [hea]; exact hfa)
        obtain ⟨p2, hp2, hr2⟩ :=
          pmp_hart_has_privs_of_first_cover t env b 1 privs ap2 mode k (by rw [heb]; exact hfb)
        rw [hp1] at hp2
        refine ⟨((k : Int), p1), hr1, ?_⟩
        rw [hr2, Option.some.inj hp2]
      · apply hdefault
        intro j hj
        exact hnone j (Nat.zero_le _) (by omega)

/-- C23 at a concrete state: entry 0 is the whole page `[0x1000, 0x1FFF]`, the
hint for `0x1234` is the page size, and the U-mode reads of the first and of
the last byte of the page get the same answer. -/
theorem C23_tlb_hint_sound_witness :
    pmp_get_tlb_size rv32 page_region_state 0x1234 = rv32.TARGET_PAGE_SIZE ∧
    pmp_hart_has_privs rv32 page_region_state 0x1000 1 PMP_READ 0 PRV_U =
      some (0, PMP_READ) ∧
    ∃ r, pmp_hart_has_privs rv32 page_region_state 0x1000 1 PMP_READ 0 PRV_U = some r ∧
      pmp_hart_has_privs rv32 page_region_state 0x1FFF 1 PMP_READ 7 PRV_U = some r :=
  ⟨by decide, by decide,
    C23_tlb_hint_sound rv32 page_region_state 0x1234 0x1000 0x1FFF PMP_READ 0 7 PRV_U
      (by decide) (by decide) (by decide) (by decide) (by decide) (by decide) (by decide)⟩

end PMP
